import Mathlib

/-!
# Block synchronisation pipeline of gossamer: ready queue and chain processor

A shallow embedding of `dot/sync/block_queue.go` and of the chain processor
that consumes it, with the properties of the ready queue and of the
block-data pipeline proved over the embedding.

Conventions of the embedding:

* `common.Hash` (a 32-byte array) is read as a natural number; nothing below
  depends on the bound.
* a Go pointer that may be nil is an `Option`; a Go `error` is an
  `Option Error` carrying the message, `none` being the nil error.
* a Go map is a partial function from keys to values.
* a buffered channel is the list of the values it holds, oldest first; an
  operation that would block has the result `none`.
-/

namespace Gossamer

/-! ## Data model (package `types`) -/

/-- The type `common.Hash`: 32 bytes, read as a number. -/
abbrev Hash := Nat

/-- A Go `error`, identified with its message. -/
abbrev Error := String

/-- Modelled from the spec: `types.Header` (the package `types` is not part of
the sources at hand): parent hash, block number, state-root commitment and
consensus digest. -/
structure Header where
  ParentHash : Hash
  Number : Nat
  StateRoot : Hash
  Digest : List Nat
deriving DecidableEq, Repr

/-- A `types.Extrinsic`: opaque bytes. -/
abbrev Extrinsic := List Nat

/-- A `types.Body`: the ordered sequence of extrinsics of a block. -/
abbrev Body := List Extrinsic

/-- Modelled from the spec: `types.Block`, a header together with a body. The
chain processor tests build blocks with the two fields `Header` and `Body`;
the body is a slice, which may be nil (`none`). -/
structure Block where
  Header : Header
  Body : Option Body
deriving DecidableEq, Repr

/-- Modelled from the spec: `types.BlockData`, a partially populated record
keyed by a hash. `Header`, `Body` and `Justification` are pointers in the Go
type, so each of them may be absent. -/
structure BlockData where
  Hash : Hash
  Header : Option Header
  Body : Option Body
  Justification : Option (List Nat)
deriving DecidableEq, Repr

/-! ## The ready queue (`dot/sync/block_queue.go`) -/

/-- The struct `blockQueue`: the capacity, the buffered channel `ch` (its
contents, oldest first) and the map `blocks` guarded by the embedded mutex. The
elements are non-nil `*types.BlockData`: `push` dereferences its argument. -/
structure blockQueue where
  cap : Nat
  ch : List BlockData
  blocks : Hash → Option BlockData

namespace blockQueue

/-- The locked section of `push`: `q.blocks[bd.Hash] = bd`. -/
def store (q : blockQueue) (bd : BlockData) : blockQueue :=
  { q with blocks := fun h => if h = bd.Hash then some bd else q.blocks h }

/-- The channel send `q.ch <- bd` on the buffer: it goes through when the
buffer has room and blocks (`none`) when the buffer holds `cap` values. -/
def send (q : blockQueue) (bd : BlockData) : Option blockQueue :=
  if q.ch.length < q.cap then some { q with ch := q.ch ++ [bd] } else none

/-- The channel receive `<-q.ch` on the buffer: the oldest value, or blocked
(`none`) when the buffer is empty. -/
def recv (q : blockQueue) : Option (BlockData × blockQueue) :=
  match q.ch with
  | [] => none
  | bd :: rest => some (bd, { q with ch := rest })

/-- The locked section of `pop`: `delete(q.blocks, bd.Hash)`. -/
def remove (q : blockQueue) (h : Hash) : blockQueue :=
  { q with blocks := fun k => if k = h then none else q.blocks k }

/-- A completed `push`: the map update, then the channel send. `none` when the
send blocks. -/
def push (q : blockQueue) (bd : BlockData) : Option blockQueue :=
  (q.store bd).send bd

/-- A completed `pop`: the channel receive, then the deletion of the received
item's hash from the map; the item is returned. `none` when the receive
blocks. -/
def pop (q : blockQueue) : Option (BlockData × blockQueue) :=
  match q.recv with
  | none => none
  | some (bd, q1) => some (bd, q1.remove bd.Hash)

/-- The method `has`: whether the map has an entry for `hash`. -/
def has (q : blockQueue) (hash : Hash) : Bool :=
  (q.blocks hash).isSome

end blockQueue

/-- The constructor `newBlockQueue`: an empty channel of the given capacity and
an empty map. -/
def newBlockQueue (cap : Nat) : blockQueue :=
  { cap := cap, ch := [], blocks := fun _ => none }

/-- An operation on the queue by a caller: a push of an item, or a pop. -/
inductive QueueOp where
  | push (bd : BlockData)
  | pop
deriving DecidableEq, Repr

/-- One completed operation; `none` when the operation blocks. -/
def applyOp (q : blockQueue) : QueueOp → Option blockQueue
  | .push bd => q.push bd
  | .pop => (q.pop).map Prod.snd

/-- A sequence of completed operations, one after the other. -/
def runOps (q : blockQueue) : List QueueOp → Option blockQueue
  | [] => some q
  | op :: ops =>
    match applyOp q op with
    | none => none
    | some q1 => runOps q1 ops

/-- The hashes of the items held in the channel, oldest first. -/
def blockQueue.enqueued (q : blockQueue) : List Hash :=
  q.ch.map BlockData.Hash

/-- The number of pops in a sequence of operations. -/
def countPops : List QueueOp → Nat
  | [] => 0
  | .push _ :: ops => countPops ops
  | .pop :: ops => countPops ops + 1

/-- The items pushed by a sequence of operations, in order. -/
def pushedItems : List QueueOp → List BlockData
  | [] => []
  | .push bd :: ops => bd :: pushedItems ops
  | .pop :: ops => pushedItems ops

/-- Whether a sequence of operations pushes no item of the given hash. -/
def noPushOf (h : Hash) (ops : List QueueOp) : Bool :=
  (pushedItems ops).all (fun bd => decide (bd.Hash ≠ h))

/-- Whether every push of the sequence is of an item whose hash `has` reports
absent in the state the push starts from: the sequences produced by callers
that test `has` before they push. -/
def freshPushes (q : blockQueue) : List QueueOp → Bool
  | [] => true
  | op :: ops =>
    (match op with
      | .push bd => !q.has bd.Hash
      | .pop => true) &&
    (match applyOp q op with
      | none => true
      | some q1 => freshPushes q1 ops)

/-- Pushes of the items of a list, in order, each completed before the next
starts. -/
def pushAll (q : blockQueue) : List BlockData → Option blockQueue
  | [] => some q
  | bd :: bds =>
    match q.push bd with
    | none => none
    | some q1 => pushAll q1 bds

/-- The given number of successive pops: the items returned, in order, and the
queue left. -/
def popN (q : blockQueue) : Nat → Option (List BlockData × blockQueue)
  | 0 => some ([], q)
  | n + 1 =>
    match q.pop with
    | none => none
    | some (bd, q1) =>
      match popN q1 n with
      | none => none
      | some (bds, q2) => some (bd :: bds, q2)

/-! ### Interleaved calls

`push` and `pop` are not atomic: each is a locked map update and a channel
operation, and calls of several goroutines interleave between the two. The
system below runs any number of calls on one queue, one step at a time. -/

/-- Where one call of `push` or `pop` stands. -/
inductive Frame where
  /-- The call `push(bd)` has started and has not yet updated the map. -/
  | pushStore (bd : BlockData)
  /-- The call `push(bd)` is at `q.ch <- bd`. -/
  | pushSend (bd : BlockData)
  /-- The call of `push` has returned. -/
  | pushDone
  /-- The call of `pop` is at `bd := <-q.ch`. -/
  | popRecv
  /-- The call of `pop` has received `bd` and has not yet updated the map. -/
  | popDelete (bd : BlockData)
  /-- The call of `pop` has returned `bd`. -/
  | popDone (bd : BlockData)
deriving DecidableEq, Repr

/-- What happens on the channel in a step. -/
inductive ChanEvent where
  | sent (bd : BlockData)
  | received (bd : BlockData)
deriving DecidableEq, Repr

/-- A queue together with the calls in progress on it. -/
structure System where
  q : blockQueue
  calls : List Frame

/-- The scheduler's choice: call `i` takes its next step, or the sender `i`
hands its value over to the receiver `j` that waits on the empty channel (the
only way through a channel of capacity 0). -/
inductive Move where
  | run (i : Nat)
  | handoff (i j : Nat)
deriving DecidableEq, Repr

/-- One step of the system; `none` when the chosen call cannot move (it is
blocked on the channel, has returned, or does not exist). -/
def System.step (s : System) : Move → Option (List ChanEvent × System)
  | .run i =>
    match s.calls[i]? with
    | some (.pushStore bd) =>
      some ([], { q := s.q.store bd, calls := s.calls.set i (.pushSend bd) })
    | some (.pushSend bd) =>
      match s.q.send bd with
      | none => none
      | some q1 => some ([.sent bd], { q := q1, calls := s.calls.set i .pushDone })
    | some .popRecv =>
      match s.q.recv with
      | none => none
      | some (bd, q1) => some ([.received bd], { q := q1, calls := s.calls.set i (.popDelete bd) })
    | some (.popDelete bd) =>
      some ([], { q := s.q.remove bd.Hash, calls := s.calls.set i (.popDone bd) })
    | _ => none
  | .handoff i j =>
    match s.calls[i]?, s.calls[j]?, s.q.ch with
    | some (.pushSend bd), some .popRecv, [] =>
      some ([.sent bd, .received bd],
        { q := s.q, calls := (s.calls.set i .pushDone).set j (.popDelete bd) })
    | _, _, _ => none

/-- A run of the system along the scheduler's choices, with the channel events
in order; `none` when a chosen step cannot be taken. -/
def System.exec (s : System) : List Move → Option (List ChanEvent × System)
  | [] => some ([], s)
  | m :: ms =>
    match s.step m with
    | none => none
    | some (evs, s1) =>
      match System.exec s1 ms with
      | none => none
      | some (evs1, s2) => some (evs ++ evs1, s2)

/-- The system that starts from `newBlockQueue(cap)` with the given calls. -/
def System.start (cap : Nat) (calls : List Frame) : System :=
  { q := newBlockQueue cap, calls := calls }

/-- Whether a frame is a call of `push` that has not returned. -/
def Frame.pushing : Frame → Bool
  | .pushStore _ => true
  | .pushSend _ => true
  | _ => false

/-- Whether an event is a receive. -/
def ChanEvent.isReceived : ChanEvent → Bool
  | .received _ => true
  | .sent _ => false

/-- Whether an event is a send. -/
def ChanEvent.isSent : ChanEvent → Bool
  | .sent _ => true
  | .received _ => false

/-- Whether a frame is a call of `push` with an item of hash `h` that has not
yet updated the map. -/
def Frame.unstored (h : Hash) : Frame → Bool
  | .pushStore bd => decide (bd.Hash = h)
  | _ => false

/-- Whether a frame is a call that holds an item of hash `h` between the map
update of its push and the deletion by its pop: a push at its send, or a pop
that has received the item and not yet deleted its hash. -/
def Frame.holding (h : Hash) : Frame → Bool
  | .pushSend bd => decide (bd.Hash = h)
  | .popDelete bd => decide (bd.Hash = h)
  | _ => false

/-- Whether a frame is a call of `pop` that has returned an item of hash `h`. -/
def Frame.returned (h : Hash) : Frame → Bool
  | .popDone bd => decide (bd.Hash = h)
  | _ => false

/-- The number of calls of `push` with an item of hash `h` that have not yet
updated the map. -/
def System.unstored (s : System) (h : Hash) : Nat :=
  s.calls.countP (Frame.unstored h)

/-- The number of items of hash `h` between the map update of their push and
the deletion by their pop: held by a push at its send, in the channel, or
held by a pop that has not yet deleted the hash. -/
def System.live (s : System) (h : Hash) : Nat :=
  s.calls.countP (Frame.holding h) + s.q.ch.countP (fun bd => decide (bd.Hash = h))

/-- The number of calls of `pop` that have returned an item of hash `h`. -/
def System.returned (s : System) (h : Hash) : Nat :=
  s.calls.countP (Frame.returned h)

/-! ## The chain processor (`dot/sync/chain_processor.go`)

The file `chain_processor.go` is not among the sources at hand; its test
`chain_processor_test.go` is. The functions below are modelled from the
specification of the block-data pipeline, with the names, the signatures and
the error messages the test uses. Where the calls that the test expects of a
function differ from the steps of the specification, the function makes the
calls the test expects: the test is code of the repository.

The collaborators are interfaces. A call on a collaborator is recorded in a
trace, in the order of the calls; what the collaborator answers may depend on
everything that was called before, so each method takes the trace of the
earlier calls. -/

/-- Modelled from the spec: a `storage.TrieState`, the snapshot of the storage
state that the execution of a block reads and writes; here a handle. -/
abbrev TrieState := Nat

/-- Modelled from the spec: a call on a collaborator of the chain processor
(spec 6, and the mocks of the test), with its arguments. -/
inductive Call where
  | HasHeader (hash : Hash)
  | HasBlockBody (hash : Hash)
  | GetBlockByHash (hash : Hash)
  | AddBlockToBlockTree (block : Block)
  | GetHeader (hash : Hash)
  | GetRuntime (hash : Hash)
  | SetJustification (hash : Hash) (data : List Nat)
  | CompareAndSetBlockData (bd : BlockData)
  | Lock
  | Unlock
  | TrieState (root : Hash)
  | RemoveExtrinsic (ext : Extrinsic)
  | VerifyBlock (header : Option Header)
  | VerifyBlockJustification (hash : Hash) (data : List Nat)
  | HandleBlockImport (block : Block) (state : TrieState)
  | SetContextStorage (state : TrieState)
  | ExecuteBlock (block : Block)
  | SendMessage (block : Block)
deriving DecidableEq, Repr

/-- The calls made so far, oldest first. -/
abbrev Trace := List Call

/-- Modelled from the spec: the execution runtime instance; `SetContextStorage`
has no result. -/
structure Instance where
  ExecuteBlock : Trace → Block → Except Error (List Nat)

/-- Modelled from the spec: the interface `BlockState`, the block state store. -/
structure BlockState where
  HasHeader : Trace → Hash → Except Error Bool
  HasBlockBody : Trace → Hash → Except Error Bool
  GetBlockByHash : Trace → Hash → Except Error (Option Block)
  AddBlockToBlockTree : Trace → Block → Option Error
  GetHeader : Trace → Hash → Except Error Header
  GetRuntime : Trace → Hash → Except Error Instance
  SetJustification : Trace → Hash → List Nat → Option Error
  CompareAndSetBlockData : Trace → BlockData → Option Error

/-- Modelled from the spec: the interface `StorageState`; `Lock` and `Unlock`
have no result. -/
structure StorageState where
  TrieState : Trace → Hash → Except Error TrieState

/-- Modelled from the spec: the interface `BabeVerifier`, the header verifier. -/
structure BabeVerifier where
  VerifyBlock : Trace → Option Header → Option Error

/-- Modelled from the spec: the interface `FinalityGadget`, the finality
verifier. -/
structure FinalityGadget where
  VerifyBlockJustification : Trace → Hash → List Nat → Option Error

/-- Modelled from the spec: the interface `BlockImportHandler`. -/
structure BlockImportHandler where
  HandleBlockImport : Trace → Block → TrieState → Option Error

/-- Modelled from the spec: the struct `chainProcessor` with its collaborators.
The transaction pool (`RemoveExtrinsic`) and the telemetry sink (`SendMessage`)
give no result the processor looks at, so they have no field here; their calls
are in the trace. `headerHash` is the method `Hash` of `types.Header`, the
content hash of a header, taken as given. -/
structure chainProcessor where
  blockState : BlockState
  storageState : StorageState
  babeVerifier : BabeVerifier
  finalityGadget : FinalityGadget
  blockImportHandler : BlockImportHandler
  headerHash : Header → Hash

/-- Modelled from the spec: the error the pipeline gives for a nil item; the
message is the one `Test_chainProcessor_processBlockData` expects. -/
def ErrNilBlockData : Error := "got nil BlockData"

/-- Modelled from the spec: the error that wraps a failed verification of a
block. -/
def ErrInvalidBlock : Error := "could not verify block"

/-- Modelled from the spec: the error `handleBlock` gives for a nil block or a
nil body; the message is the one `Test_chainProcessor_handleBlock` expects. -/
def ErrNilBlockOrBody : Error := "block or body is nil"

/-- Modelled from the spec: the error for an item whose block cannot be got
from block state (spec 4.2, step 3). -/
def ErrMissingBlockData : Error := "missing/inconsistent block data"

namespace chainProcessor

/-- Modelled from the spec: `handleHeader` (spec 4.2, step 5): invoke the
header verifier on the header and wrap any verification failure as
"could not verify block: <cause>". A nil header is passed on to the verifier,
for which it is a verification failure. The block is not executed. -/
def handleHeader (s : chainProcessor) (header : Option Header) (tr : Trace) :
    Option Error × Trace :=
  match s.babeVerifier.VerifyBlock tr header with
  | none => (none, tr ++ [.VerifyBlock header])
  | some err => (some (ErrInvalidBlock ++ ": " ++ err), tr ++ [.VerifyBlock header])

/-- Modelled from the spec: `handleBody` (spec 4.2, step 7): every extrinsic of
the body is removed from the transaction pool; there is no failure. -/
def handleBody (_s : chainProcessor) (body : Body) (tr : Trace) : Trace :=
  body.foldl (fun t ext => t ++ [.RemoveExtrinsic ext]) tr

/-- Modelled from the spec: `handleJustification` (spec 4.2, step 8): a nil
header or a nil justification is a silent no-op. Otherwise the finality
verifier is invoked with the block's hash and the justification bytes; on a
verification failure the justification is discarded; on success it is
persisted with `SetJustification`, whose failure is logged only. The function
has no result. -/
def handleJustification (s : chainProcessor) (header : Option Header)
    (justification : Option (List Nat)) (tr : Trace) : Trace :=
  match header, justification with
  | some h, some j =>
    let tr1 := tr ++ [.VerifyBlockJustification (s.headerHash h) j]
    match s.finalityGadget.VerifyBlockJustification tr (s.headerHash h) j with
    | some _ => tr1
    | none =>
      let tr2 := tr1 ++ [.SetJustification (s.headerHash h) j]
      match s.blockState.SetJustification tr1 (s.headerHash h) j with
      | some _ => tr2
      | none => tr2
  | _, _ => tr

/-- Modelled from the spec: `handleBlock` (spec 4.2, step 6). A nil block or a
nil body is the error "block or body is nil". Otherwise: look up the parent
header and its storage-state snapshot; lock the storage state; set the
runtime's context storage to the snapshot; execute the block; hand the block
and the state to the block-import handler; unlock; send the telemetry message.
A failure of a collaborator is the error of the call; the lock is released on
every exit. -/
def handleBlock (s : chainProcessor) (block : Option Block) (tr : Trace) :
    Option Error × Trace :=
  match block with
  | none => (some ErrNilBlockOrBody, tr)
  | some block =>
    match block.Body with
    | none => (some ErrNilBlockOrBody, tr)
    | some _ =>
      let tr1 := tr ++ [.GetHeader block.Header.ParentHash]
      match s.blockState.GetHeader tr block.Header.ParentHash with
      | .error err => (some err, tr1)
      | .ok parent =>
        let tr2 := tr1 ++ [.TrieState parent.StateRoot]
        match s.storageState.TrieState tr1 parent.StateRoot with
        | .error err => (some err, tr2)
        | .ok ts =>
          let tr3 := tr2 ++ [.Lock]
          let tr4 := tr3 ++ [.GetRuntime (s.headerHash parent)]
          match s.blockState.GetRuntime tr3 (s.headerHash parent) with
          | .error err => (some err, tr4 ++ [.Unlock])
          | .ok rt =>
            let tr5 := tr4 ++ [.SetContextStorage ts]
            let tr6 := tr5 ++ [.ExecuteBlock block]
            match rt.ExecuteBlock tr5 block with
            | .error err => (some err, tr6 ++ [.Unlock])
            | .ok _ =>
              let tr7 := tr6 ++ [.HandleBlockImport block ts]
              match s.blockImportHandler.HandleBlockImport tr6 block ts with
              | some err => (some err, tr7 ++ [.Unlock])
              | none => (none, tr7 ++ [.Unlock, .SendMessage block])

/-- Modelled from the spec: the pipeline for an item whose header and body
block state already has (spec 4.2, steps 2 to 4, and the calls that the case
"handle block import" of `Test_chainProcessor_processBlockData` expects for
the known hash). The block is looked up in block state by the hash of the item,
a lookup that gives no block being the rejection "missing/inconsistent block
data"; the block is attached to the block tree, a failure being surfaced (the
case "error adding block data" of the test); a justification of the item is
handled, with the header of the block; the trie state of the state root of the
block is loaded and the block is handed with it to the block-import handler.
The block is not executed and `CompareAndSetBlockData` is not called. -/
def handleKnown (s : chainProcessor) (bd : BlockData) (tr : Trace) : Option Error × Trace :=
  let tr1 := tr ++ [.GetBlockByHash bd.Hash]
  match s.blockState.GetBlockByHash tr bd.Hash with
  | .error err => (some err, tr1)
  | .ok none => (some ErrMissingBlockData, tr1)
  | .ok (some block) =>
    let tr2 := tr1 ++ [.AddBlockToBlockTree block]
    match s.blockState.AddBlockToBlockTree tr1 block with
    | some err => (some err, tr2)
    | none =>
      let tr3 :=
        match bd.Justification with
        | some j => s.handleJustification (some block.Header) (some j) tr2
        | none => tr2
      let tr4 := tr3 ++ [.TrieState block.Header.StateRoot]
      match s.storageState.TrieState tr3 block.Header.StateRoot with
      | .error err => (some err, tr4)
      | .ok ts =>
        (s.blockImportHandler.HandleBlockImport tr4 block ts,
          tr4 ++ [.HandleBlockImport block ts])

/-- Modelled from the spec: the pipeline for an item that block state does not
have in full (spec 4.2, steps 5 to 8, and the calls that the cases "has
header/body false", "handle header" and "handle justification" of
`Test_chainProcessor_processBlockData` expect). The header of an item that
carries one is verified (header handling; the test expects `VerifyBlock` for
the items with header and body); an item with header and body is handled as a
block; the body of an item that carries one is handled; a justification is
handled; at the end the item is recorded with `CompareAndSetBlockData`, whose
error is surfaced. Block state is not asked for the block and nothing is
attached to the block tree. -/
def handleParts (s : chainProcessor) (bd : BlockData) (tr : Trace) : Option Error × Trace :=
  let r5 : Option Error × Trace :=
    match bd.Header with
    | some h => s.handleHeader (some h) tr
    | none => (none, tr)
  match r5 with
  | (some err, tr5) => (some err, tr5)
  | (none, tr5) =>
    let r6 : Option Error × Trace :=
      match bd.Header, bd.Body with
      | some h, some b => s.handleBlock (some { Header := h, Body := some b }) tr5
      | _, _ => (none, tr5)
    match r6 with
    | (some err, tr6) => (some err, tr6)
    | (none, tr6) =>
      let tr7 :=
        match bd.Body with
        | some body => s.handleBody body tr6
        | none => tr6
      let tr8 :=
        match bd.Justification with
        | some j => s.handleJustification bd.Header (some j) tr7
        | none => tr7
      (s.blockState.CompareAndSetBlockData tr8 bd, tr8 ++ [.CompareAndSetBlockData bd])

/-- Modelled from the spec: `processBlockData` (spec 4.2, and the calls that
`Test_chainProcessor_processBlockData` expects).
1. a nil item is rejected with "got nil BlockData";
2. block state is asked whether it has the header and the body of the hash, an
   error of either query being surfaced;
3. when it has both, the block is taken from block state, attached to the
   block tree and handed to the block-import handler, without execution, see
   `handleKnown`;
4. otherwise the parts of the item are handled and the item is recorded with
   `CompareAndSetBlockData`, see `handleParts`. -/
def processBlockData (s : chainProcessor) (bd : Option BlockData) (tr : Trace) :
    Option Error × Trace :=
  match bd with
  | none => (some ErrNilBlockData, tr)
  | some bd =>
    let tr1 := tr ++ [.HasHeader bd.Hash]
    match s.blockState.HasHeader tr bd.Hash with
    | .error err => (some err, tr1)
    | .ok hasHeader =>
      let tr2 := tr1 ++ [.HasBlockBody bd.Hash]
      match s.blockState.HasBlockBody tr1 bd.Hash with
      | .error err => (some err, tr2)
      | .ok hasBody =>
        if hasHeader && hasBody then s.handleKnown bd tr2
        else s.handleParts bd tr2

end chainProcessor

/-- Whether a call is `SetJustification`. -/
def Call.isSetJustification : Call → Bool
  | .SetJustification _ _ => true
  | _ => false

/-- Whether a call is `ExecuteBlock`. -/
def Call.isExecuteBlock : Call → Bool
  | .ExecuteBlock _ => true
  | _ => false

/-- Whether a call is `HandleBlockImport`. -/
def Call.isHandleBlockImport : Call → Bool
  | .HandleBlockImport _ _ => true
  | _ => false

/-- Whether a call is `CompareAndSetBlockData`. -/
def Call.isCompareAndSetBlockData : Call → Bool
  | .CompareAndSetBlockData _ => true
  | _ => false

/-- Whether a call is `Lock` or `Unlock` of the storage state. -/
def Call.isLockOp : Call → Bool
  | .Lock => true
  | .Unlock => true
  | _ => false

/-- Whether a call is `SendMessage`. -/
def Call.isSendMessage : Call → Bool
  | .SendMessage _ => true
  | _ => false

/-- The name of the method that a call is of. -/
def Call.method : Call → String
  | .HasHeader _ => "HasHeader"
  | .HasBlockBody _ => "HasBlockBody"
  | .GetBlockByHash _ => "GetBlockByHash"
  | .AddBlockToBlockTree _ => "AddBlockToBlockTree"
  | .GetHeader _ => "GetHeader"
  | .GetRuntime _ => "GetRuntime"
  | .SetJustification _ _ => "SetJustification"
  | .CompareAndSetBlockData _ => "CompareAndSetBlockData"
  | .Lock => "Lock"
  | .Unlock => "Unlock"
  | .TrieState _ => "TrieState"
  | .RemoveExtrinsic _ => "RemoveExtrinsic"
  | .VerifyBlock _ => "VerifyBlock"
  | .VerifyBlockJustification _ _ => "VerifyBlockJustification"
  | .HandleBlockImport _ _ => "HandleBlockImport"
  | .SetContextStorage _ => "SetContextStorage"
  | .ExecuteBlock _ => "ExecuteBlock"
  | .SendMessage _ => "SendMessage"

/-- How many calls of the method of the given name a trace has. -/
def callsOf (name : String) (tr : Trace) : Nat :=
  tr.countP (fun c => decide (c.method = name))

/-- The extrinsic a call removes from the transaction pool, if it is
`RemoveExtrinsic`. -/
def Call.removed : Call → Option Extrinsic
  | .RemoveExtrinsic ext => some ext
  | _ => none

/-! ### The worker loop

Modelled from the spec (4.2 and 5): `processReadyBlocks` runs one loop; at the
top of each iteration it checks the cancellation signal and returns when the
signal has fired; otherwise it calls `pop` on the ready queue and hands the
popped item to `processBlockData`; an error of `processBlockData` is reported
and the loop goes on. The `pop` is that of `block_queue.go`: a receive on the
channel, which takes no cancellation signal. Producers push items and the
signal fires at any moment between the steps of the worker. -/

/-- Where the worker stands: at the top of an iteration, inside `pop`, or
returned. -/
inductive WorkerPc where
  | top
  | inPop
  | exited
deriving DecidableEq, Repr

/-- Modelled from the spec: the worker with its ready queue. `cancelled` tells
whether the cancellation signal has fired, `tr` is the trace of the calls on
the collaborators, `processed` lists the items handed to `processBlockData`
and `failures` the errors reported, both oldest first. -/
structure Worker where
  q : blockQueue
  pc : WorkerPc
  cancelled : Bool
  tr : Trace
  processed : List BlockData
  failures : List Error

/-- What can happen next: a producer completes a push, the cancellation signal
fires, or the worker takes its next step. -/
inductive WorkerEvent where
  | push (bd : BlockData)
  | cancel
  | step
deriving DecidableEq, Repr

/-- Modelled from the spec: one event on the worker of `processReadyBlocks`;
`none` when the event cannot happen (the push blocks on a full queue, the
worker is blocked in `pop` on an empty queue, or the worker has returned). -/
def chainProcessor.processReadyBlocks (s : chainProcessor) (w : Worker) :
    WorkerEvent → Option Worker
  | .push bd =>
    match w.q.push bd with
    | none => none
    | some q1 => some { w with q := q1 }
  | .cancel => some { w with cancelled := true }
  | .step =>
    match w.pc with
    | .top => if w.cancelled then some { w with pc := .exited } else some { w with pc := .inPop }
    | .inPop =>
      match w.q.pop with
      | none => none
      | some (bd, q1) =>
        let r := s.processBlockData (some bd) w.tr
        some { q := q1, pc := .top, cancelled := w.cancelled, tr := r.2,
               processed := w.processed ++ [bd], failures := w.failures ++ r.1.toList }
    | .exited => none

/-- A run of the worker along a sequence of events; `none` when one of them
cannot happen. -/
def chainProcessor.runWorker (s : chainProcessor) (w : Worker) : List WorkerEvent → Option Worker
  | [] => some w
  | e :: es =>
    match s.processReadyBlocks w e with
    | none => none
    | some w1 => s.runWorker w1 es

/-- The worker as `go s.processReadyBlocks()` starts it on a queue: at the top
of its first iteration, the signal not fired. -/
def Worker.start (q : blockQueue) (tr : Trace) : Worker :=
  { q := q, pc := .top, cancelled := false, tr := tr, processed := [], failures := [] }

/-- The items pushed by a sequence of events, in order. -/
def pushedByEvents : List WorkerEvent → List BlockData
  | [] => []
  | .push bd :: es => bd :: pushedByEvents es
  | _ :: es => pushedByEvents es

/-- Whether the signal fires in a sequence of events. -/
def hasCancel (es : List WorkerEvent) : Bool :=
  es.any (fun e => decide (e = .cancel))

/-- The pipeline run on a list of items one after the other: the errors
reported and the trace, as the loop accumulates them. -/
def chainProcessor.processAll (s : chainProcessor) :
    List BlockData → List Error × Trace → List Error × Trace
  | [], acc => acc
  | bd :: bds, (errs, tr) =>
    let r := s.processBlockData (some bd) tr
    s.processAll bds (errs ++ r.1.toList, r.2)

/-! ### Collaborators of the tests -/

/-- The header verifier of `Test_chainProcessor_handleHeader`: a nil header is
the error "nil header", any other header is accepted. -/
def testBabeVerifier : BabeVerifier :=
  { VerifyBlock := fun _ h =>
      match h with
      | none => some "nil header"
      | some _ => none }

/-- The finality verifier of `Test_chainProcessor_handleJustification`: a
justification of fewer than 2 bytes is the error "error". -/
def testFinalityGadget : FinalityGadget :=
  { VerifyBlockJustification := fun _ _ j => if j.length < 2 then some "error" else none }

/-- The block state of `Test_chainProcessor_handleJustification`:
`SetJustification` fails with "fake error" on the bytes of "xx". The other
methods, which the test does not call, answer with the error "unexpected
call". -/
def testBlockState : BlockState :=
  { HasHeader := fun _ _ => .error "unexpected call"
    HasBlockBody := fun _ _ => .error "unexpected call"
    GetBlockByHash := fun _ _ => .error "unexpected call"
    AddBlockToBlockTree := fun _ _ => some "unexpected call"
    GetHeader := fun _ _ => .error "unexpected call"
    GetRuntime := fun _ _ => .error "unexpected call"
    SetJustification := fun _ _ j => if j = [120, 120] then some "fake error" else none
    CompareAndSetBlockData := fun _ _ => some "unexpected call" }

/-- A chain processor with the collaborators of the tests; the header hash is
the block number. -/
def testProcessor : chainProcessor :=
  { blockState := testBlockState
    storageState := { TrieState := fun _ _ => .error "unexpected call" }
    babeVerifier := testBabeVerifier
    finalityGadget := testFinalityGadget
    blockImportHandler := { HandleBlockImport := fun _ _ _ => some "unexpected call" }
    headerHash := fun h => h.Number }

/-- A block state that accepts everything and has the header and the body of a
hash once a block with that number went through `HandleBlockImport`, the block
that `GetBlockByHash` then gives for the hash; the runtime it gives executes
every block. -/
def importingBlockState : BlockState :=
  { HasHeader := fun tr h => .ok (tr.any (fun c =>
      match c with
      | .HandleBlockImport b _ => decide (b.Header.Number = h)
      | _ => false))
    HasBlockBody := fun tr h => .ok (tr.any (fun c =>
      match c with
      | .HandleBlockImport b _ => decide (b.Header.Number = h)
      | _ => false))
    GetBlockByHash := fun tr h => .ok (tr.findSome? (fun c =>
      match c with
      | .HandleBlockImport b _ => if b.Header.Number = h then some b else none
      | _ => none))
    AddBlockToBlockTree := fun _ _ => none
    GetHeader := fun _ _ => .ok { ParentHash := 0, Number := 0, StateRoot := 7, Digest := [] }
    GetRuntime := fun _ _ => .ok { ExecuteBlock := fun _ _ => .ok [] }
    SetJustification := fun _ _ _ => none
    CompareAndSetBlockData := fun _ _ => none }

/-- A chain processor all of whose collaborators succeed; the header hash is
the block number and the trie state of every root is the snapshot 5. -/
def okProcessor : chainProcessor :=
  { blockState := importingBlockState
    storageState := { TrieState := fun _ _ => .ok 5 }
    babeVerifier := testBabeVerifier
    finalityGadget := testFinalityGadget
    blockImportHandler := { HandleBlockImport := fun _ _ _ => none }
    headerHash := fun h => h.Number }

/-- A chain processor like `okProcessor` whose header verifier rejects the
headers of number 0. -/
def rejectingProcessor : chainProcessor :=
  { okProcessor with
    babeVerifier := { VerifyBlock := fun _ h =>
      match h with
      | none => some "nil header"
      | some h => if h.Number = 0 then some "bad header" else none } }

/-- The block state mocked in `Test_chainProcessor_processBlockData`: it has
the header and the body of every hash but the empty one (here 0);
`AddBlockToBlockTree` fails with "fake error adding block" on a block of number
1; `GetHeader` gives a header of number 0; the other methods succeed. For a
hash that is not empty `GetBlockByHash` gives a block whose number is the first
byte of the hash (the hashes of the test have three bytes), the number that
the mock computes and that the error expected for the hash 0x010203 requires;
the block the mock builds has the number 0 at this commit. -/
def mockBlockState : BlockState :=
  { HasHeader := fun _ h => .ok (decide (h ≠ 0))
    HasBlockBody := fun _ h => .ok (decide (h ≠ 0))
    GetBlockByHash := fun _ h =>
      if h = 0 then .ok none
      else .ok (some { Header := { ParentHash := 0, Number := h / 65536, StateRoot := 0,
                                   Digest := [] },
                       Body := none })
    AddBlockToBlockTree := fun _ b =>
      if b.Header.Number = 1 then some "fake error adding block" else none
    GetHeader := fun _ _ => .ok { ParentHash := 0, Number := 0, StateRoot := 3, Digest := [] }
    GetRuntime := fun _ _ => .ok { ExecuteBlock := fun _ _ => .ok [] }
    SetJustification := fun _ _ _ => none
    CompareAndSetBlockData := fun _ _ => none }

/-- The chain processor of `Test_chainProcessor_processBlockData`, every mock
of which returns nil; the header hash is the block number. -/
def mockProcessor : chainProcessor :=
  { blockState := mockBlockState
    storageState := { TrieState := fun _ _ => .ok 0 }
    babeVerifier := { VerifyBlock := fun _ _ => none }
    finalityGadget := { VerifyBlockJustification := fun _ _ _ => none }
    blockImportHandler := { HandleBlockImport := fun _ _ _ => none }
    headerHash := fun h => h.Number }

/-- The items of the cases of `Test_chainProcessor_processBlockData`, in the
order of the test: nil, the empty item, the hashes 0x010203 and 0x020203, an
item with a header and an empty body, and that item with a justification. -/
def mockItems : List (Option BlockData) :=
  [none,
   some { Hash := 0, Header := none, Body := none, Justification := none },
   some { Hash := 66051, Header := none, Body := none, Justification := none },
   some { Hash := 131587, Header := none, Body := none, Justification := none },
   some { Hash := 0, Header := some { ParentHash := 0, Number := 0, StateRoot := 0, Digest := [] },
          Body := some [], Justification := none },
   some { Hash := 0, Header := some { ParentHash := 0, Number := 0, StateRoot := 0, Digest := [] },
          Body := some [], Justification := some [0, 1, 2] }]

/-- The pipeline run on a list of items, nil ones included, one after the
other: the result of each item, in order, and the trace. -/
def chainProcessor.processEach (s : chainProcessor) :
    List (Option BlockData) → Trace → List (Option Error) × Trace
  | [], tr => ([], tr)
  | bd :: bds, tr =>
    let r := s.processBlockData bd tr
    let rest := s.processEach bds r.2
    (r.1 :: rest.1, rest.2)

/-- The body of `Test_chainProcessor_handleBody`: three extrinsics. -/
def testBody : Body := [[1, 2, 3], [7, 8, 9, 0], [10, 11]]

/-- A full item of hash 1: header of number 1, the body `testBody` and a
justification of three bytes. -/
def fullItem : BlockData :=
  { Hash := 1
    Header := some { ParentHash := 0, Number := 1, StateRoot := 9, Digest := [] }
    Body := some testBody
    Justification := some [0, 1, 2] }

/-- The block of `fullItem`. -/
def fullBlock : Block :=
  { Header := { ParentHash := 0, Number := 1, StateRoot := 9, Digest := [] }
    Body := some testBody }

/-- The header `&types.Header{Number: 0}` of the tests. -/
def testHeader : Header := { ParentHash := 0, Number := 0, StateRoot := 0, Digest := [] }

/-! ### Concrete items used in the examples -/

/-- An item with hash 1 and no other field. -/
def itemA : BlockData := { Hash := 1, Header := none, Body := none, Justification := none }

/-- Another item with hash 1, carrying a header. -/
def itemB : BlockData :=
  { Hash := 1, Header := some { ParentHash := 0, Number := 1, StateRoot := 0, Digest := [] },
    Body := none, Justification := none }

/-- An item with hash 2. -/
def itemC : BlockData := { Hash := 2, Header := none, Body := none, Justification := none }

/-- A queue of capacity 3 that holds `itemA` and `itemC`. -/
def twoItemQueue : blockQueue :=
  { cap := 3, ch := [itemA, itemC],
    blocks := fun h => if h = 1 then some itemA else if h = 2 then some itemC else none }

/-- A system whose queue, of capacity 1, is full: it holds `itemA`; a call
`push(itemC)` stands at its send and a call of `pop` at its receive. -/
def fullSystem : System :=
  { q := { cap := 1, ch := [itemA],
           blocks := fun h => if h = 2 then some itemC else if h = 1 then some itemA else none },
    calls := [.pushSend itemC, .popRecv] }

/-- A system on a new queue of capacity 1 with a call `push(itemA)` that has
not started and a call of `pop` at its receive. -/
def emptySystem : System := System.start 1 [.pushStore itemA, .popRecv]

/-- A system whose queue, of capacity 2, holds `itemC`, with a call of `pop`
at its receive, a call `push(itemA)` that has not started, and a second call
of `pop` at its receive. -/
def busySystem : System :=
  { q := { cap := 2, ch := [itemC], blocks := fun h => if h = 2 then some itemC else none },
    calls := [.popRecv, .pushStore itemA, .popRecv] }

/-- A system on an empty queue of capacity 2 in which a call of `pop` has
received `itemA` and has not yet deleted its hash, and a call `push(itemB)`,
of the same hash, has not started. -/
def lateDeleteSystem : System :=
  { q := { cap := 2, ch := [], blocks := fun h => if h = 1 then some itemA else none },
    calls := [.popDelete itemA, .pushStore itemB] }

/-! ## Properties of the ready queue -/

/-- A full item of hash 4 whose header has the number 0. -/
def itemD : BlockData :=
  { Hash := 4
    Header := some { ParentHash := 0, Number := 0, StateRoot := 0, Digest := [] }
    Body := some []
    Justification := none }

/-- A queue of capacity 3 that holds `itemD`, which `rejectingProcessor`
rejects (its header has the number 0), and then `fullItem`. -/
def failingFirstQueue : blockQueue :=
  { cap := 3, ch := [itemD, fullItem],
    blocks := fun h => if h = 4 then some itemD else if h = 1 then some fullItem else none }

/-- A worker at the top of an iteration on the queue `twoItemQueue`, the
cancellation signal fired. -/
def cancelledWorker : Worker :=
  { q := twoItemQueue, pc := .top, cancelled := true, tr := [], processed := [], failures := [] }

/-! ## The GRANDPA handshake (`lib/grandpa/network.go`) -/

/-- The type `common.Roles`, a byte. -/
abbrev Roles := Nat

/-- The role constants of package `common` that `network.go` names. The
package is not among the sources, so their values are taken as given. -/
structure RoleConstants where
  AuthorityRole : Roles
  FullNodeRole : Roles

/-- The struct `GrandpaHandshake`. -/
structure GrandpaHandshake where
  Roles : Roles
deriving DecidableEq, Repr

/-- The method `IsValid`: a switch on the roles, true for the authority role
and the full-node role and false for anything else. -/
def GrandpaHandshake.IsValid (c : RoleConstants) (hs : GrandpaHandshake) : Bool :=
  if hs.Roles = c.AuthorityRole ∨ hs.Roles = c.FullNodeRole then true else false

/-! ## The pruner (`dot/state/prune.go`) -/

/-- The value of an integer as an `int64`, with wrap-around. -/
def wrapInt64 (x : Int) : Int := (x + 2 ^ 63) % 2 ^ 64 - 2 ^ 63

/-- A `trie.Trie` as the pruner uses it: `GetNodeHashes` from the root gives
the hashes of the nodes of the trie, or fails. -/
structure Trie where
  GetNodeHashes : Except Error (List Hash)

/-- The block state the pruner reads: `GetFinalizedHash(0, 0)` and
`GetHeader`. -/
structure PrunerBlockState where
  GetFinalizedHash : Except Error Hash
  GetHeader : Hash → Except Error Header

/-- The storage state the pruner reads: `LoadFromDB` of a state root. -/
structure PrunerStorageState where
  LoadFromDB : Hash → Except Error Trie

/-- The bloom filter of the pruner (`bloomState`, declared outside the sources
at hand): `put` of a hash, which may fail, and `contain` of a key. -/
structure bloomState where
  put : Hash → Option Error
  contain : List Nat → Bool

/-- The struct `Pruner`, with the fields `SetBloomFilter` and `Prune` use.
`storagePrefix` is the package-level constant of that name, declared outside
the sources at hand and taken as given. -/
structure Pruner where
  storageState : PrunerStorageState
  blockState : PrunerBlockState
  bloom : bloomState
  retainBlockNum : Int
  storagePrefix : List Nat

/-- The statement `tr.GetNodeHashes(tr.RootNode(), keys)` on the map `keys`: the
hashes are added to the keys, each key once. -/
def addKeys (keys : List Hash) (hashes : List Hash) : List Hash :=
  hashes.foldl (fun ks h => if h ∈ ks then ks else ks ++ [h]) keys

/-- The loop of `SetBloomFilter` over the blocks, from the header it starts
with towards the parents: while `blockNum > 0 && blockNum >=
latestBlockNum-p.retainBlockNum` it loads the trie of the header's state root,
adds the hashes of its nodes to `keys` and goes on with the parent header.
`none` when the given number of iterations does not reach the end. -/
def Pruner.collectKeys (p : Pruner) (latestBlockNum : Int) :
    Nat → Header → Int → List Hash → Option (Except Error (List Hash))
  | 0, _, _, _ => none
  | fuel + 1, header, blockNum, keys =>
    if 0 < blockNum ∧ wrapInt64 (latestBlockNum - wrapInt64 p.retainBlockNum) ≤ blockNum then
      match p.storageState.LoadFromDB header.StateRoot with
      | .error err => some (.error err)
      | .ok tr =>
        match tr.GetNodeHashes with
        | .error err => some (.error err)
        | .ok hashes =>
          match p.blockState.GetHeader header.ParentHash with
          | .error err => some (.error err)
          | .ok parent =>
            p.collectKeys latestBlockNum fuel parent (wrapInt64 parent.Number)
              (addKeys keys hashes)
    else some (.ok keys)

/-- The loop `for key := range keys` of `SetBloomFilter`: each key is put into
the bloom filter; the first failure is returned. The keys put are listed. -/
def Pruner.putKeys (p : Pruner) : List Hash → List Hash → Option Error × List Hash
  | [], put => (none, put)
  | key :: keys, put =>
    match p.bloom.put key with
    | some err => (some err, put)
    | none => p.putKeys keys (put ++ [key])

/-- The method `SetBloomFilter`: the error it returns and the keys it has put
into the bloom filter. `none` when the block loop does not end within `fuel`
iterations. -/
def Pruner.SetBloomFilter (p : Pruner) (fuel : Nat) : Option (Option Error × List Hash) :=
  match p.blockState.GetFinalizedHash with
  | .error err => some (some err, [])
  | .ok finalisedHash =>
    match p.blockState.GetHeader finalisedHash with
    | .error err => some (some err, [])
    | .ok header =>
      let latestBlockNum := wrapInt64 header.Number
      if wrapInt64 (latestBlockNum - wrapInt64 p.retainBlockNum) ≤ 0 then
        some (some "not enough block to perform pruning", [])
      else
        match p.collectKeys latestBlockNum fuel header (wrapInt64 header.Number) [] with
        | none => none
        | some (.error err) => some (some err, [])
        | some (.ok keys) => some (p.putKeys keys [])

/-- The function `strings.HasPrefix` on the bytes of a string. -/
def hasPrefix (s pre : List Nat) : Bool := pre.isPrefixOf s

/-- The function `strings.TrimPrefix`: the string without the leading `pre`,
or the string itself when it does not start with `pre`. -/
def trimPrefix (s pre : List Nat) : List Nat :=
  if hasPrefix s pre then s.drop pre.length else s

/-- The key filter `stream.ChooseKey` that `Prune` installs: whether the item
with the given key is streamed to the pruned database. -/
def Pruner.ChooseKey (p : Pruner) (key : List Nat) : Bool :=
  if !hasPrefix key p.storagePrefix then true
  else p.bloom.contain (trimPrefix key p.storagePrefix)

/-! ### A chain of four blocks -/

/-- The header of block `n` of the example chain: hash `10 + n`, parent hash
`10 + n - 1`, state root `100 + n`. -/
def exampleHeader (n : Nat) : Header :=
  { ParentHash := 10 + n - 1, Number := n, StateRoot := 100 + n, Digest := [] }

/-- The storage of the example: the state trie of block `n`, under the root
`100 + n`, has the nodes `1000 + n` and 999. -/
def exampleStorage : PrunerStorageState :=
  { LoadFromDB := fun root =>
      if 100 ≤ root ∧ root ≤ 103 then .ok { GetNodeHashes := .ok [900 + root, 999] }
      else .error "trie not found" }

/-- The block state of the example: the blocks 0 to 3, the finalised head being
block 3 (hash 13). -/
def exampleBlocks : PrunerBlockState :=
  { GetFinalizedHash := .ok 13,
    GetHeader := fun h =>
      if 10 ≤ h ∧ h ≤ 13 then .ok (exampleHeader (h - 10)) else .error "header not found" }

/-- A pruner on the example database, to retain one block; the storage prefix
is the bytes of "storage" and the bloom filter has the key `[7, 7]`. -/
def examplePruner : Pruner :=
  { storageState := exampleStorage,
    blockState := exampleBlocks,
    bloom := { put := fun _ => none, contain := fun key => decide (key = [7, 7]) },
    retainBlockNum := 1,
    storagePrefix := [115, 116, 111, 114, 97, 103, 101] }

/-! ## The telemetry mailer (`dot/telemetry/mailer.go`) -/

/-- A telemetry `Message`, opaque. -/
abbrev Message := Nat

/-- The capacity of the global `messageQueue`. -/
def messageQueueCap : Nat := 256

/-- The error `ErrTimoutMessageSending`. -/
def ErrTimoutMessageSending : Error := "timeout sending telemetry message"

/-- How a call of `SendMessage` returns: the error, the tick at which the
`select` fired, and the contents of `messageQueue` right after the send when
the message was sent. -/
structure SendResult where
  err : Option Error
  tick : Nat
  queue : Option (List Message)
deriving DecidableEq, Repr

/-- The `select` of `SendMessage`, from tick `t` on. Time is counted in ticks
from the creation of the timer, which fires at tick `timeout`
(`messageTimeout`, one second); `queueAt t` is what `messageQueue` holds at
tick `t`, as the other senders and the shipper leave it. At each tick the
cases that are ready are: the send, when the queue holds fewer than 256
messages, and the timer, when it has fired. With one case ready the `select`
takes it; with both ready it takes either; with none it waits for the next
tick. After a send, `timer.Stop()` is false exactly when the timer has fired,
and then `<-timer.C` receives the value the timer has left in its channel, so
the drain does not block. The results are all the ways the call can return. -/
def selectFrom (queueAt : Nat → List Message) (msg : Message) (timeout : Nat) :
    Nat → Nat → List SendResult
  | 0, _ => []
  | fuel + 1, t =>
    let canSend := decide ((queueAt t).length < messageQueueCap)
    let fired := decide (timeout ≤ t)
    let sent : SendResult := { err := none, tick := t, queue := some (queueAt t ++ [msg]) }
    let timedOut : SendResult := { err := some ErrTimoutMessageSending, tick := t, queue := none }
    if canSend && fired then [sent, timedOut]
    else if canSend then [sent]
    else if fired then [timedOut]
    else selectFrom queueAt msg timeout fuel (t + 1)

/-- The function `SendMessage`: the timer is created and the `select` entered
at tick 0; by tick `timeout` one of the cases is ready. -/
def SendMessage (queueAt : Nat → List Message) (msg : Message) (timeout : Nat) :
    List SendResult :=
  selectFrom queueAt msg timeout (timeout + 1) 0

/-- A queue that is full until tick 3 and holds 255 messages from then on. -/
def drainingQueue (t : Nat) : List Message :=
  if t < 3 then List.replicate 256 0 else List.replicate 255 0

/-! ## The GRANDPA network handler (`lib/grandpa/network.go`) -/

/-- A `peer.ID`, opaque. -/
abbrev PeerID := Nat

/-- The struct `network.ConsensusMessage`, with its data bytes. -/
structure ConsensusMessage where
  Data : List Nat
deriving DecidableEq, Repr

/-- A non-nil value of the interface `NotificationsMessage`: a
`*ConsensusMessage`, whose pointer may itself be nil, or a message of another
type. The nil interface is `none` of `Option NotificationsMessage`. -/
inductive NotificationsMessage where
  | consensus (cm : Option ConsensusMessage)
  | other (tag : Nat)
deriving DecidableEq, Repr

/-- A decoded `GrandpaMessage`: a pointer to one of the five message types, the
contents opaque. -/
inductive GrandpaMessage where
  | VoteMessage (v : Nat)
  | CommitMessage (v : Nat)
  | NeighbourPacketV1 (v : Nat)
  | CatchUpRequest (v : Nat)
  | CatchUpResponse (v : Nat)
deriving DecidableEq, Repr

/-- What `Value()` of a versioned neighbour packet gives. -/
inductive NeighbourValue where
  | NeighbourPacketV1 (v : Nat)
  | other (tag : Nat)
deriving DecidableEq, Repr

/-- What `Value()` of the varying data type of a GRANDPA message gives. -/
inductive MessageValue where
  | VoteMessage (v : Nat)
  | CommitMessage (v : Nat)
  | VersionedNeighbourPacket (value : Except Error NeighbourValue)
  | CatchUpRequest (v : Nat)
  | CatchUpResponse (v : Nat)
  | other (tag : Nat)

/-- The parts of the `Service` that `handleNetworkMessage` uses, all declared
outside the sources at hand and taken as given: `Unmarshal` is
`scale.Unmarshal` into a new GRANDPA message, giving what `Value()` of the
result returns; `handleMessage` is the method of the message handler;
`ErrInvalidMessageType` is the error constant of that name. -/
structure Service where
  Unmarshal : List Nat → Except Error (Except Error MessageValue)
  handleMessage : PeerID → GrandpaMessage → Except Error (Option NotificationsMessage)
  ErrInvalidMessageType : Error

/-- The function `decodeMessage`: the data of a consensus message is
unmarshalled and the value is sorted by its type. -/
def Service.decodeMessage (s : Service) (cm : ConsensusMessage) : Except Error GrandpaMessage :=
  match s.Unmarshal cm.Data with
  | .error err => .error err
  | .ok value =>
    match value with
    | .error err => .error ("getting message value: " ++ err)
    | .ok (.VoteMessage v) => .ok (.VoteMessage v)
    | .ok (.CommitMessage v) => .ok (.CommitMessage v)
    | .ok (.VersionedNeighbourPacket inner) =>
      match inner with
      | .error err => .error ("getting versioned neighbour packet value: " ++ err)
      | .ok (.NeighbourPacketV1 v) => .ok (.NeighbourPacketV1 v)
      | .ok (.other _) => .error s.ErrInvalidMessageType
    | .ok (.CatchUpRequest v) => .ok (.CatchUpRequest v)
    | .ok (.CatchUpResponse v) => .ok (.CatchUpResponse v)
    | .ok (.other _) => .error s.ErrInvalidMessageType

/-- What a call of `handleNetworkMessage` returns and does: the two results,
the calls it made of `handleMessage` and the messages it handed to
`GossipMessage`. -/
structure HandleResult where
  propagate : Bool
  err : Option Error
  handled : List (PeerID × GrandpaMessage)
  gossiped : List NotificationsMessage
deriving DecidableEq, Repr

/-- Whether a decoded message is a `*NeighbourPacketV1` or a
`*CatchUpResponse`, the case of the last switch of `handleNetworkMessage`. -/
def GrandpaMessage.isNeighbourOrCatchUpResponse : GrandpaMessage → Bool
  | .NeighbourPacketV1 _ => true
  | .CatchUpResponse _ => true
  | _ => false

/-- The method `handleNetworkMessage`. `none` is the panic of `cm.Data` on a
`*ConsensusMessage` that is a nil pointer. -/
def Service.handleNetworkMessage (s : Service) (sender : PeerID)
    (msg : Option NotificationsMessage) : Option HandleResult :=
  match msg with
  | none => some { propagate := false, err := none, handled := [], gossiped := [] }
  | some (.other _) =>
    some { propagate := false, err := some s.ErrInvalidMessageType, handled := [], gossiped := [] }
  | some (.consensus none) => none
  | some (.consensus (some cm)) =>
    if cm.Data.length < 2 then
      some { propagate := false, err := none, handled := [], gossiped := [] }
    else
      match s.decodeMessage cm with
      | .error err => some { propagate := false, err := some err, handled := [], gossiped := [] }
      | .ok m =>
        match s.handleMessage sender m with
        | .error err =>
          some { propagate := false, err := some err, handled := [(sender, m)], gossiped := [] }
        | .ok resp =>
          let gossiped : List NotificationsMessage :=
            match resp with
            | some (.consensus (some r)) => [.consensus (some r)]
            | _ => []
          if m.isNeighbourOrCatchUpResponse then
            some { propagate := false, err := none, handled := [(sender, m)], gossiped := gossiped }
          else
            some { propagate := true, err := none, handled := [(sender, m)], gossiped := gossiped }

/-- A service for the examples: the first data byte tells the type of the
message (0 vote, 1 commit, 2 neighbour packet, 3 catch-up request, 4 catch-up
response, anything else unknown); the handler fails on commit messages and
answers a vote with a consensus message. -/
def exampleService : Service :=
  { Unmarshal := fun data =>
      match data with
      | [] => .error "no data"
      | 0 :: _ => .ok (.ok (.VoteMessage 0))
      | 1 :: _ => .ok (.ok (.CommitMessage 0))
      | 2 :: _ => .ok (.ok (.VersionedNeighbourPacket (.ok (.NeighbourPacketV1 0))))
      | 3 :: _ => .ok (.ok (.CatchUpRequest 0))
      | 4 :: _ => .ok (.ok (.CatchUpResponse 0))
      | _ => .ok (.ok (.other 9)),
    handleMessage := fun _ m =>
      match m with
      | .CommitMessage _ => .error "bad commit"
      | .VoteMessage _ => .ok (some (.consensus (some { Data := [7, 7] })))
      | _ => .ok none,
    ErrInvalidMessageType := "invalid message type" }

/-! ## Bootstrapping the mailer (`dot/telemetry/mailer.go`) -/

/-- The error `ErrInsufficientConnections`. -/
def ErrInsufficientConnections : Error := "not able to connect to any telemetry endpoints"

/-- The constant `maxRetries` of `BootstrapMailer`. -/
def maxRetries : Nat := 5

/-- The struct `genesis.TelemetryEndpoint`. -/
structure TelemetryEndpoint where
  Endpoint : String
  Verbosity : Int
deriving DecidableEq, Repr

/-- The struct `telemetryConnection`: the websocket connection, here a handle,
and the verbosity. -/
structure telemetryConnection where
  wsconn : Nat
  verbosity : Int
deriving DecidableEq, Repr

/-- The world `BootstrapMailer` runs in. `Dial i a url` is the result of
`websocket.DefaultDialer.Dial` at the attempt number `a` (from 0) for the
endpoint at position `i` of `conns`; `ctxDone i a` tells whether, in the wait
that follows this attempt when it fails, the context is done before the retry
timer fires; `ctxErr` is `ctx.Err()` then. -/
structure DialWorld where
  Dial : Nat → Nat → String → Except Error Nat
  ctxDone : Nat → Nat → Bool
  ctxErr : Error

/-- How the attempts for one endpoint end. -/
inductive DialOutcome where
  | connected (conn : Nat)
  | gaveUp
  | cancelled
deriving DecidableEq, Repr

/-- The inner loop of `BootstrapMailer` for the endpoint at position `i`:
`left` attempts remain and the next has the number `a`. A dial that succeeds
ends the loop; after a dial that fails the loop waits for the retry timer and
goes on, or returns when the context is done first. The attempts made are
added to the log. -/
def dialLoop (w : DialWorld) (i : Nat) (v : TelemetryEndpoint) :
    Nat → Nat → List (Nat × Nat) → DialOutcome × List (Nat × Nat)
  | 0, _, log => (.gaveUp, log)
  | left + 1, a, log =>
    match w.Dial i a v.Endpoint with
    | .ok conn => (.connected conn, log ++ [(i, a)])
    | .error _ =>
      if w.ctxDone i a then (.cancelled, log ++ [(i, a)])
      else dialLoop w i v left (a + 1) (log ++ [(i, a)])

/-- What a call of `BootstrapMailer` returns and leaves: the error, the
connections of the mailer, the dial attempts made (position of the endpoint
and number of the attempt, in order) and whether the asynchronous shipment was
started. -/
structure BootstrapResult where
  err : Option Error
  connections : List telemetryConnection
  dials : List (Nat × Nat)
  shipping : Bool
deriving DecidableEq, Repr

/-- The outer loop of `BootstrapMailer` from the endpoint at position `i` on,
and the end of the function. -/
def bootstrapFrom (w : DialWorld) :
    Nat → List TelemetryEndpoint → List telemetryConnection → List (Nat × Nat) → BootstrapResult
  | _, [], connections, log =>
    if connections.length = 0 then
      { err := some ErrInsufficientConnections, connections := connections, dials := log,
        shipping := false }
    else { err := none, connections := connections, dials := log, shipping := true }
  | i, v :: vs, connections, log =>
    match dialLoop w i v maxRetries 0 log with
    | (.connected conn, log1) =>
      bootstrapFrom w (i + 1) vs (connections ++ [{ wsconn := conn, verbosity := v.Verbosity }])
        log1
    | (.gaveUp, log1) => bootstrapFrom w (i + 1) vs connections log1
    | (.cancelled, log1) =>
      { err := some w.ctxErr, connections := connections, dials := log1, shipping := false }

/-- The function `BootstrapMailer`: a new mailer, with no connection, and the
loop over `conns`. -/
def BootstrapMailer (w : DialWorld) (conns : List TelemetryEndpoint) : BootstrapResult :=
  bootstrapFrom w 0 conns [] []

/-- The first attempt, among the attempts `a` to `a + left - 1`, whose dial
succeeds for the endpoint at position `i`, with the connection it gives. -/
def firstSuccess (w : DialWorld) (i : Nat) (v : TelemetryEndpoint) :
    Nat → Nat → Option (Nat × Nat)
  | 0, _ => none
  | left + 1, a =>
    match w.Dial i a v.Endpoint with
    | .ok conn => some (a, conn)
    | .error _ => firstSuccess w i v left (a + 1)

/-- A world in which the endpoint at position 0 never answers, the endpoint at
position 1 answers at its third attempt and every other endpoint at once; the
context is never done. -/
def exampleWorld : DialWorld :=
  { Dial := fun i a _ =>
      if i = 0 then .error "refused"
      else if i = 1 then (if a < 2 then .error "refused" else .ok (100 + a))
      else .ok (200 + i),
    ctxDone := fun _ _ => false,
    ctxErr := "context canceled" }

/-- Three endpoints with the verbosities 0, 1 and 2. -/
def exampleEndpoints : List TelemetryEndpoint :=
  [{ Endpoint := "ws://a", Verbosity := 0 }, { Endpoint := "ws://b", Verbosity := 1 },
   { Endpoint := "ws://c", Verbosity := 2 }]

/-- The connection that the endpoint `p.2` at position `p.1` gives when the
context is never done: the one of its first successful dial among the
`maxRetries` attempts, with the verbosity of the endpoint. -/
def connectionOf (w : DialWorld) (p : Nat × TelemetryEndpoint) : Option telemetryConnection :=
  (firstSuccess w p.1 p.2 maxRetries 0).map
    (fun ac => { wsconn := ac.2, verbosity := p.2.Verbosity })

/-- The dial attempts for the endpoint `p.2` at position `p.1` when the context
is never done: the attempts up to the first successful one, or all
`maxRetries` attempts. -/
def attemptsOf (w : DialWorld) (p : Nat × TelemetryEndpoint) : List (Nat × Nat) :=
  match firstSuccess w p.1 p.2 maxRetries 0 with
  | some (a, _) => (List.range (a + 1)).map (fun b => (p.1, b))
  | none => (List.range maxRetries).map (fun b => (p.1, b))

/-- The world `exampleWorld` with the context done during the wait that follows
the second failed dial of the endpoint at position 0. -/
def cancelledWorld : DialWorld :=
  { exampleWorld with ctxDone := fun i a => decide (i = 0 ∧ a = 1) }

section QueueLemmas

theorem store_has (q : blockQueue) (bd : BlockData) (h : Hash) :
    (q.store bd).has h = (decide (h = bd.Hash) || q.has h) := by
  unfold blockQueue.store blockQueue.has
  by_cases hh : h = bd.Hash <;> simp [hh]

theorem remove_has (q : blockQueue) (k h : Hash) :
    (q.remove k).has h = (decide (h ≠ k) && q.has h) := by
  unfold blockQueue.remove blockQueue.has
  by_cases hh : h = k <;> simp [hh]

theorem push_eq_some (q q1 : blockQueue) (bd : BlockData) :
    q.push bd = some q1 ↔
      q.ch.length < q.cap ∧ q1 = { q.store bd with ch := q.ch ++ [bd] } := by
  unfold blockQueue.push blockQueue.send
  by_cases hlt : q.ch.length < q.cap
  · simp [blockQueue.store, hlt, eq_comm]
  · simp [blockQueue.store, hlt]

theorem push_some_of_lt (q : blockQueue) (bd : BlockData) (hlt : q.ch.length < q.cap) :
    q.push bd = some { q.store bd with ch := q.ch ++ [bd] } :=
  (push_eq_some q _ bd).2 ⟨hlt, rfl⟩

theorem push_eq_none (q : blockQueue) (bd : BlockData) :
    q.push bd = none ↔ q.cap ≤ q.ch.length := by
  unfold blockQueue.push blockQueue.send
  by_cases hlt : q.ch.length < q.cap
  · simp [blockQueue.store, hlt]
  · simp [blockQueue.store, hlt, Nat.le_of_not_lt hlt]

theorem pop_cons (q : blockQueue) (bd : BlockData) (rest : List BlockData)
    (hch : q.ch = bd :: rest) :
    q.pop = some (bd, { q with ch := rest }.remove bd.Hash) := by
  unfold blockQueue.pop blockQueue.recv
  rw [hch]

theorem pop_nil (q : blockQueue) (hch : q.ch = []) : q.pop = none := by
  unfold blockQueue.pop blockQueue.recv
  rw [hch]

theorem pop_eq_some (q q1 : blockQueue) (bd : BlockData) (hpop : q.pop = some (bd, q1)) :
    ∃ rest, q.ch = bd :: rest ∧ q1 = { q with ch := rest }.remove bd.Hash := by
  cases hch : q.ch with
  | nil => rw [pop_nil q hch] at hpop; cases hpop
  | cons x rest =>
    rw [pop_cons q x rest hch] at hpop
    cases hpop
    exact ⟨rest, rfl, rfl⟩

/-- What a completed operation does to the channel, the capacity and `has`. -/
theorem applyOp_push (q q1 : blockQueue) (bd : BlockData)
    (hop : applyOp q (.push bd) = some q1) :
    q.ch.length < q.cap ∧ q1.ch = q.ch ++ [bd] ∧ q1.cap = q.cap ∧
      ∀ h, q1.has h = (decide (h = bd.Hash) || q.has h) := by
  obtain ⟨hlt, rfl⟩ := (push_eq_some q q1 bd).1 hop
  refine ⟨hlt, rfl, rfl, fun h => ?_⟩
  exact store_has q bd h

theorem applyOp_pop (q q1 : blockQueue) (hop : applyOp q .pop = some q1) :
    ∃ bd rest, q.ch = bd :: rest ∧ q1.ch = rest ∧ q1.cap = q.cap ∧
      ∀ h, q1.has h = (decide (h ≠ bd.Hash) && q.has h) := by
  unfold applyOp at hop
  cases hpop : q.pop with
  | none => rw [hpop] at hop; cases hop
  | some r =>
    obtain ⟨bd, q2⟩ := r
    rw [hpop] at hop
    cases hop
    obtain ⟨rest, hch, rfl⟩ := pop_eq_some q q2 bd hpop
    exact ⟨bd, rest, hch, rfl, rfl, fun h => remove_has _ bd.Hash h⟩

/-- The channel after a sequence of completed operations: the old contents
followed by the pushed items, less as many items at the front as there were
pops. -/
theorem runOps_ch (ops : List QueueOp) :
    ∀ q q1 : blockQueue, runOps q ops = some q1 →
      q1.ch = (q.ch ++ pushedItems ops).drop (countPops ops) ∧ q1.cap = q.cap := by
  induction ops with
  | nil =>
    intro q q1 hrun
    simp only [runOps, Option.some.injEq] at hrun
    subst hrun
    simp [pushedItems, countPops]
  | cons op ops ih =>
    intro q q1 hrun
    simp only [runOps] at hrun
    cases hop : applyOp q op with
    | none => rw [hop] at hrun; cases hrun
    | some q2 =>
      rw [hop] at hrun
      obtain ⟨hch, hcap⟩ := ih q2 q1 hrun
      cases op with
      | push bd =>
        obtain ⟨_, hch2, hcap2, _⟩ := applyOp_push q q2 bd hop
        refine ⟨?_, hcap.trans hcap2⟩
        rw [hch, hch2]
        simp [pushedItems, countPops]
      | pop =>
        obtain ⟨bd, rest, hch0, hch2, hcap2, _⟩ := applyOp_pop q q2 hop
        refine ⟨?_, hcap.trans hcap2⟩
        rw [hch, hch2, hch0]
        simp [pushedItems, countPops]

/-- While the `k` oldest items of the channel have hashes other than `h`, a
hash `h` that is in the map stays there through any operations with at most
`k` pops. -/
theorem has_stays (h : Hash) (ops : List QueueOp) :
    ∀ (q q1 : blockQueue) (k : Nat), runOps q ops = some q1 → countPops ops ≤ k →
      k ≤ q.ch.length → (∀ x ∈ q.ch.take k, x.Hash ≠ h) → q.has h = true →
      q1.has h = true := by
  induction ops with
  | nil =>
    intro q q1 k hrun _ _ _ hhas
    simp only [runOps, Option.some.injEq] at hrun
    subst hrun
    exact hhas
  | cons op ops ih =>
    intro q q1 k hrun hk hlen hfront hhas
    simp only [runOps] at hrun
    cases hop : applyOp q op with
    | none => rw [hop] at hrun; cases hrun
    | some q2 =>
      rw [hop] at hrun
      cases op with
      | push bd =>
        obtain ⟨_, hch2, _, hhas2⟩ := applyOp_push q q2 bd hop
        refine ih q2 q1 k hrun (by simpa [countPops] using hk) ?_ ?_ ?_
        · rw [hch2]; simp; omega
        · rw [hch2, List.take_append_of_le_length hlen]; exact hfront
        · rw [hhas2, hhas]; simp
      | pop =>
        obtain ⟨bd, rest, hch0, hch2, _, hhas2⟩ := applyOp_pop q q2 hop
        simp only [countPops] at hk
        obtain ⟨k1, rfl⟩ : ∃ k1, k = k1 + 1 := ⟨k - 1, by omega⟩
        rw [hch0] at hfront hlen
        simp only [List.take_succ_cons, List.mem_cons, forall_eq_or_imp] at hfront
        refine ih q2 q1 k1 hrun (by omega) ?_ ?_ ?_
        · rw [hch2]; simpa using hlen
        · rw [hch2]; exact hfront.2
        · rw [hhas2, hhas]; simpa using fun hh => hfront.1 hh.symm

/-- A hash that is not in the map stays out of it through any operations that
push no item of that hash. -/
theorem has_stays_false (h : Hash) (ops : List QueueOp) :
    ∀ (q q1 : blockQueue), runOps q ops = some q1 → noPushOf h ops = true →
      q.has h = false → q1.has h = false := by
  induction ops with
  | nil =>
    intro q q1 hrun _ hhas
    simp only [runOps, Option.some.injEq] at hrun
    subst hrun
    exact hhas
  | cons op ops ih =>
    intro q q1 hrun hno hhas
    simp only [runOps] at hrun
    cases hop : applyOp q op with
    | none => rw [hop] at hrun; cases hrun
    | some q2 =>
      rw [hop] at hrun
      cases op with
      | push bd =>
        obtain ⟨_, _, _, hhas2⟩ := applyOp_push q q2 bd hop
        simp only [noPushOf, pushedItems, List.all_cons, Bool.and_eq_true,
          decide_eq_true_eq] at hno
        refine ih q2 q1 hrun ?_ ?_
        · simpa [noPushOf] using hno.2
        · rw [hhas2, hhas]; simpa using fun hh => hno.1 hh.symm
      | pop =>
        obtain ⟨bd, rest, _, _, _, hhas2⟩ := applyOp_pop q q2 hop
        refine ih q2 q1 hrun ?_ ?_
        · simpa [noPushOf, pushedItems] using hno
        · rw [hhas2, hhas]; simp

/-- In every state reached from a queue whose map holds only hashes of
enqueued items, the map holds only hashes of enqueued items. -/
theorem has_enqueued_invariant (ops : List QueueOp) :
    ∀ (q q1 : blockQueue), runOps q ops = some q1 →
      (∀ h, q.has h = true → h ∈ q.enqueued) → ∀ h, q1.has h = true → h ∈ q1.enqueued := by
  induction ops with
  | nil =>
    intro q q1 hrun hinv
    simp only [runOps, Option.some.injEq] at hrun
    subst hrun
    exact hinv
  | cons op ops ih =>
    intro q q1 hrun hinv
    simp only [runOps] at hrun
    cases hop : applyOp q op with
    | none => rw [hop] at hrun; cases hrun
    | some q2 =>
      rw [hop] at hrun
      refine ih q2 q1 hrun ?_
      intro h hh
      cases op with
      | push bd =>
        obtain ⟨_, hch2, _, hhas2⟩ := applyOp_push q q2 bd hop
        rw [hhas2] at hh
        simp only [Bool.or_eq_true, decide_eq_true_eq] at hh
        simp only [blockQueue.enqueued, hch2, List.map_append, List.map_cons, List.map_nil,
          List.mem_append, List.mem_singleton]
        rcases hh with hh | hh
        · exact Or.inr hh
        · exact Or.inl (hinv h hh)
      | pop =>
        obtain ⟨bd, rest, hch0, hch2, _, hhas2⟩ := applyOp_pop q q2 hop
        rw [hhas2] at hh
        simp only [Bool.and_eq_true, decide_eq_true_eq] at hh
        have hmem := hinv h hh.2
        simp only [blockQueue.enqueued, hch0, List.map_cons, List.mem_cons] at hmem
        simp only [blockQueue.enqueued, hch2]
        rcases hmem with hmem | hmem
        · exact absurd hmem hh.1
        · exact hmem

/-- When every push is of a hash that `has` reports absent, the map holds
exactly the hashes of the enqueued items and no two enqueued items share a
hash. -/
theorem fresh_invariant (ops : List QueueOp) :
    ∀ (q q1 : blockQueue), runOps q ops = some q1 → freshPushes q ops = true →
      (∀ h, q.has h = true ↔ h ∈ q.enqueued) → q.enqueued.Nodup →
      (∀ h, q1.has h = true ↔ h ∈ q1.enqueued) ∧ q1.enqueued.Nodup := by
  induction ops with
  | nil =>
    intro q q1 hrun _ hinv hnd
    simp only [runOps, Option.some.injEq] at hrun
    subst hrun
    exact ⟨hinv, hnd⟩
  | cons op ops ih =>
    intro q q1 hrun hfresh hinv hnd
    simp only [runOps] at hrun
    cases hop : applyOp q op with
    | none => rw [hop] at hrun; cases hrun
    | some q2 =>
      rw [hop] at hrun
      simp only [freshPushes, hop, Bool.and_eq_true] at hfresh
      cases op with
      | push bd =>
        obtain ⟨_, hch2, _, hhas2⟩ := applyOp_push q q2 bd hop
        have hnew : bd.Hash ∉ q.enqueued := by
          intro hmem
          have := (hinv bd.Hash).2 hmem
          simp [this] at hfresh
        refine ih q2 q1 hrun hfresh.2 ?_ ?_
        · intro h
          rw [hhas2]
          simp only [blockQueue.enqueued, hch2, List.map_append, List.map_cons, List.map_nil,
            List.mem_append, List.mem_singleton, Bool.or_eq_true, decide_eq_true_eq]
          rw [hinv h, blockQueue.enqueued, or_comm]
        · simp only [blockQueue.enqueued, hch2, List.map_append, List.map_cons, List.map_nil]
          refine List.Nodup.append hnd (List.nodup_singleton _) ?_
          intro x hx hx1
          rw [List.mem_singleton] at hx1
          exact hnew (hx1 ▸ hx)
      | pop =>
        obtain ⟨bd, rest, hch0, hch2, _, hhas2⟩ := applyOp_pop q q2 hop
        simp only [blockQueue.enqueued, hch0, List.map_cons, List.nodup_cons] at hnd
        refine ih q2 q1 hrun hfresh.2 ?_ ?_
        · intro h
          rw [hhas2]
          simp only [Bool.and_eq_true, decide_eq_true_eq, hinv h]
          simp only [blockQueue.enqueued, hch0, hch2, List.map_cons, List.mem_cons]
          constructor
          · rintro ⟨hne, hmem | hmem⟩
            · exact absurd hmem hne
            · exact hmem
          · intro hmem
            exact ⟨fun hh => hnd.1 (hh ▸ hmem), Or.inr hmem⟩
        · simp only [blockQueue.enqueued, hch2]
          exact hnd.2

/-- Pushes onto a queue with room for all of them complete and append the
items to the channel in order. -/
theorem pushAll_some (bds : List BlockData) :
    ∀ q : blockQueue, q.ch.length + bds.length ≤ q.cap →
      ∃ q1, pushAll q bds = some q1 ∧ q1.ch = q.ch ++ bds ∧ q1.cap = q.cap := by
  induction bds with
  | nil =>
    intro q _
    exact ⟨q, rfl, by simp, rfl⟩
  | cons bd bds ih =>
    intro q hlen
    simp only [List.length_cons] at hlen
    have hlt : q.ch.length < q.cap := by omega
    obtain ⟨q2, hq2, hch2, hcap2⟩ :=
      ih { q.store bd with ch := q.ch ++ [bd] } (by simp [blockQueue.store]; omega)
    refine ⟨q2, ?_, ?_, ?_⟩
    · simp only [pushAll, push_some_of_lt q bd hlt]
      exact hq2
    · rw [hch2]; simp
    · rw [hcap2]; rfl

/-- As many pops as a front segment of the channel is long return that
segment, in order, and leave the rest. -/
theorem popN_some (bds : List BlockData) :
    ∀ (q : blockQueue) (rest : List BlockData), q.ch = bds ++ rest →
      ∃ q1, popN q bds.length = some (bds, q1) ∧ q1.ch = rest ∧ q1.cap = q.cap := by
  induction bds with
  | nil =>
    intro q rest hch
    exact ⟨q, rfl, by simpa using hch, rfl⟩
  | cons bd bds ih =>
    intro q rest hch
    obtain ⟨q2, hq2, hch2, hcap2⟩ :=
      ih ({ q with ch := bds ++ rest }.remove bd.Hash) rest rfl
    refine ⟨q2, ?_, hch2, ?_⟩
    · simp only [List.length_cons, popN, pop_cons q bd (bds ++ rest) (by simpa using hch), hq2]
    · rw [hcap2]; rfl

end QueueLemmas

/-! ### Membership -/

/-- C1 as stated fails: in a queue of capacity 2 that holds `itemA` (hash 1),
the push of `itemB` (hash 1 as well) completes; the next pop returns `itemA`
and deletes hash 1 from the map, so `has(1)` is false although `itemB` is
still in the channel and has not been popped. -/
theorem has_false_before_popped :
    ((newBlockQueue 2).push itemA).map (fun q => decide (q.ch.length < q.cap)) = some true ∧
    ((((newBlockQueue 2).push itemA).bind (fun q => q.push itemB)).bind
        (fun q1 => q1.pop)).map (fun r => (r.1, r.2.ch, r.2.has itemB.Hash))
      = some (itemA, [itemB], false) := by
  decide

/-- Operations that run to completion one after the other: on a queue with
free capacity `push(item)` completes. If no item of hash `h` was in the channel
when the item was pushed, `has(h)` is true in every state reached before the
item is popped (operations with at most as many pops as there were items ahead
of it). The pop that follows as many pops as there were items ahead returns
the item, and from then on `has(h)` is false as long as no item of hash `h` is
pushed. -/
theorem has_between_completed_ops (q : blockQueue) (bd : BlockData)
    (hfree : q.ch.length < q.cap) :
    ∃ q1, q.push bd = some q1 ∧
      (bd.Hash ∉ q.enqueued → ∀ ops q2, runOps q1 ops = some q2 →
        countPops ops ≤ q.ch.length → q2.has bd.Hash = true) ∧
      (∀ ops q2, runOps q1 ops = some q2 → countPops ops = q.ch.length →
        ∃ q3, q2.pop = some (bd, q3) ∧
          ∀ ops2 q4, runOps q3 ops2 = some q4 → noPushOf bd.Hash ops2 = true →
            q4.has bd.Hash = false) := by
  refine ⟨_, push_some_of_lt q bd hfree, ?_, ?_⟩
  · intro hnew ops q2 hrun hpops
    refine has_stays bd.Hash ops _ q2 q.ch.length hrun hpops (by simp) ?_ ?_
    · intro x hx
      simp only [List.take_left'] at hx
      intro hh
      exact hnew (by simpa [blockQueue.enqueued] using ⟨x, hx, hh⟩)
    · simp [blockQueue.has, blockQueue.store]
  · intro ops q2 hrun hpops
    obtain ⟨hch, _⟩ := runOps_ch ops _ q2 hrun
    simp only [hpops, List.append_assoc, List.drop_left', List.singleton_append] at hch
    refine ⟨_, pop_cons q2 bd _ hch, ?_⟩
    intro ops2 q4 hrun2 hno
    refine has_stays_false bd.Hash ops2 _ q4 hrun2 hno ?_
    rw [remove_has]
    simp

/-- C2 as stated fails: after `push(itemA)`, `push(itemB)` and one `pop` on a
new queue of capacity 2, `has(1)` is false although an item of hash 1
(`itemB`) is in the channel. -/
theorem has_iff_enqueued_fails :
    (runOps (newBlockQueue 2) [.push itemA, .push itemB, .pop]).map
        (fun q => (q.has 1, decide (1 ∈ q.enqueued), q.ch))
      = some (false, true, [itemB]) := by
  decide

/-- C2, amended: in every state reached from `newBlockQueue(cap)` by completed
pushes and pops, a hash for which `has` is true is the hash of an item in the
channel; and when every push was of an item whose hash `has` reported absent
at that time, `has(h)` is true if and only if an item of hash `h` is in the
channel. -/
theorem has_iff_enqueued (cap : Nat) (ops : List QueueOp) (q : blockQueue)
    (hrun : runOps (newBlockQueue cap) ops = some q) :
    (∀ h, q.has h = true → h ∈ q.enqueued) ∧
    (freshPushes (newBlockQueue cap) ops = true → ∀ h, q.has h = true ↔ h ∈ q.enqueued) := by
  constructor
  · exact has_enqueued_invariant ops _ q hrun (by simp [newBlockQueue, blockQueue.has])
  · intro hfresh
    exact (fresh_invariant ops _ q hrun hfresh
      (by simp [newBlockQueue, blockQueue.has, blockQueue.enqueued])
      (by simp [newBlockQueue, blockQueue.enqueued])).1

/-- The amended C2 on the operations `push(itemA)`, `push(itemC)`, `pop`. -/
theorem has_iff_enqueued_witness :
    ∃ q, runOps (newBlockQueue 2) [.push itemA, .push itemC, .pop] = some q ∧
      freshPushes (newBlockQueue 2) [.push itemA, .push itemC, .pop] = true ∧
      (∀ h, q.has h = true → h ∈ q.enqueued) ∧ (∀ h, q.has h = true ↔ h ∈ q.enqueued) :=
  match hrun : runOps (newBlockQueue 2) [.push itemA, .push itemC, .pop] with
  | none => absurd (congrArg Option.isSome hrun) (by decide)
  | some q =>
    ⟨q, rfl, by decide,
      (has_iff_enqueued 2 [.push itemA, .push itemC, .pop] q hrun).1,
      (has_iff_enqueued 2 [.push itemA, .push itemC, .pop] q hrun).2 (by decide)⟩

/-! ### Order and duplicates -/

/-- C3: the ready queue is first in, first out. Pushes of at most `cap` items
onto a queue with an empty channel all complete, and as many pops then return
exactly those items, in the order of the pushes, leaving the channel empty. -/
theorem queue_fifo (q : blockQueue) (items : List BlockData) (hempty : q.ch = [])
    (hlen : items.length ≤ q.cap) :
    ∃ q1, pushAll q items = some q1 ∧
      ∃ q2, popN q1 items.length = some (items, q2) ∧ q2.ch = [] := by
  obtain ⟨q1, hq1, hch1, _⟩ := pushAll_some items q (by rw [hempty]; simpa using hlen)
  rw [hempty, List.nil_append] at hch1
  obtain ⟨q2, hq2, hch2, _⟩ := popN_some items q1 [] (by simpa using hch1)
  exact ⟨q1, hq1, q2, hq2, hch2⟩

/-- C3 at three items pushed onto a new queue of capacity 3; two of them have
the same hash. -/
theorem queue_fifo_witness :
    (newBlockQueue 3).ch = [] ∧ [itemA, itemC, itemB].length ≤ (newBlockQueue 3).cap ∧
    ∃ q1, pushAll (newBlockQueue 3) [itemA, itemC, itemB] = some q1 ∧
      ∃ q2, popN q1 [itemA, itemC, itemB].length = some ([itemA, itemC, itemB], q2) ∧
        q2.ch = [] :=
  ⟨rfl, by decide, queue_fifo (newBlockQueue 3) [itemA, itemC, itemB] rfl (by decide)⟩

/-- C5 as stated fails: `push` makes no test of the map. After `push(itemA)` on
a new queue of capacity 2, `has(1)` is true; `push(itemB)`, of hash 1 as well,
still completes and the channel then holds two entries of hash 1, which two
pops return one after the other. -/
theorem duplicate_hash_enqueued :
    ((newBlockQueue 2).push itemA).map (fun q => q.has itemB.Hash) = some true ∧
    (runOps (newBlockQueue 2) [.push itemA, .push itemB]).map (fun q => q.enqueued)
      = some [1, 1] ∧
    ((runOps (newBlockQueue 2) [.push itemA, .push itemB]).bind (fun q => popN q 2)).map
        (fun r => r.1.map BlockData.Hash)
      = some [1, 1] := by
  decide

/-- C5, amended: in every state reached from `newBlockQueue(cap)` by completed
pushes and pops in which every push was of an item whose hash `has` reported
absent at that time, the channel holds at most one entry for any hash. `push`
itself makes no test: on such a state a push with room completes and appends
its item to the channel, whether the hash of the item is enqueued or not. -/
theorem enqueued_nodup_of_fresh (cap : Nat) (ops : List QueueOp) (q : blockQueue)
    (hrun : runOps (newBlockQueue cap) ops = some q)
    (hfresh : freshPushes (newBlockQueue cap) ops = true) :
    q.enqueued.Nodup ∧ (∀ h, q.enqueued.count h ≤ 1) ∧
    (∀ bd, q.ch.length < q.cap →
      ∃ q1, q.push bd = some q1 ∧ q1.enqueued = q.enqueued ++ [bd.Hash]) := by
  have hnd := (fresh_invariant ops _ q hrun hfresh
    (by simp [newBlockQueue, blockQueue.has, blockQueue.enqueued])
    (by simp [newBlockQueue, blockQueue.enqueued])).2
  refine ⟨hnd, fun h => List.nodup_iff_count_le_one.1 hnd h, fun bd hlt => ?_⟩
  exact ⟨_, push_some_of_lt q bd hlt, by simp [blockQueue.enqueued]⟩

/-- The amended C5 on the operations `push(itemA)`, `pop`, `push(itemB)`,
`push(itemC)`. -/
theorem enqueued_nodup_of_fresh_witness :
    ∃ q, runOps (newBlockQueue 3) [.push itemA, .pop, .push itemB, .push itemC] = some q ∧
      freshPushes (newBlockQueue 3) [.push itemA, .pop, .push itemB, .push itemC] = true ∧
      q.enqueued.Nodup ∧ (∀ h, q.enqueued.count h ≤ 1) ∧
      (∀ bd, q.ch.length < q.cap →
        ∃ q1, q.push bd = some q1 ∧ q1.enqueued = q.enqueued ++ [bd.Hash]) :=
  match hrun : runOps (newBlockQueue 3) [.push itemA, .pop, .push itemB, .push itemC] with
  | none => absurd (congrArg Option.isSome hrun) (by decide)
  | some q =>
    ⟨q, rfl, by decide,
      enqueued_nodup_of_fresh 3 [.push itemA, .pop, .push itemB, .push itemC] q hrun
        (by decide)⟩

/-- C6: on a queue whose channel is not empty, `pop` returns the oldest item,
leaves the other items in the channel in their order, removes the hash of the
returned item from the map, and leaves the map entry of every other hash and
the capacity as they were. -/
theorem pop_frame (q : blockQueue) (bd : BlockData) (rest : List BlockData)
    (hch : q.ch = bd :: rest) :
    ∃ q1, q.pop = some (bd, q1) ∧ q1.ch = rest ∧ q1.has bd.Hash = false ∧
      (∀ h, h ≠ bd.Hash → q1.blocks h = q.blocks h ∧ q1.has h = q.has h) ∧
      q1.cap = q.cap := by
  refine ⟨_, pop_cons q bd rest hch, rfl, ?_, ?_, rfl⟩
  · rw [remove_has]; simp
  · intro h hne
    refine ⟨?_, ?_⟩
    · simp [blockQueue.remove, hne]
    · rw [remove_has]; simp [blockQueue.has, hne]

/-- C6 at a queue of capacity 3 whose channel holds `itemA`, `itemC`. -/
theorem pop_frame_witness :
    twoItemQueue.ch = itemA :: [itemC] ∧
    ∃ q1, twoItemQueue.pop = some (itemA, q1) ∧ q1.ch = [itemC] ∧
      q1.has itemA.Hash = false ∧
      (∀ h, h ≠ itemA.Hash → q1.blocks h = twoItemQueue.blocks h ∧
        q1.has h = twoItemQueue.has h) ∧
      q1.cap = twoItemQueue.cap :=
  ⟨rfl, pop_frame twoItemQueue itemA [itemC] rfl⟩

/-! ### Interleaved calls: capacity and backpressure -/

section SystemLemmas

/-- The five kinds of step of the system. -/
theorem step_some (s s1 : System) (m : Move) (evs : List ChanEvent)
    (h : s.step m = some (evs, s1)) :
    (∃ i bd, m = .run i ∧ s.calls[i]? = some (.pushStore bd) ∧ evs = [] ∧
      s1 = { q := s.q.store bd, calls := s.calls.set i (.pushSend bd) }) ∨
    (∃ i bd q1, m = .run i ∧ s.calls[i]? = some (.pushSend bd) ∧ s.q.send bd = some q1 ∧
      evs = [.sent bd] ∧ s1 = { q := q1, calls := s.calls.set i .pushDone }) ∨
    (∃ i bd q1, m = .run i ∧ s.calls[i]? = some .popRecv ∧ s.q.recv = some (bd, q1) ∧
      evs = [.received bd] ∧ s1 = { q := q1, calls := s.calls.set i (.popDelete bd) }) ∨
    (∃ i bd, m = .run i ∧ s.calls[i]? = some (.popDelete bd) ∧ evs = [] ∧
      s1 = { q := s.q.remove bd.Hash, calls := s.calls.set i (.popDone bd) }) ∨
    (∃ i j bd, m = .handoff i j ∧ s.calls[i]? = some (.pushSend bd) ∧
      s.calls[j]? = some .popRecv ∧ s.q.ch = [] ∧ evs = [.sent bd, .received bd] ∧
      s1 = { q := s.q, calls := (s.calls.set i .pushDone).set j (.popDelete bd) }) := by
  cases m with
  | run i =>
    simp only [System.step] at h
    split at h
    · next bd hc =>
      simp only [Option.some.injEq, Prod.mk.injEq] at h
      exact Or.inl ⟨i, bd, rfl, hc, h.1.symm, h.2.symm⟩
    · next bd hc =>
      split at h
      · cases h
      · next q1 hq =>
        simp only [Option.some.injEq, Prod.mk.injEq] at h
        exact Or.inr (Or.inl ⟨i, bd, q1, rfl, hc, hq, h.1.symm, h.2.symm⟩)
    · next hc =>
      split at h
      · cases h
      · next bd q1 hq =>
        simp only [Option.some.injEq, Prod.mk.injEq] at h
        exact Or.inr (Or.inr (Or.inl ⟨i, bd, q1, rfl, hc, hq, h.1.symm, h.2.symm⟩))
    · next bd hc =>
      simp only [Option.some.injEq, Prod.mk.injEq] at h
      exact Or.inr (Or.inr (Or.inr (Or.inl ⟨i, bd, rfl, hc, h.1.symm, h.2.symm⟩)))
    · cases h
  | handoff i j =>
    simp only [System.step] at h
    split at h
    · next bd hi hj hch =>
      simp only [Option.some.injEq, Prod.mk.injEq] at h
      exact Or.inr (Or.inr (Or.inr (Or.inr ⟨i, j, bd, rfl, hi, hj, hch, h.1.symm, h.2.symm⟩)))
    · cases h

theorem send_some (q q1 : blockQueue) (bd : BlockData) (h : q.send bd = some q1) :
    q.ch.length < q.cap ∧ q1 = { q with ch := q.ch ++ [bd] } := by
  unfold blockQueue.send at h
  split at h
  · next hlt => exact ⟨hlt, by simpa [eq_comm] using h⟩
  · cases h

theorem recv_some (q q1 : blockQueue) (bd : BlockData) (h : q.recv = some (bd, q1)) :
    ∃ rest, q.ch = bd :: rest ∧ q1 = { q with ch := rest } := by
  unfold blockQueue.recv at h
  split at h
  · cases h
  · next x rest hch =>
    simp only [Option.some.injEq, Prod.mk.injEq] at h
    exact ⟨rest, by rw [hch, h.1], h.2.symm⟩

/-- A step keeps the capacity and keeps the channel within it. -/
theorem step_within_cap (s s1 : System) (m : Move) (evs : List ChanEvent)
    (h : s.step m = some (evs, s1)) (hle : s.q.ch.length ≤ s.q.cap) :
    s1.q.cap = s.q.cap ∧ s1.q.ch.length ≤ s1.q.cap := by
  rcases step_some s s1 m evs h with ⟨i, bd, _, _, _, rfl⟩ | ⟨i, bd, q1, _, _, hq, _, rfl⟩ |
    ⟨i, bd, q1, _, _, hq, _, rfl⟩ | ⟨i, bd, _, _, _, rfl⟩ | ⟨i, j, bd, _, _, _, _, _, rfl⟩
  · exact ⟨rfl, hle⟩
  · obtain ⟨hlt, rfl⟩ := send_some _ _ _ hq
    refine ⟨rfl, ?_⟩
    simp only [List.length_append, List.length_singleton]
    omega
  · obtain ⟨rest, hch, rfl⟩ := recv_some _ _ _ hq
    refine ⟨rfl, ?_⟩
    rw [hch] at hle
    simp only [List.length_cons] at hle
    simp only
    omega
  · exact ⟨rfl, hle⟩
  · exact ⟨rfl, hle⟩

/-- A run keeps the capacity and keeps the channel within it. -/
theorem exec_within_cap (ms : List Move) :
    ∀ (s s1 : System) (evs : List ChanEvent), s.exec ms = some (evs, s1) →
      s.q.ch.length ≤ s.q.cap → s1.q.cap = s.q.cap ∧ s1.q.ch.length ≤ s1.q.cap := by
  induction ms with
  | nil =>
    intro s s1 evs h hle
    simp only [System.exec, Option.some.injEq, Prod.mk.injEq] at h
    rw [← h.2]
    exact ⟨rfl, hle⟩
  | cons m ms ih =>
    intro s s1 evs h hle
    simp only [System.exec] at h
    split at h
    · cases h
    · next evs0 s0 hstep =>
      split at h
      · cases h
      · next evs2 s2 hrest =>
        simp only [Option.some.injEq, Prod.mk.injEq] at h
        obtain ⟨hcap0, hle0⟩ := step_within_cap s s0 m evs0 hstep hle
        obtain ⟨hcap2, hle2⟩ := ih s0 s2 evs2 hrest hle0
        rw [← h.2]
        exact ⟨hcap2.trans hcap0, hle2⟩

/-- A step without a receive out of a state whose channel is full leaves the
channel full and every unreturned call of `push` unreturned. -/
theorem step_full (s s1 : System) (m : Move) (evs : List ChanEvent)
    (h : s.step m = some (evs, s1)) (hfull : s.q.ch.length = s.q.cap)
    (hno : ∀ e ∈ evs, e.isReceived = false) :
    s1.q.ch.length = s1.q.cap ∧
      ∀ (k : Nat) (f : Frame), s.calls[k]? = some f → f.pushing = true →
        ∃ f1, s1.calls[k]? = some f1 ∧ f1.pushing = true := by
  rcases step_some s s1 m evs h with ⟨i, bd, _, hc, _, rfl⟩ | ⟨i, bd, q1, _, _, hq, _, rfl⟩ |
    ⟨i, bd, q1, _, _, _, rfl, rfl⟩ | ⟨i, bd, _, hc, _, rfl⟩ | ⟨i, j, bd, _, _, _, _, rfl, rfl⟩
  · refine ⟨hfull, fun k f hk hf => ?_⟩
    by_cases hik : i = k
    · subst hik
      have hlt : i < s.calls.length := (List.getElem?_eq_some.1 hc).1
      exact ⟨.pushSend bd, by simp [List.getElem?_set_self hlt], rfl⟩
    · exact ⟨f, by simp [List.getElem?_set_ne hik, hk], hf⟩
  · obtain ⟨hlt, _⟩ := send_some _ _ _ hq
    omega
  · have := hno (.received bd) (by simp)
    simp [ChanEvent.isReceived] at this
  · refine ⟨hfull, fun k f hk hf => ?_⟩
    by_cases hik : i = k
    · subst hik
      rw [hc] at hk
      cases hk
      simp [Frame.pushing] at hf
    · exact ⟨f, by simp [List.getElem?_set_ne hik, hk], hf⟩
  · have := hno (.received bd) (by simp)
    simp [ChanEvent.isReceived] at this

/-- A step without a send out of a state whose channel is empty leaves the
channel empty and every call of `pop` that waits for a value waiting. -/
theorem step_empty (s s1 : System) (m : Move) (evs : List ChanEvent)
    (h : s.step m = some (evs, s1)) (hempty : s.q.ch = [])
    (hno : ∀ e ∈ evs, e.isSent = false) :
    s1.q.ch = [] ∧ ∀ k : Nat, s.calls[k]? = some .popRecv → s1.calls[k]? = some .popRecv := by
  rcases step_some s s1 m evs h with ⟨i, bd, _, hc, _, rfl⟩ | ⟨i, bd, q1, _, _, _, rfl, rfl⟩ |
    ⟨i, bd, q1, _, _, hq, _, rfl⟩ | ⟨i, bd, _, hc, _, rfl⟩ | ⟨i, j, bd, _, _, _, _, rfl, rfl⟩
  · refine ⟨hempty, fun k hk => ?_⟩
    by_cases hik : i = k
    · subst hik
      rw [hc] at hk
      cases hk
    · simpa [List.getElem?_set_ne hik] using hk
  · have := hno (.sent bd) (by simp)
    simp [ChanEvent.isSent] at this
  · obtain ⟨rest, hch, _⟩ := recv_some _ _ _ hq
    rw [hempty] at hch
    cases hch
  · refine ⟨hempty, fun k hk => ?_⟩
    by_cases hik : i = k
    · subst hik
      rw [hc] at hk
      cases hk
    · simpa [List.getElem?_set_ne hik] using hk
  · have := hno (.sent bd) (by simp)
    simp [ChanEvent.isSent] at this

/-- A run without a receive out of a state whose channel is full leaves every
unreturned call of `push` unreturned. -/
theorem exec_full (ms : List Move) :
    ∀ (s s1 : System) (evs : List ChanEvent), s.exec ms = some (evs, s1) →
      s.q.ch.length = s.q.cap → (∀ e ∈ evs, e.isReceived = false) →
      ∀ (k : Nat) (f : Frame), s.calls[k]? = some f → f.pushing = true →
        ∃ f1, s1.calls[k]? = some f1 ∧ f1.pushing = true := by
  induction ms with
  | nil =>
    intro s s1 evs h _ _ k f hk hf
    simp only [System.exec, Option.some.injEq, Prod.mk.injEq] at h
    rw [← h.2]
    exact ⟨f, hk, hf⟩
  | cons m ms ih =>
    intro s s1 evs h hfull hno k f hk hf
    simp only [System.exec] at h
    split at h
    · cases h
    · next evs0 s0 hstep =>
      split at h
      · cases h
      · next evs2 s2 hrest =>
        simp only [Option.some.injEq, Prod.mk.injEq] at h
        obtain ⟨rfl, rfl⟩ := h
        obtain ⟨hfull0, hkeep⟩ := step_full s s0 m evs0 hstep hfull
          (fun e he => hno e (List.mem_append_left _ he))
        obtain ⟨f0, hk0, hf0⟩ := hkeep k f hk hf
        exact ih s0 s2 evs2 hrest hfull0 (fun e he => hno e (List.mem_append_right _ he))
          k f0 hk0 hf0

/-- A run without a send out of a state whose channel is empty leaves every
call of `pop` that waits for a value waiting. -/
theorem exec_empty (ms : List Move) :
    ∀ (s s1 : System) (evs : List ChanEvent), s.exec ms = some (evs, s1) →
      s.q.ch = [] → (∀ e ∈ evs, e.isSent = false) →
      ∀ k : Nat, s.calls[k]? = some .popRecv → s1.calls[k]? = some .popRecv := by
  induction ms with
  | nil =>
    intro s s1 evs h _ _ k hk
    simp only [System.exec, Option.some.injEq, Prod.mk.injEq] at h
    rw [← h.2]
    exact hk
  | cons m ms ih =>
    intro s s1 evs h hempty hno k hk
    simp only [System.exec] at h
    split at h
    · cases h
    · next evs0 s0 hstep =>
      split at h
      · cases h
      · next evs2 s2 hrest =>
        simp only [Option.some.injEq, Prod.mk.injEq] at h
        obtain ⟨rfl, rfl⟩ := h
        obtain ⟨hempty0, hkeep⟩ := step_empty s s0 m evs0 hstep hempty
          (fun e he => hno e (List.mem_append_left _ he))
        exact ih s0 s2 evs2 hrest hempty0 (fun e he => hno e (List.mem_append_right _ he))
          k (hkeep k hk)

/-- A list of events with no receive in it, or a receive in it. -/
theorem received_or_none (evs : List ChanEvent) :
    (∃ x, ChanEvent.received x ∈ evs) ∨ ∀ e ∈ evs, e.isReceived = false := by
  induction evs with
  | nil => exact Or.inr (by simp)
  | cons e evs ih =>
    cases e with
    | received x => exact Or.inl ⟨x, by simp⟩
    | sent x =>
      rcases ih with ⟨y, hy⟩ | hnone
      · exact Or.inl ⟨y, by simp [hy]⟩
      · refine Or.inr ?_
        intro e he
        rcases List.mem_cons.1 he with rfl | he
        · rfl
        · exact hnone e he

/-- A list of events with no send in it, or a send in it. -/
theorem sent_or_none (evs : List ChanEvent) :
    (∃ x, ChanEvent.sent x ∈ evs) ∨ ∀ e ∈ evs, e.isSent = false := by
  induction evs with
  | nil => exact Or.inr (by simp)
  | cons e evs ih =>
    cases e with
    | sent x => exact Or.inl ⟨x, by simp⟩
    | received x =>
      rcases ih with ⟨y, hy⟩ | hnone
      · exact Or.inl ⟨y, by simp [hy]⟩
      · refine Or.inr ?_
        intro e he
        rcases List.mem_cons.1 he with rfl | he
        · rfl
        · exact hnone e he

end SystemLemmas

/-! ### Interleaved calls: membership -/

section MembershipLemmas

/-- The count of a predicate after one element of a list is replaced. -/
theorem countP_set_of_getElem? {α : Type} (p : α → Bool) (l : List α) (i : Nat) (a b : α)
    (h : l[i]? = some a) :
    (l.set i b).countP p + (if p a then 1 else 0) = l.countP p + (if p b then 1 else 0) := by
  obtain ⟨hlt, heq⟩ := List.getElem?_eq_some.1 h
  have hle := List.boole_getElem_le_countP p l i hlt
  rw [List.countP_set p l i b hlt, heq]
  rw [heq] at hle
  omega

/-- What a step does to the items of hash `h`: their number over the three
stages is kept; an item moves on from the first stage exactly in a map update
of its push, which makes `has(h)` true, and into the last stage exactly in the
deletion by its pop, which makes `has(h)` false; any other step leaves
`has(h)` as it was. -/
theorem step_counts (h : Hash) (s s1 : System) (m : Move) (evs : List ChanEvent)
    (hstep : s.step m = some (evs, s1)) :
    s1.unstored h + s1.live h + s1.returned h = s.unstored h + s.live h + s.returned h ∧
    s1.unstored h ≤ s.unstored h ∧ s.returned h ≤ s1.returned h ∧
    (s1.unstored h = s.unstored h → s1.returned h = s.returned h → s1.q.has h = s.q.has h) ∧
    (s1.unstored h < s.unstored h → s1.q.has h = true) ∧
    (s.returned h < s1.returned h → s1.q.has h = false) := by
  rcases step_some s s1 m evs hstep with ⟨i, bd, _, hc, _, rfl⟩ | ⟨i, bd, q1, _, hc, hq, _, rfl⟩ |
    ⟨i, bd, q1, _, hc, hq, _, rfl⟩ | ⟨i, bd, _, hc, _, rfl⟩ | ⟨i, j, bd, _, hi, hj, hch, _, rfl⟩
  · have hu := countP_set_of_getElem? (Frame.unstored h) s.calls i _ (.pushSend bd) hc
    have hl := countP_set_of_getElem? (Frame.holding h) s.calls i _ (.pushSend bd) hc
    have hr := countP_set_of_getElem? (Frame.returned h) s.calls i _ (.pushSend bd) hc
    simp only [Frame.unstored, Frame.holding, Frame.returned, decide_eq_true_eq,
      Bool.false_eq_true, if_false, Nat.add_zero] at hu hl hr
    simp only [System.unstored, System.live, System.returned, store_has]
    by_cases hx : bd.Hash = h
    · simp only [hx, if_true] at hu hl
      have hx2 : h = bd.Hash := hx.symm
      refine ⟨by simp only [blockQueue.store]; omega, by omega, by omega, ?_, ?_, ?_⟩
      · intro h1; omega
      · intro _; simp [hx2]
      · intro h1; omega
    · simp only [hx, if_false, Nat.add_zero] at hu hl
      have hx2 : ¬ h = bd.Hash := fun e => hx e.symm
      refine ⟨by simp only [blockQueue.store]; omega, by omega, by omega, ?_, ?_, ?_⟩
      · intro _ _; simp [hx2]
      · intro h1; omega
      · intro h1; omega
  · obtain ⟨_, rfl⟩ := send_some _ _ _ hq
    have hu := countP_set_of_getElem? (Frame.unstored h) s.calls i _ .pushDone hc
    have hl := countP_set_of_getElem? (Frame.holding h) s.calls i _ .pushDone hc
    have hr := countP_set_of_getElem? (Frame.returned h) s.calls i _ .pushDone hc
    simp only [Frame.unstored, Frame.holding, Frame.returned, decide_eq_true_eq,
      Bool.false_eq_true, if_false, Nat.add_zero] at hu hl hr
    simp only [System.unstored, System.live, System.returned, List.countP_append,
      List.countP_cons, List.countP_nil, decide_eq_true_eq, Nat.zero_add]
    refine ⟨by omega, by omega, by omega, ?_, ?_, ?_⟩
    · intro _ _; rfl
    · intro h1; omega
    · intro h1; omega
  · obtain ⟨rest, hch, rfl⟩ := recv_some _ _ _ hq
    have hu := countP_set_of_getElem? (Frame.unstored h) s.calls i _ (.popDelete bd) hc
    have hl := countP_set_of_getElem? (Frame.holding h) s.calls i _ (.popDelete bd) hc
    have hr := countP_set_of_getElem? (Frame.returned h) s.calls i _ (.popDelete bd) hc
    simp only [Frame.unstored, Frame.holding, Frame.returned, decide_eq_true_eq,
      Bool.false_eq_true, if_false, Nat.add_zero] at hu hl hr
    simp only [System.unstored, System.live, System.returned, hch, List.countP_cons,
      decide_eq_true_eq]
    refine ⟨by omega, by omega, by omega, ?_, ?_, ?_⟩
    · intro _ _; rfl
    · intro h1; omega
    · intro h1; omega
  · have hu := countP_set_of_getElem? (Frame.unstored h) s.calls i _ (.popDone bd) hc
    have hl := countP_set_of_getElem? (Frame.holding h) s.calls i _ (.popDone bd) hc
    have hr := countP_set_of_getElem? (Frame.returned h) s.calls i _ (.popDone bd) hc
    simp only [Frame.unstored, Frame.holding, Frame.returned, decide_eq_true_eq,
      Bool.false_eq_true, if_false, Nat.add_zero] at hu hl hr
    simp only [System.unstored, System.live, System.returned, remove_has]
    by_cases hx : bd.Hash = h
    · simp only [hx, if_true] at hl hr
      have hx2 : h = bd.Hash := hx.symm
      refine ⟨by simp only [blockQueue.remove]; omega, by omega, by omega, ?_, ?_, ?_⟩
      · intro _ h1; omega
      · intro h1; omega
      · intro _; simp [hx2]
    · simp only [hx, if_false, Nat.add_zero] at hl hr
      have hx2 : ¬ h = bd.Hash := fun e => hx e.symm
      refine ⟨by simp only [blockQueue.remove]; omega, by omega, by omega, ?_, ?_, ?_⟩
      · intro _ _; simp [hx2]
      · intro h1; omega
      · intro h1; omega
  · have hj2 : (s.calls.set i .pushDone)[j]? = some .popRecv := by
      by_cases hij : i = j
      · subst hij
        rw [hi] at hj
        cases hj
      · rw [List.getElem?_set_ne hij]
        exact hj
    have hu := countP_set_of_getElem? (Frame.unstored h) s.calls i _ .pushDone hi
    have hl := countP_set_of_getElem? (Frame.holding h) s.calls i _ .pushDone hi
    have hr := countP_set_of_getElem? (Frame.returned h) s.calls i _ .pushDone hi
    have hu2 := countP_set_of_getElem? (Frame.unstored h) _ j _ (.popDelete bd) hj2
    have hl2 := countP_set_of_getElem? (Frame.holding h) _ j _ (.popDelete bd) hj2
    have hr2 := countP_set_of_getElem? (Frame.returned h) _ j _ (.popDelete bd) hj2
    simp only [Frame.unstored, Frame.holding, Frame.returned, decide_eq_true_eq,
      Bool.false_eq_true, if_false, Nat.add_zero] at hu hl hr hu2 hl2 hr2
    simp only [System.unstored, System.live, System.returned]
    refine ⟨by omega, by omega, by omega, ?_, ?_, ?_⟩
    · intro _ _; trivial
    · intro h1; omega
    · intro h1; omega

/-- A step leaves a call of `push` that has not started as it is, unless it is
the map update of that call. -/
theorem step_unstarted (s s1 : System) (m : Move) (evs : List ChanEvent) (i : Nat)
    (bd : BlockData) (hstep : s.step m = some (evs, s1))
    (hi : s.calls[i]? = some (.pushStore bd)) :
    s1.calls[i]? = some (.pushStore bd) ∨ s1.unstored bd.Hash < s.unstored bd.Hash := by
  rcases step_some s s1 m evs hstep with ⟨k, x, _, hc, _, rfl⟩ | ⟨k, x, q1, _, hc, hq, _, rfl⟩ |
    ⟨k, x, q1, _, hc, hq, _, rfl⟩ | ⟨k, x, _, hc, _, rfl⟩ | ⟨k, j, x, _, hk, hj, hch, _, rfl⟩
  · by_cases hki : k = i
    · subst hki
      rw [hi] at hc
      cases hc
      right
      have hu := countP_set_of_getElem? (Frame.unstored bd.Hash) s.calls k _ (.pushSend bd) hi
      simp only [Frame.unstored, decide_True, if_true, Bool.false_eq_true, if_false,
        Nat.add_zero] at hu
      simp only [System.unstored]
      omega
    · left
      simp only
      rw [List.getElem?_set_ne hki]
      exact hi
  · left
    have hki : k ≠ i := by
      rintro rfl
      rw [hi] at hc
      cases hc
    simp only
    rw [List.getElem?_set_ne hki]
    exact hi
  · left
    have hki : k ≠ i := by
      rintro rfl
      rw [hi] at hc
      cases hc
    simp only
    rw [List.getElem?_set_ne hki]
    exact hi
  · left
    have hki : k ≠ i := by
      rintro rfl
      rw [hi] at hc
      cases hc
    simp only
    rw [List.getElem?_set_ne hki]
    exact hi
  · left
    have hki : k ≠ i := by
      rintro rfl
      rw [hi] at hk
      cases hk
    have hji : j ≠ i := by
      rintro rfl
      rw [hi] at hj
      cases hj
    simp only
    rw [List.getElem?_set_ne hji, List.getElem?_set_ne hki]
    exact hi

/-- Along every run: when the item of a call of `push` that has not started is
the only item of its hash that is not yet returned by a pop, `has` of that hash
is true from the map update of the call until the deletion by the pop that
received the item, and false from then on; `r0` is the number of calls of
`pop` that had returned an item of the hash at the start. -/
theorem exec_membership (i : Nat) (bd : BlockData) (r0 : Nat) (ms : List Move) :
    ∀ (s s1 : System) (evs : List ChanEvent), s.exec ms = some (evs, s1) →
      s.unstored bd.Hash + s.live bd.Hash + s.returned bd.Hash = 1 + r0 →
      r0 ≤ s.returned bd.Hash →
      (s.unstored bd.Hash = 0 → s.returned bd.Hash = r0 → s.q.has bd.Hash = true) →
      (s.returned bd.Hash ≠ r0 → s.q.has bd.Hash = false) →
      (s.calls[i]? = some (.pushStore bd) ∨ s.unstored bd.Hash = 0) →
      s1.unstored bd.Hash + s1.live bd.Hash + s1.returned bd.Hash = 1 + r0 ∧
      r0 ≤ s1.returned bd.Hash ∧
      (s1.unstored bd.Hash = 0 → s1.returned bd.Hash = r0 → s1.q.has bd.Hash = true) ∧
      (s1.returned bd.Hash ≠ r0 → s1.q.has bd.Hash = false) ∧
      (s1.calls[i]? = some (.pushStore bd) ∨ s1.unstored bd.Hash = 0) := by
  induction ms with
  | nil =>
    intro s s1 evs hrun h1 h0 h2 h3 h4
    simp only [System.exec, Option.some.injEq, Prod.mk.injEq] at hrun
    rw [← hrun.2]
    exact ⟨h1, h0, h2, h3, h4⟩
  | cons m ms ih =>
    intro s s1 evs hrun h1 h0 h2 h3 h4
    simp only [System.exec] at hrun
    split at hrun
    · cases hrun
    · next evs0 s0 hstep =>
      split at hrun
      · cases hrun
      · next evs2 s2 hrest =>
        simp only [Option.some.injEq, Prod.mk.injEq] at hrun
        rw [← hrun.2]
        obtain ⟨c1, c2, c3, c4, c5, c6⟩ := step_counts bd.Hash s s0 m evs0 hstep
        refine ih s0 s2 evs2 hrest (by omega) (by omega) ?_ ?_ ?_
        · intro hu hr
          by_cases hu0 : s.unstored bd.Hash = 0
          · exact (c4 (by omega) (by omega)).trans (h2 hu0 (by omega))
          · exact c5 (by omega)
        · intro hr
          by_cases hr0 : s.returned bd.Hash = r0
          · exact c6 (by omega)
          · exact (c4 (by omega) (by omega)).trans (h3 hr0)
        · rcases h4 with h4 | h4
          · rcases step_unstarted s s0 m evs0 i bd hstep h4 with h5 | h5
            · exact Or.inl h5
            · exact Or.inr (by omega)
          · exact Or.inr (by omega)

end MembershipLemmas

/-- A pop in progress breaks what C1 says as well: on an empty channel with
room, while a call of `pop` has received `itemA` (hash 1) and not yet deleted
its hash, `push(itemB)`, of the same hash, completes; the deletion by the pop
then makes `has(1)` false although `itemB` is in the channel. Two items of hash
1 are in the system at the start. -/
theorem late_delete_hides_pushed :
    lateDeleteSystem.unstored 1 + lateDeleteSystem.live 1 = 2 ∧
    (lateDeleteSystem.exec [.run 1, .run 1, .run 0]).map
        (fun r => (r.1, r.2.q.ch, r.2.q.has 1, r.2.calls))
      = some ([.sent itemB], [itemB], false, [.popDone itemA, .pushDone]) := by
  decide

/-- C1, amended: a call `push(item)` has not started, and its item is the
only item of its hash `h` around: none is in the channel and no other call, in
progress or to come, pushes one or has received one without having deleted the
hash yet. Then in every interleaving of the calls, from the map update of
`push(item)` on, so once `push(item)` has returned, and as long as no call of
`pop` has returned an item of hash `h` since, `has(h)` is true; once a call of
`pop` has returned the item, `has(h)` is false. The item is at every moment in
one place: with its push before the map update, between the map update and the
deletion, or returned. On a queue with free capacity `push(item)`, run alone,
completes and leaves the item at the end of the channel. -/
theorem has_from_push_to_pop (s : System) (i : Nat) (bd : BlockData)
    (hi : s.calls[i]? = some (.pushStore bd))
    (honly : s.unstored bd.Hash + s.live bd.Hash = 1) :
    (∀ ms evs s1, s.exec ms = some (evs, s1) →
      (s1.calls[i]? ≠ some (.pushStore bd) → s1.returned bd.Hash = s.returned bd.Hash →
        s1.q.has bd.Hash = true) ∧
      (s1.calls[i]? = some .pushDone →
        (∀ (j : Nat) x, s1.calls[j]? = some (.popDone x) → x.Hash ≠ bd.Hash) →
        s1.q.has bd.Hash = true) ∧
      (s.returned bd.Hash = 0 → ∀ j : Nat, s1.calls[j]? = some (.popDone bd) →
        s1.q.has bd.Hash = false) ∧
      (s1.returned bd.Hash ≠ s.returned bd.Hash → s1.q.has bd.Hash = false) ∧
      s1.unstored bd.Hash + s1.live bd.Hash + s1.returned bd.Hash
        = 1 + s.returned bd.Hash ∧
      s.returned bd.Hash ≤ s1.returned bd.Hash) ∧
    (s.q.ch.length < s.q.cap →
      ∃ s2, s.exec [.run i, .run i] = some ([.sent bd], s2) ∧
        s2.calls[i]? = some .pushDone ∧ s2.q.ch = s.q.ch ++ [bd] ∧
        s2.q.has bd.Hash = true) := by
  have hlt : i < s.calls.length := (List.getElem?_eq_some.1 hi).1
  have hu : 0 < s.unstored bd.Hash := by
    simp only [System.unstored]
    exact List.countP_pos_iff.2 ⟨_, List.getElem?_mem hi, by simp [Frame.unstored]⟩
  constructor
  · intro ms evs s1 hrun
    obtain ⟨c1, c0, c2, c3, c4⟩ := exec_membership i bd (s.returned bd.Hash) ms s s1 evs hrun
      (by omega) (Nat.le_refl _) (fun h0 _ => by omega) (fun hr => absurd rfl hr) (Or.inl hi)
    have hstored : s1.calls[i]? ≠ some (.pushStore bd) → s1.unstored bd.Hash = 0 := by
      intro hne
      rcases c4 with c4 | c4
      · exact absurd c4 hne
      · exact c4
    have hret : ∀ j : Nat, s1.calls[j]? = some (.popDone bd) → 0 < s1.returned bd.Hash := by
      intro j hj
      simp only [System.returned]
      exact List.countP_pos_iff.2 ⟨_, List.getElem?_mem hj, by simp [Frame.returned]⟩
    refine ⟨fun hne hr => c2 (hstored hne) hr, ?_, ?_, c3, c1, c0⟩
    · intro hdone hnone
      have hzero : s1.returned bd.Hash = 0 := by
        simp only [System.returned]
        rw [List.countP_eq_zero]
        intro f hf
        obtain ⟨j, hj⟩ := List.getElem?_of_mem hf
        cases f with
        | popDone x =>
          simp only [Frame.returned, decide_eq_true_eq]
          exact hnone j x hj
        | pushStore x => simp [Frame.returned]
        | pushSend x => simp [Frame.returned]
        | pushDone => simp [Frame.returned]
        | popRecv => simp [Frame.returned]
        | popDelete x => simp [Frame.returned]
      exact c2 (hstored (by rw [hdone]; simp)) (by omega)
    · intro hr0 j hj
      have := hret j hj
      exact c3 (by omega)
  · intro hfree
    refine ⟨{ q := { s.q.store bd with ch := s.q.ch ++ [bd] },
              calls := (s.calls.set i (.pushSend bd)).set i .pushDone }, ?_, ?_, rfl, ?_⟩
    · have hlt2 : i < (s.calls.set i (Frame.pushSend bd)).length := by
        rw [List.length_set]
        exact hlt
      simp [System.exec, System.step, hi, List.getElem?_set_self hlt, blockQueue.send,
        blockQueue.store, hfree]
    · have hlt2 : i < (s.calls.set i (Frame.pushSend bd)).length := by
        rw [List.length_set]
        exact hlt
      exact List.getElem?_set_self hlt2
    · simp [blockQueue.has, blockQueue.store]

/-- The amended C1 on `busySystem`, where `push(itemA)` runs between the steps
of two calls of `pop`: after the first pop has received `itemC`, the push has
returned and the second pop has received `itemA`, `has(1)` is true; after that
pop has deleted the hash and returned, `has(1)` is false. -/
theorem has_from_push_to_pop_witness :
    busySystem.calls[1]? = some (.pushStore itemA) ∧
    busySystem.unstored itemA.Hash + busySystem.live itemA.Hash = 1 ∧
    (∃ evs s1, busySystem.exec [.run 0, .run 1, .run 1, .run 0, .run 2] = some (evs, s1) ∧
      s1.calls = [.popDone itemC, .pushDone, .popDelete itemA] ∧ s1.q.ch = [] ∧
      s1.q.has itemA.Hash = true) ∧
    (∃ evs s1, busySystem.exec [.run 0, .run 1, .run 1, .run 0, .run 2, .run 2]
        = some (evs, s1) ∧
      s1.calls = [.popDone itemC, .pushDone, .popDone itemA] ∧
      s1.q.has itemA.Hash = false) :=
  ⟨rfl, by decide,
    (match hrun : busySystem.exec [.run 0, .run 1, .run 1, .run 0, .run 2] with
      | none => absurd (congrArg Option.isSome hrun) (by decide)
      | some (evs, s1) =>
        have hvals : s1.calls = [.popDone itemC, .pushDone, .popDelete itemA] ∧
            s1.q.ch = [] := by
          have hv : (busySystem.exec [.run 0, .run 1, .run 1, .run 0, .run 2]).map
              (fun r => (r.2.calls, r.2.q.ch))
              = some ([.popDone itemC, .pushDone, .popDelete itemA], []) := by decide
          rw [hrun] at hv
          simpa using hv
        ⟨evs, s1, rfl, hvals.1, hvals.2,
          ((has_from_push_to_pop busySystem 1 itemA rfl (by decide)).1 _ evs s1 hrun).1
            (by rw [hvals.1]; decide) (by simp only [System.returned, hvals.1]; decide)⟩),
    (match hrun : busySystem.exec [.run 0, .run 1, .run 1, .run 0, .run 2, .run 2] with
      | none => absurd (congrArg Option.isSome hrun) (by decide)
      | some (evs, s1) =>
        have hvals : s1.calls = [.popDone itemC, .pushDone, .popDone itemA] := by
          have hv : (busySystem.exec [.run 0, .run 1, .run 1, .run 0, .run 2, .run 2]).map
              (fun r => r.2.calls)
              = some [.popDone itemC, .pushDone, .popDone itemA] := by decide
          rw [hrun] at hv
          simpa using hv
        ⟨evs, s1, rfl, hvals,
          ((has_from_push_to_pop busySystem 1 itemA rfl (by decide)).1 _ evs s1 hrun).2.2.1
            (by decide) 2 (by rw [hvals]; rfl)⟩)⟩

/-- C4: in every state that calls of `push` and `pop` on `newBlockQueue(cap)`
reach, in any interleaving of their steps, the channel holds at most `cap`
items and the capacity is `cap`. A call of `push` has no error outcome: at its
send it either goes through or, exactly when the channel holds `cap` items,
cannot move; a completed `push` is `none` exactly on a full channel. -/
theorem channel_within_cap (cap : Nat) (calls : List Frame) (ms : List Move)
    (evs : List ChanEvent) (s : System)
    (hexec : (System.start cap calls).exec ms = some (evs, s)) :
    s.q.ch.length ≤ cap ∧ s.q.cap = cap ∧
    (∀ (i : Nat) (bd : BlockData), s.calls[i]? = some (.pushSend bd) →
      (s.step (.run i) = none ↔ cap ≤ s.q.ch.length)) ∧
    (∀ bd, s.q.push bd = none ↔ cap ≤ s.q.ch.length) := by
  obtain ⟨hcap, hle⟩ := exec_within_cap ms _ s evs hexec (by simp [System.start, newBlockQueue])
  have hcap1 : s.q.cap = cap := hcap
  refine ⟨hcap1 ▸ hle, hcap1, ?_, ?_⟩
  · intro i bd hi
    simp only [System.step, hi, blockQueue.send]
    by_cases hlt : s.q.ch.length < s.q.cap
    · simp only [hlt, if_true]
      constructor
      · intro h; cases h
      · intro h; omega
    · simp only [hlt, if_false, true_iff]
      omega
  · intro bd
    rw [push_eq_none, hcap1]

/-- C4 on a queue of capacity 1 with two calls of `push` and one of `pop`: both
pushes update the map, the first send goes through and the second call stays
at its send. -/
theorem channel_within_cap_witness :
    ∃ evs s, (System.start 1 [.pushStore itemA, .pushStore itemC, .popRecv]).exec
        [.run 0, .run 1, .run 0] = some (evs, s) ∧
      s.calls = [.pushDone, .pushSend itemC, .popRecv] ∧
      s.q.ch.length ≤ 1 ∧ s.q.cap = 1 ∧
      (∀ (i : Nat) (bd : BlockData), s.calls[i]? = some (.pushSend bd) →
        (s.step (.run i) = none ↔ 1 ≤ s.q.ch.length)) ∧
      (∀ bd, s.q.push bd = none ↔ 1 ≤ s.q.ch.length) :=
  match hexec : (System.start 1 [.pushStore itemA, .pushStore itemC, .popRecv]).exec
      [.run 0, .run 1, .run 0] with
  | none => absurd (congrArg Option.isSome hexec) (by decide)
  | some (evs, s) =>
    ⟨evs, s, rfl, by
      have hcalls : ((System.start 1 [.pushStore itemA, .pushStore itemC, .popRecv]).exec
          [.run 0, .run 1, .run 0]).map (fun r => r.2.calls)
          = some [.pushDone, .pushSend itemC, .popRecv] := by decide
      rw [hexec] at hcalls
      simpa using hcalls,
      channel_within_cap 1 [.pushStore itemA, .pushStore itemC, .popRecv]
        [.run 0, .run 1, .run 0] evs s hexec⟩

/-- C7: backpressure, for every run of calls on a queue, in any interleaving.
Out of a state whose channel holds `cap` items, a call of `push` that stands at
its send cannot move, and a call of `push` that has not returned returns only
in a run in which a call of `pop` receives an item. Out of a state whose
channel is empty, a call of `pop` that stands at its receive cannot move, and
it gets past the receive only in a run in which a call of `push` sends an
item. -/
theorem backpressure (s s1 : System) (ms : List Move) (evs : List ChanEvent)
    (hexec : s.exec ms = some (evs, s1)) :
    (s.q.ch.length = s.q.cap →
      (∀ (i : Nat) (bd : BlockData), s.calls[i]? = some (.pushSend bd) →
        s.step (.run i) = none) ∧
      (∀ (i : Nat) (f : Frame), s.calls[i]? = some f → f.pushing = true →
        s1.calls[i]? = some .pushDone → ∃ x, ChanEvent.received x ∈ evs)) ∧
    (s.q.ch = [] →
      (∀ j : Nat, s.calls[j]? = some .popRecv → s.step (.run j) = none) ∧
      (∀ j : Nat, s.calls[j]? = some .popRecv → s1.calls[j]? ≠ some .popRecv →
        ∃ x, ChanEvent.sent x ∈ evs)) := by
  refine ⟨fun hfull => ⟨?_, ?_⟩, fun hempty => ⟨?_, ?_⟩⟩
  · intro i bd hi
    simp [System.step, hi, blockQueue.send, hfull]
  · intro i f hi hf hdone
    rcases received_or_none evs with hrecv | hnone
    · exact hrecv
    · obtain ⟨f1, hf1, hpush⟩ := exec_full ms s s1 evs hexec hfull hnone i f hi hf
      rw [hdone] at hf1
      cases hf1
      simp [Frame.pushing] at hpush
  · intro j hj
    simp [System.step, hj, blockQueue.recv, hempty]
  · intro j hj hpast
    rcases sent_or_none evs with hsent | hnone
    · exact hsent
    · exact absurd (exec_empty ms s s1 evs hexec hempty hnone j hj) hpast

/-- C7 on the full queue of `fullSystem` and the empty queue of `emptySystem`.
On the full queue the call of `push` cannot move; once the call of `pop` has
received `itemA` the push goes through, and the run has a receive in it. On
the empty queue the call of `pop` cannot move; once the call of `push` has
sent `itemA` the pop returns it, and the run has a send in it. -/
theorem backpressure_witness :
    fullSystem.q.ch.length = fullSystem.q.cap ∧
    (∃ evs s1, fullSystem.exec [.run 1, .run 0, .run 1] = some (evs, s1) ∧
      fullSystem.step (.run 0) = none ∧
      s1.calls = [.pushDone, .popDone itemA] ∧
      ∃ x, ChanEvent.received x ∈ evs) ∧
    emptySystem.q.ch = [] ∧
    (∃ evs s1, emptySystem.exec [.run 0, .run 0, .run 1, .run 1] = some (evs, s1) ∧
      emptySystem.step (.run 1) = none ∧
      s1.calls = [.pushDone, .popDone itemA] ∧
      ∃ x, ChanEvent.sent x ∈ evs) :=
  ⟨rfl,
    match hexec : fullSystem.exec [.run 1, .run 0, .run 1] with
    | none => absurd (congrArg Option.isSome hexec) (by decide)
    | some (evs, s1) =>
      have hcalls : s1.calls = [.pushDone, .popDone itemA] := by
        have hc : (fullSystem.exec [.run 1, .run 0, .run 1]).map (fun r => r.2.calls)
            = some [.pushDone, .popDone itemA] := by decide
        rw [hexec] at hc
        simpa using hc
      ⟨evs, s1, rfl,
        ((backpressure fullSystem s1 [.run 1, .run 0, .run 1] evs hexec).1 rfl).1 0 itemC rfl,
        hcalls,
        ((backpressure fullSystem s1 [.run 1, .run 0, .run 1] evs hexec).1 rfl).2 0
          (.pushSend itemC) rfl rfl (by rw [hcalls]; rfl)⟩,
    rfl,
    match hexec : emptySystem.exec [.run 0, .run 0, .run 1, .run 1] with
    | none => absurd (congrArg Option.isSome hexec) (by decide)
    | some (evs, s1) =>
      have hcalls : s1.calls = [.pushDone, .popDone itemA] := by
        have hc : (emptySystem.exec [.run 0, .run 0, .run 1, .run 1]).map (fun r => r.2.calls)
            = some [.pushDone, .popDone itemA] := by decide
        rw [hexec] at hc
        simpa using hc
      ⟨evs, s1, rfl,
        ((backpressure emptySystem s1 [.run 0, .run 0, .run 1, .run 1] evs hexec).2 rfl).1 1 rfl,
        hcalls,
        ((backpressure emptySystem s1 [.run 0, .run 0, .run 1, .run 1] evs hexec).2 rfl).2 1
          rfl (by rw [hcalls]; decide)⟩⟩

/-! ### The steps of a call and the completed call -/

/-- A call of `push` that runs alone, both of its steps one after the other,
does what the completed `push` does, and is blocked when that is `none`. -/
theorem lone_push_steps (q : blockQueue) (bd : BlockData) :
    System.exec { q := q, calls := [.pushStore bd] } [.run 0, .run 0]
      = (q.push bd).map (fun q1 => ([.sent bd], { q := q1, calls := [.pushDone] })) := by
  simp only [System.exec, System.step, List.getElem?_cons_zero, List.set_cons_zero,
    blockQueue.push]
  cases (q.store bd).send bd <;> simp

/-- A call of `pop` that runs alone, both of its steps one after the other,
does what the completed `pop` does, and is blocked when that is `none`. -/
theorem lone_pop_steps (q : blockQueue) :
    System.exec { q := q, calls := [.popRecv] } [.run 0, .run 0]
      = (q.pop).map (fun r => ([.received r.1], { q := r.2, calls := [.popDone r.1] })) := by
  simp only [System.exec, System.step, List.getElem?_cons_zero, List.set_cons_zero,
    blockQueue.pop]
  cases hr : q.recv with
  | none => simp
  | some r =>
    obtain ⟨bd, q1⟩ := r
    simp

/-- A call of `push` on a full channel updates the map before it blocks: after
its first step `has` is true for the item's hash, the channel is as it was,
and the call cannot move. -/
theorem blocked_push_in_map (s : System) (i : Nat) (bd : BlockData)
    (hi : s.calls[i]? = some (.pushStore bd)) (hfull : s.q.ch.length = s.q.cap) :
    ∃ s1, s.step (.run i) = some ([], s1) ∧ s1.q.has bd.Hash = true ∧
      s1.q.ch = s.q.ch ∧ s1.step (.run i) = none := by
  have hlt : i < s.calls.length := (List.getElem?_eq_some.1 hi).1
  refine ⟨{ q := s.q.store bd, calls := s.calls.set i (.pushSend bd) }, ?_, ?_, rfl, ?_⟩
  · simp [System.step, hi]
  · simp [blockQueue.has, blockQueue.store]
  · simp [System.step, List.getElem?_set_self hlt, blockQueue.send, blockQueue.store, hfull]

/-- A call `push(itemA)` on a new queue of capacity 0: the hash is in the map
while the channel holds nothing. -/
theorem blocked_push_in_map_witness :
    (System.start 0 [.pushStore itemA]).calls[0]? = some (.pushStore itemA) ∧
    (System.start 0 [.pushStore itemA]).q.ch.length = (System.start 0 [.pushStore itemA]).q.cap ∧
    ∃ s1, (System.start 0 [.pushStore itemA]).step (.run 0) = some ([], s1) ∧
      s1.q.has itemA.Hash = true ∧ s1.q.ch = (System.start 0 [.pushStore itemA]).q.ch ∧
      s1.step (.run 0) = none :=
  ⟨rfl, rfl, blocked_push_in_map (System.start 0 [.pushStore itemA]) 0 itemA rfl rfl⟩

/-! ## Properties of the chain processor -/

/-- C8: `processBlockData(nil)` returns the error "got nil BlockData" and calls
no collaborator: whatever the collaborators and whatever was called before,
the trace of calls is left as it was. -/
theorem processBlockData_nil (s : chainProcessor) (tr : Trace) :
    s.processBlockData none tr = (some "got nil BlockData", tr) := by
  rfl

/-- C9: for every header, nil or not, `handleHeader` calls `VerifyBlock` once
on that header; it returns nil exactly when `VerifyBlock` returns nil; when
`VerifyBlock` returns an error `e` it returns the error whose message is
"could not verify block: " followed by the message of `e`. With the verifier
of the test, which reports "nil header" for a nil header, the nil header gives
"could not verify block: nil header". -/
theorem handleHeader_wraps (s : chainProcessor) (header : Option Header) (tr : Trace) :
    ((s.handleHeader header tr).1 = none ↔ s.babeVerifier.VerifyBlock tr header = none) ∧
    (∀ e, s.babeVerifier.VerifyBlock tr header = some e →
      (s.handleHeader header tr).1 = some ("could not verify block: " ++ e)) ∧
    (s.handleHeader header tr).2 = tr ++ [.VerifyBlock header] ∧
    ({ s with babeVerifier := testBabeVerifier }.handleHeader none tr).1
      = some "could not verify block: nil header" ∧
    ({ s with babeVerifier := testBabeVerifier }.handleHeader (some testHeader) tr).1 = none := by
  refine ⟨?_, ?_, ?_, ?_, ?_⟩
  · unfold chainProcessor.handleHeader
    cases h : s.babeVerifier.VerifyBlock tr header <;> simp
  · intro e he
    unfold chainProcessor.handleHeader
    rw [he]
    simp only [ErrInvalidBlock, String.append_assoc]
    rfl
  · unfold chainProcessor.handleHeader
    cases h : s.babeVerifier.VerifyBlock tr header <;> rfl
  · simp only [chainProcessor.handleHeader, testBabeVerifier, ErrInvalidBlock]
    decide
  · rfl

/-- The four cases of `Test_chainProcessor_handleJustification`, run from an
empty trace: nothing is called for a nil header and justification; the
justification "x" is refused and not stored; the justifications "xx" (whose
storing fails) and "1234" are each stored once. -/
theorem handleJustification_test_cases :
    testProcessor.handleJustification none none [] = [] ∧
    testProcessor.handleJustification (some testHeader) (some [120]) []
      = [.VerifyBlockJustification 0 [120]] ∧
    testProcessor.handleJustification (some testHeader) (some [120, 120]) []
      = [.VerifyBlockJustification 0 [120, 120], .SetJustification 0 [120, 120]] ∧
    testProcessor.handleJustification (some testHeader) (some [49, 50, 51, 52]) []
      = [.VerifyBlockJustification 0 [49, 50, 51, 52], .SetJustification 0 [49, 50, 51, 52]] := by
  decide

/-- C10: `handleJustification` adds to the trace the calls it makes. When the
header and the justification are both non-nil it calls the finality verifier
once, and then `SetJustification` once if the verifier accepts and not at all
if it refuses; when the header or the justification is nil it makes no call.
So `SetJustification` is called once in the first case with an accepting
verifier and never otherwise. The function has no result besides its calls,
and these do not depend on the answer of `SetJustification`: no failure is
handed to the caller. -/
theorem handleJustification_calls (s : chainProcessor) (header : Option Header)
    (justification : Option (List Nat)) (tr : Trace) :
    ∃ calls, s.handleJustification header justification tr = tr ++ calls ∧
      (∀ h j, header = some h → justification = some j →
        calls = .VerifyBlockJustification (s.headerHash h) j ::
          (if (s.finalityGadget.VerifyBlockJustification tr (s.headerHash h) j).isNone
            then [.SetJustification (s.headerHash h) j] else [])) ∧
      (header = none ∨ justification = none → calls = []) ∧
      (calls.filter Call.isSetJustification).length =
        (match header, justification with
          | some h, some j =>
            if (s.finalityGadget.VerifyBlockJustification tr (s.headerHash h) j).isNone
              then 1 else 0
          | _, _ => 0) ∧
      (∀ f, { s with blockState := { s.blockState with SetJustification := f } }.handleJustification
          header justification tr = tr ++ calls) := by
  cases header with
  | none =>
    refine ⟨[], by simp [chainProcessor.handleJustification], ?_, ?_, ?_, ?_⟩
    · intro h j hh; cases hh
    · intro _; rfl
    · rfl
    · intro f; simp [chainProcessor.handleJustification]
  | some h =>
    cases justification with
    | none =>
      refine ⟨[], by simp [chainProcessor.handleJustification], ?_, ?_, ?_, ?_⟩
      · intro h j _ hj; cases hj
      · intro _; rfl
      · rfl
      · intro f; simp [chainProcessor.handleJustification]
    | some j =>
      cases hv : s.finalityGadget.VerifyBlockJustification tr (s.headerHash h) j with
      | some e =>
        refine ⟨[.VerifyBlockJustification (s.headerHash h) j],
          by simp [chainProcessor.handleJustification, hv], ?_, ?_, ?_, ?_⟩
        · intro h1 j1 hh hj
          cases hh; cases hj
          simp [hv]
        · intro hnil
          rcases hnil with hnil | hnil <;> cases hnil
        · simp [hv, Call.isSetJustification]
        · intro f; simp [chainProcessor.handleJustification, hv]
      | none =>
        refine ⟨[.VerifyBlockJustification (s.headerHash h) j,
            .SetJustification (s.headerHash h) j], ?_, ?_, ?_, ?_, ?_⟩
        · simp only [chainProcessor.handleJustification, hv]
          cases s.blockState.SetJustification
            (tr ++ [.VerifyBlockJustification (s.headerHash h) j]) (s.headerHash h) j <;> simp
        · intro h1 j1 hh hj
          cases hh; cases hj
          simp [hv]
        · intro hnil
          rcases hnil with hnil | hnil <;> cases hnil
        · simp [hv, Call.isSetJustification]
        · intro f
          simp only [chainProcessor.handleJustification, hv]
          cases f (tr ++ [.VerifyBlockJustification (s.headerHash h) j]) (s.headerHash h) j <;> simp

/-! ### Body, block and lock -/

section ProcessorLemmas

/-- The calls of `handleBody`: one `RemoveExtrinsic` for each extrinsic, in
the order of the body. -/
theorem handleBody_eq (s : chainProcessor) (body : Body) :
    ∀ tr : Trace, s.handleBody body tr = tr ++ body.map Call.RemoveExtrinsic := by
  induction body with
  | nil => intro tr; simp [chainProcessor.handleBody]
  | cons ext exts ih =>
    intro tr
    have h := ih (tr ++ [.RemoveExtrinsic ext])
    simp only [chainProcessor.handleBody, List.foldl_cons] at h ⊢
    rw [h]
    simp

/-- The calls of `handleJustification` are on the finality verifier and on
`SetJustification` only. -/
theorem handleJustification_countP (p : Call → Bool)
    (hv : ∀ h j, p (.VerifyBlockJustification h j) = false)
    (hs : ∀ h j, p (.SetJustification h j) = false)
    (s : chainProcessor) (header : Option Header) (j : Option (List Nat)) (tr : Trace) :
    (s.handleJustification header j tr).countP p = tr.countP p := by
  cases header with
  | none => simp [chainProcessor.handleJustification]
  | some h =>
    cases j with
    | none => simp [chainProcessor.handleJustification]
    | some j =>
      simp only [chainProcessor.handleJustification]
      cases s.finalityGadget.VerifyBlockJustification tr (s.headerHash h) j with
      | some e => simp [List.countP_append, List.countP_cons, hv]
      | none =>
        cases s.blockState.SetJustification
          (tr ++ [.VerifyBlockJustification (s.headerHash h) j]) (s.headerHash h) j <;>
        simp [List.countP_append, List.countP_cons, hv, hs]

/-- The calls of `handleBody` are `RemoveExtrinsic` only. -/
theorem handleBody_countP (p : Call → Bool) (hr : ∀ ext, p (.RemoveExtrinsic ext) = false)
    (s : chainProcessor) (body : Body) (tr : Trace) :
    (s.handleBody body tr).countP p = tr.countP p := by
  rw [handleBody_eq, List.countP_append]
  have : (body.map Call.RemoveExtrinsic).countP p = 0 := by
    rw [List.countP_eq_zero]
    intro c hc
    obtain ⟨ext, _, rfl⟩ := List.mem_map.1 hc
    simp [hr]
  omega

/-- The function `handleBlock` on a block, with the calls of each exit written
out. -/
theorem handleBlock_unfold (s : chainProcessor) (b : Block) (tr : Trace) :
    s.handleBlock (some b) tr =
      match b.Body with
      | none => (some ErrNilBlockOrBody, tr)
      | some _ =>
        match s.blockState.GetHeader tr b.Header.ParentHash with
        | .error err => (some err, tr ++ [.GetHeader b.Header.ParentHash])
        | .ok parent =>
          match s.storageState.TrieState (tr ++ [.GetHeader b.Header.ParentHash])
              parent.StateRoot with
          | .error err =>
            (some err, tr ++ [.GetHeader b.Header.ParentHash, .TrieState parent.StateRoot])
          | .ok ts =>
            match s.blockState.GetRuntime
                (tr ++ [.GetHeader b.Header.ParentHash, .TrieState parent.StateRoot, .Lock])
                (s.headerHash parent) with
            | .error err =>
              (some err, tr ++ [.GetHeader b.Header.ParentHash, .TrieState parent.StateRoot,
                .Lock, .GetRuntime (s.headerHash parent), .Unlock])
            | .ok rt =>
              match rt.ExecuteBlock
                  (tr ++ [.GetHeader b.Header.ParentHash, .TrieState parent.StateRoot, .Lock,
                    .GetRuntime (s.headerHash parent), .SetContextStorage ts]) b with
              | .error err =>
                (some err, tr ++ [.GetHeader b.Header.ParentHash, .TrieState parent.StateRoot,
                  .Lock, .GetRuntime (s.headerHash parent), .SetContextStorage ts,
                  .ExecuteBlock b, .Unlock])
              | .ok _ =>
                match s.blockImportHandler.HandleBlockImport
                    (tr ++ [.GetHeader b.Header.ParentHash, .TrieState parent.StateRoot, .Lock,
                      .GetRuntime (s.headerHash parent), .SetContextStorage ts,
                      .ExecuteBlock b]) b ts with
                | some err =>
                  (some err, tr ++ [.GetHeader b.Header.ParentHash,
                    .TrieState parent.StateRoot, .Lock, .GetRuntime (s.headerHash parent),
                    .SetContextStorage ts, .ExecuteBlock b, .HandleBlockImport b ts, .Unlock])
                | none =>
                  (none, tr ++ [.GetHeader b.Header.ParentHash, .TrieState parent.StateRoot,
                    .Lock, .GetRuntime (s.headerHash parent), .SetContextStorage ts,
                    .ExecuteBlock b, .HandleBlockImport b ts, .Unlock, .SendMessage b]) := by
  simp only [chainProcessor.handleBlock, List.append_assoc, List.cons_append, List.nil_append]

/-- A call of `handleBlock` that returns nil made the nine calls of an import,
in this order. -/
theorem handleBlock_ok (s : chainProcessor) (block : Option Block) (tr : Trace)
    (hok : (s.handleBlock block tr).1 = none) :
    ∃ b parent ts, block = some b ∧
      s.blockState.GetHeader tr b.Header.ParentHash = .ok parent ∧
      (s.handleBlock block tr).2 = tr ++
        [.GetHeader b.Header.ParentHash, .TrieState parent.StateRoot, .Lock,
         .GetRuntime (s.headerHash parent), .SetContextStorage ts, .ExecuteBlock b,
         .HandleBlockImport b ts, .Unlock, .SendMessage b] := by
  cases block with
  | none => simp [chainProcessor.handleBlock, ErrNilBlockOrBody] at hok
  | some b =>
    rw [handleBlock_unfold] at hok ⊢
    split at hok
    · simp at hok
    · split at hok
      · simp at hok
      · next parent hg =>
        split at hok
        · simp at hok
        · next ts ht =>
          split at hok
          · simp at hok
          · next rt hr =>
            split at hok
            · simp at hok
            · next out he =>
              split at hok
              · simp at hok
              · next hi =>
                refine ⟨b, parent, ts, rfl, hg, ?_⟩
                simp only [hg, ht, hr, he, hi]

/-- The pipeline on an item that block state already has is `handleKnown`
after the two presence queries. -/
theorem processBlockData_known_eq (s : chainProcessor) (bd : BlockData) (tr : Trace)
    (hh : s.blockState.HasHeader tr bd.Hash = .ok true)
    (hb : s.blockState.HasBlockBody (tr ++ [.HasHeader bd.Hash]) bd.Hash = .ok true) :
    s.processBlockData (some bd) tr =
      s.handleKnown bd (tr ++ [.HasHeader bd.Hash, .HasBlockBody bd.Hash]) := by
  simp only [chainProcessor.processBlockData, hh, hb, Bool.and_self, if_true,
    List.append_assoc, List.cons_append, List.nil_append]

/-- The pipeline on an item that block state does not have in full is
`handleParts` after the two presence queries. -/
theorem processBlockData_new_eq (s : chainProcessor) (bd : BlockData) (tr : Trace)
    (hasH hasB : Bool)
    (hh : s.blockState.HasHeader tr bd.Hash = .ok hasH)
    (hb : s.blockState.HasBlockBody (tr ++ [.HasHeader bd.Hash]) bd.Hash = .ok hasB)
    (hnew : (hasH && hasB) = false) :
    s.processBlockData (some bd) tr =
      s.handleParts bd (tr ++ [.HasHeader bd.Hash, .HasBlockBody bd.Hash]) := by
  simp only [chainProcessor.processBlockData, hh, hb, hnew, Bool.false_eq_true, if_false,
    List.append_assoc, List.cons_append, List.nil_append]

/-- The calls of `handleKnown` are `GetBlockByHash`, `AddBlockToBlockTree`,
those of the justification handling, `TrieState` and `HandleBlockImport`
only. -/
theorem handleKnown_countP (p : Call → Bool)
    (hg : ∀ h, p (.GetBlockByHash h) = false) (ha : ∀ b, p (.AddBlockToBlockTree b) = false)
    (hv : ∀ h j, p (.VerifyBlockJustification h j) = false)
    (hs : ∀ h j, p (.SetJustification h j) = false)
    (ht : ∀ r, p (.TrieState r) = false) (hi : ∀ b t, p (.HandleBlockImport b t) = false)
    (s : chainProcessor) (bd : BlockData) (tr : Trace) :
    (s.handleKnown bd tr).2.countP p = tr.countP p := by
  unfold chainProcessor.handleKnown
  cases s.blockState.GetBlockByHash tr bd.Hash with
  | error e => simp [List.countP_append, List.countP_cons, hg]
  | ok ob =>
    cases ob with
    | none => simp [List.countP_append, List.countP_cons, hg]
    | some block =>
      simp only
      cases s.blockState.AddBlockToBlockTree (tr ++ [.GetBlockByHash bd.Hash]) block with
      | some e => simp [List.countP_append, List.countP_cons, hg, ha]
      | none =>
        simp only
        have hj : ∀ t : Trace, (match bd.Justification with
            | some j => s.handleJustification (some block.Header) (some j) t
            | none => t).countP p = t.countP p := by
          intro t
          cases bd.Justification with
          | none => rfl
          | some j => exact handleJustification_countP p hv hs s _ _ t
        cases s.storageState.TrieState _ block.Header.StateRoot with
        | error e =>
          simp only [List.countP_append, hj]
          simp [List.countP_cons, hg, ha, ht]
        | ok ts =>
          simp only [List.countP_append, hj]
          simp [List.countP_cons, hg, ha, ht, hi]

/-- The function `handleKnown` when the block is got and attached and its trie
state is loaded: the calls, in order, and the result, which is that of the
block-import handler. -/
theorem handleKnown_ok_eq (s : chainProcessor) (bd : BlockData) (tr : Trace) (block : Block)
    (ts : TrieState)
    (hg : s.blockState.GetBlockByHash tr bd.Hash = .ok (some block))
    (ha : s.blockState.AddBlockToBlockTree (tr ++ [.GetBlockByHash bd.Hash]) block = none)
    (ht : s.storageState.TrieState
        (s.handleJustification (some block.Header) bd.Justification
          (tr ++ [.GetBlockByHash bd.Hash, .AddBlockToBlockTree block]))
        block.Header.StateRoot = .ok ts) :
    s.handleKnown bd tr =
      (s.blockImportHandler.HandleBlockImport
          (s.handleJustification (some block.Header) bd.Justification
            (tr ++ [.GetBlockByHash bd.Hash, .AddBlockToBlockTree block]) ++
            [.TrieState block.Header.StateRoot]) block ts,
        s.handleJustification (some block.Header) bd.Justification
            (tr ++ [.GetBlockByHash bd.Hash, .AddBlockToBlockTree block]) ++
          [.TrieState block.Header.StateRoot, .HandleBlockImport block ts]) := by
  have hj : (match bd.Justification with
      | some j => s.handleJustification (some block.Header) (some j)
          (tr ++ [.GetBlockByHash bd.Hash, .AddBlockToBlockTree block])
      | none => tr ++ [.GetBlockByHash bd.Hash, .AddBlockToBlockTree block])
      = s.handleJustification (some block.Header) bd.Justification
          (tr ++ [.GetBlockByHash bd.Hash, .AddBlockToBlockTree block]) := by
    cases bd.Justification <;> rfl
  simp only [chainProcessor.handleKnown, hg, ha, List.append_assoc, List.cons_append,
    List.nil_append, hj, ht]

/-- The function `handleKnown` hands at most one block to the import
handler. -/
theorem handleKnown_import_le (s : chainProcessor) (bd : BlockData) (tr : Trace) :
    (s.handleKnown bd tr).2.countP Call.isHandleBlockImport
      ≤ tr.countP Call.isHandleBlockImport + 1 := by
  unfold chainProcessor.handleKnown
  cases s.blockState.GetBlockByHash tr bd.Hash with
  | error e => simp [List.countP_append, List.countP_cons, Call.isHandleBlockImport]
  | ok ob =>
    cases ob with
    | none => simp [List.countP_append, List.countP_cons, Call.isHandleBlockImport]
    | some block =>
      simp only
      cases s.blockState.AddBlockToBlockTree (tr ++ [.GetBlockByHash bd.Hash]) block with
      | some e => simp [List.countP_append, List.countP_cons, Call.isHandleBlockImport]
      | none =>
        simp only
        have hj : ∀ t : Trace, (match bd.Justification with
            | some j => s.handleJustification (some block.Header) (some j) t
            | none => t).countP Call.isHandleBlockImport = t.countP Call.isHandleBlockImport := by
          intro t
          cases bd.Justification with
          | none => rfl
          | some j =>
            exact handleJustification_countP _ (fun _ _ => rfl) (fun _ _ => rfl) s _ _ t
        cases s.storageState.TrieState _ block.Header.StateRoot with
        | error e =>
          simp only [List.countP_append, hj]
          simp [List.countP_cons, Call.isHandleBlockImport]
        | ok ts =>
          simp only [List.countP_append, hj]
          simp [List.countP_cons, Call.isHandleBlockImport]

/-- The function `handleParts` on a full item, when it returns nil: the header
is verified, the block is imported, the body and the justification are handled
and the item is recorded. -/
theorem handleParts_full_ok (s : chainProcessor) (bd : BlockData) (h : Header) (b : Body)
    (tr : Trace) (hhd : bd.Header = some h) (hbd : bd.Body = some b)
    (hok : (s.handleParts bd tr).1 = none) :
    ∃ parent ts,
      (s.handleParts bd tr).2 =
        s.handleJustification (some h) bd.Justification
          (s.handleBody b
            (tr ++ [.VerifyBlock (some h),
              .GetHeader h.ParentHash, .TrieState parent.StateRoot, .Lock,
              .GetRuntime (s.headerHash parent), .SetContextStorage ts,
              .ExecuteBlock { Header := h, Body := some b },
              .HandleBlockImport { Header := h, Body := some b } ts, .Unlock,
              .SendMessage { Header := h, Body := some b }])) ++
          [.CompareAndSetBlockData bd] := by
  simp only [chainProcessor.handleParts, hhd, hbd, chainProcessor.handleHeader] at hok ⊢
  cases hv : s.babeVerifier.VerifyBlock tr (some h) with
  | some e => simp [hv] at hok
  | none =>
    simp only [hv] at hok ⊢
    cases hblk : s.handleBlock (some { Header := h, Body := some b })
        (tr ++ [.VerifyBlock (some h)]) with
    | mk err tr6 =>
      cases err with
      | some e => simp [hblk] at hok
      | none =>
        obtain ⟨b1, parent, ts, hb1, _, htr⟩ := handleBlock_ok s _ _ (by rw [hblk])
        cases hb1
        rw [hblk] at htr
        simp only at htr
        refine ⟨parent, ts, ?_⟩
        simp only [hblk, htr, List.append_assoc, List.cons_append, List.nil_append]
        cases hj : bd.Justification with
        | some j => rfl
        | none => rfl

end ProcessorLemmas

/-- C11: for every body, `handleBody` calls `RemoveExtrinsic` once for each
extrinsic of the body, in the order of the body, and makes no other call: the
extrinsics removed are those of the body, each as often as it occurs there.
The function has no error result. -/
theorem handleBody_removes_each (s : chainProcessor) (body : Body) (tr : Trace) :
    ∃ calls, s.handleBody body tr = tr ++ calls ∧
      calls = body.map Call.RemoveExtrinsic ∧
      calls.filterMap Call.removed = body ∧
      calls.length = body.length ∧
      (∀ ext, (calls.filterMap Call.removed).count ext = body.count ext) ∧
      ((calls.filterMap Call.removed : List Extrinsic) : Multiset Extrinsic) = (body : List Extrinsic) := by
  have hrem : (body.map Call.RemoveExtrinsic).filterMap Call.removed = body := by
    induction body with
    | nil => rfl
    | cons ext exts ih =>
      simp only [List.map_cons, List.filterMap_cons, Call.removed]
      rw [ih]
  refine ⟨body.map Call.RemoveExtrinsic, handleBody_eq s body tr, rfl, hrem, by simp, ?_, ?_⟩
  · intro ext
    rw [hrem]
  · rw [hrem]

/-- The three extrinsics of `Test_chainProcessor_handleBody`: one
`RemoveExtrinsic` for each. -/
theorem handleBody_test_case :
    okProcessor.handleBody testBody []
      = [.RemoveExtrinsic [1, 2, 3], .RemoveExtrinsic [7, 8, 9, 0], .RemoveExtrinsic [10, 11]] := by
  decide

/-- C13: for every block, nil or not, the calls `handleBlock` makes on the lock
of the storage state are none at all or one `Lock` followed by one `Unlock`,
whatever the exit: success, a failing `GetHeader`, `TrieState`, `GetRuntime`,
`ExecuteBlock` or `HandleBlockImport`. So `Unlock` is called once for each
`Lock` and the function never returns with the lock held. -/
theorem handleBlock_lock_released (s : chainProcessor) (block : Option Block) (tr : Trace) :
    ∃ calls, (s.handleBlock block tr).2 = tr ++ calls ∧
      (calls.filter Call.isLockOp = [] ∨ calls.filter Call.isLockOp = [.Lock, .Unlock]) ∧
      calls.count .Lock = calls.count .Unlock := by
  cases block with
  | none => exact ⟨[], by simp [chainProcessor.handleBlock], Or.inl rfl, rfl⟩
  | some b =>
    rw [handleBlock_unfold]
    split
    · exact ⟨[], by simp, Or.inl rfl, rfl⟩
    · split
      · exact ⟨_, rfl, Or.inl (by simp [Call.isLockOp]), by simp⟩
      · split
        · exact ⟨_, rfl, Or.inl (by simp [Call.isLockOp]), by simp⟩
        · split
          · exact ⟨_, rfl, Or.inr (by simp [Call.isLockOp]), by simp⟩
          · split
            · exact ⟨_, rfl, Or.inr (by simp [Call.isLockOp]), by simp⟩
            · split
              · exact ⟨_, rfl, Or.inr (by simp [Call.isLockOp]), by simp⟩
              · exact ⟨_, rfl, Or.inr (by simp [Call.isLockOp]), by simp⟩

/-- C14: for a block with a body, when the lookups of the parent header, of
the trie state of the parent's state root and of the runtime succeed,
`handleBlock` sets the context storage to that state before it executes the
block. If the execution and the import succeed it has made the nine calls of
an import in this order, `HandleBlockImport` with the same block and the same
state after `ExecuteBlock`, one telemetry message last, and returns nil. If
the execution fails, `HandleBlockImport` is not called. For a nil block or a
nil body it returns "block or body is nil" and makes no call. -/
theorem handleBlock_import_sequence (s : chainProcessor) (b : Block) (body : Body)
    (tr : Trace) (parent : Header) (ts : TrieState) (rt : Instance)
    (hbody : b.Body = some body)
    (hg : s.blockState.GetHeader tr b.Header.ParentHash = .ok parent)
    (ht : s.storageState.TrieState (tr ++ [.GetHeader b.Header.ParentHash])
      parent.StateRoot = .ok ts)
    (hr : s.blockState.GetRuntime
      (tr ++ [.GetHeader b.Header.ParentHash, .TrieState parent.StateRoot, .Lock])
      (s.headerHash parent) = .ok rt) :
    (∀ out,
      rt.ExecuteBlock
        (tr ++ [.GetHeader b.Header.ParentHash, .TrieState parent.StateRoot, .Lock,
          .GetRuntime (s.headerHash parent), .SetContextStorage ts]) b = .ok out →
      s.blockImportHandler.HandleBlockImport
        (tr ++ [.GetHeader b.Header.ParentHash, .TrieState parent.StateRoot, .Lock,
          .GetRuntime (s.headerHash parent), .SetContextStorage ts, .ExecuteBlock b]) b ts
        = none →
      s.handleBlock (some b) tr =
        (none, tr ++ [.GetHeader b.Header.ParentHash, .TrieState parent.StateRoot, .Lock,
          .GetRuntime (s.headerHash parent), .SetContextStorage ts, .ExecuteBlock b,
          .HandleBlockImport b ts, .Unlock, .SendMessage b])) ∧
    (∀ e,
      rt.ExecuteBlock
        (tr ++ [.GetHeader b.Header.ParentHash, .TrieState parent.StateRoot, .Lock,
          .GetRuntime (s.headerHash parent), .SetContextStorage ts]) b = .error e →
      s.handleBlock (some b) tr =
        (some e, tr ++ [.GetHeader b.Header.ParentHash, .TrieState parent.StateRoot, .Lock,
          .GetRuntime (s.headerHash parent), .SetContextStorage ts, .ExecuteBlock b,
          .Unlock])) ∧
    s.handleBlock none tr = (some "block or body is nil", tr) ∧
    s.handleBlock (some { b with Body := none }) tr = (some "block or body is nil", tr) := by
  refine ⟨?_, ?_, rfl, ?_⟩
  · intro out he hi
    rw [handleBlock_unfold]
    simp only [hbody, hg, ht, hr, he, hi]
  · intro e he
    rw [handleBlock_unfold]
    simp only [hbody, hg, ht, hr, he]
  · rw [handleBlock_unfold]
    rfl

/-- C14 on the block of `fullItem` and collaborators that all succeed. -/
theorem handleBlock_import_sequence_witness :
    okProcessor.handleBlock (some fullBlock) []
      = (none, [.GetHeader 0, .TrieState 7, .Lock, .GetRuntime 0, .SetContextStorage 5,
          .ExecuteBlock fullBlock, .HandleBlockImport fullBlock 5, .Unlock,
          .SendMessage fullBlock]) ∧
    okProcessor.handleBlock none [] = (some "block or body is nil", []) :=
  ⟨((handleBlock_import_sequence okProcessor fullBlock testBody []
      { ParentHash := 0, Number := 0, StateRoot := 7, Digest := [] } 5
      { ExecuteBlock := fun _ _ => .ok [] } rfl rfl rfl rfl).1 [] rfl rfl),
   (handleBlock_import_sequence okProcessor fullBlock testBody []
      { ParentHash := 0, Number := 0, StateRoot := 7, Digest := [] } 5
      { ExecuteBlock := fun _ _ => .ok [] } rfl rfl rfl rfl).2.2.1⟩

/-! ### Idempotence -/

/-- C12 as stated fails: `fullItem` is delivered twice to `okProcessor`, whose
block state has the header and the body of a block once it was imported. The
first delivery returns nil after one `ExecuteBlock`, one `HandleBlockImport`
and one `CompareAndSetBlockData`. The second delivery finds the header and the
body in block state; it gets the block, adds it to the block tree, handles the
justification and hands the block to the import handler again: the two
deliveries make two calls of the import handler. -/
theorem known_block_imported_again :
    (okProcessor.processBlockData (some fullItem) []).1 = none ∧
    callsOf "HandleBlockImport" (okProcessor.processBlockData (some fullItem) []).2 = 1 ∧
    okProcessor.processBlockData (some fullItem)
        (okProcessor.processBlockData (some fullItem) []).2
      = (none, (okProcessor.processBlockData (some fullItem) []).2 ++
          [.HasHeader 1, .HasBlockBody 1, .GetBlockByHash 1, .AddBlockToBlockTree fullBlock,
           .VerifyBlockJustification 1 [0, 1, 2], .SetJustification 1 [0, 1, 2],
           .TrieState 9, .HandleBlockImport fullBlock 5]) ∧
    callsOf "HandleBlockImport" (okProcessor.processBlockData (some fullItem)
        (okProcessor.processBlockData (some fullItem) []).2).2 = 2 ∧
    callsOf "ExecuteBlock" (okProcessor.processBlockData (some fullItem)
        (okProcessor.processBlockData (some fullItem) []).2).2 = 1 ∧
    callsOf "CompareAndSetBlockData" (okProcessor.processBlockData (some fullItem)
        (okProcessor.processBlockData (some fullItem) []).2).2 = 1 := by
  decide

/-- C12, amended: a delivery of an item whose header and body block state
already has makes no `ExecuteBlock` and no `CompareAndSetBlockData`, and at
most one `HandleBlockImport`. When the block is got from block state and added
to the block tree and its trie state is loaded, the calls of the delivery are,
after the two presence queries: `GetBlockByHash`, `AddBlockToBlockTree`, the
calls of the justification handling of the item's justification, `TrieState`
and one `HandleBlockImport`, whose result is the result of the delivery. When
this is the second delivery of a full item whose first delivery, at a time
block state did not have it, returned nil, the two deliveries together made one
`ExecuteBlock` and one `CompareAndSetBlockData`, and two calls of
`HandleBlockImport`. -/
theorem processBlockData_idempotent (s : chainProcessor) (bd : BlockData) (tr1 : Trace)
    (hh : s.blockState.HasHeader tr1 bd.Hash = .ok true)
    (hb : s.blockState.HasBlockBody (tr1 ++ [.HasHeader bd.Hash]) bd.Hash = .ok true) :
    (s.processBlockData (some bd) tr1).2.countP Call.isExecuteBlock
      = tr1.countP Call.isExecuteBlock ∧
    (s.processBlockData (some bd) tr1).2.countP Call.isCompareAndSetBlockData
      = tr1.countP Call.isCompareAndSetBlockData ∧
    (s.processBlockData (some bd) tr1).2.countP Call.isHandleBlockImport
      ≤ tr1.countP Call.isHandleBlockImport + 1 ∧
    (∀ (block : Block) (ts : TrieState),
      s.blockState.GetBlockByHash (tr1 ++ [.HasHeader bd.Hash, .HasBlockBody bd.Hash]) bd.Hash
        = .ok (some block) →
      s.blockState.AddBlockToBlockTree
        (tr1 ++ [.HasHeader bd.Hash, .HasBlockBody bd.Hash, .GetBlockByHash bd.Hash]) block
        = none →
      s.storageState.TrieState
        (s.handleJustification (some block.Header) bd.Justification
          (tr1 ++ [.HasHeader bd.Hash, .HasBlockBody bd.Hash, .GetBlockByHash bd.Hash,
            .AddBlockToBlockTree block]))
        block.Header.StateRoot = .ok ts →
      s.processBlockData (some bd) tr1 =
        (s.blockImportHandler.HandleBlockImport
            (s.handleJustification (some block.Header) bd.Justification
              (tr1 ++ [.HasHeader bd.Hash, .HasBlockBody bd.Hash, .GetBlockByHash bd.Hash,
                .AddBlockToBlockTree block]) ++ [.TrieState block.Header.StateRoot]) block ts,
          s.handleJustification (some block.Header) bd.Justification
              (tr1 ++ [.HasHeader bd.Hash, .HasBlockBody bd.Hash, .GetBlockByHash bd.Hash,
                .AddBlockToBlockTree block]) ++
            [.TrieState block.Header.StateRoot, .HandleBlockImport block ts]) ∧
      (s.processBlockData (some bd) tr1).2.countP Call.isHandleBlockImport
        = tr1.countP Call.isHandleBlockImport + 1 ∧
      (∀ j, bd.Justification = some j →
        Call.VerifyBlockJustification (s.headerHash block.Header) j
          ∈ (s.processBlockData (some bd) tr1).2)) ∧
    (∀ (tr0 : Trace) (h : Header) (b : Body) (hasH hasB : Bool),
      bd.Header = some h → bd.Body = some b →
      s.blockState.HasHeader tr0 bd.Hash = .ok hasH →
      s.blockState.HasBlockBody (tr0 ++ [.HasHeader bd.Hash]) bd.Hash = .ok hasB →
      (hasH && hasB) = false →
      (s.processBlockData (some bd) tr0).1 = none →
      tr1 = (s.processBlockData (some bd) tr0).2 →
      (s.processBlockData (some bd) tr1).2.countP Call.isExecuteBlock
        = tr0.countP Call.isExecuteBlock + 1 ∧
      (s.processBlockData (some bd) tr1).2.countP Call.isCompareAndSetBlockData
        = tr0.countP Call.isCompareAndSetBlockData + 1 ∧
      tr1.countP Call.isHandleBlockImport = tr0.countP Call.isHandleBlockImport + 1 ∧
      (s.processBlockData (some bd) tr1).2.countP Call.isHandleBlockImport
        ≤ tr0.countP Call.isHandleBlockImport + 2) := by
  have heq := processBlockData_known_eq s bd tr1 hh hb
  have hexec : (s.processBlockData (some bd) tr1).2.countP Call.isExecuteBlock
      = tr1.countP Call.isExecuteBlock := by
    rw [heq, handleKnown_countP _ (fun _ => rfl) (fun _ => rfl) (fun _ _ => rfl)
      (fun _ _ => rfl) (fun _ => rfl) (fun _ _ => rfl)]
    simp [List.countP_append, List.countP_cons, Call.isExecuteBlock]
  have hcas : (s.processBlockData (some bd) tr1).2.countP Call.isCompareAndSetBlockData
      = tr1.countP Call.isCompareAndSetBlockData := by
    rw [heq, handleKnown_countP _ (fun _ => rfl) (fun _ => rfl) (fun _ _ => rfl)
      (fun _ _ => rfl) (fun _ => rfl) (fun _ _ => rfl)]
    simp [List.countP_append, List.countP_cons, Call.isCompareAndSetBlockData]
  have himp : (s.processBlockData (some bd) tr1).2.countP Call.isHandleBlockImport
      ≤ tr1.countP Call.isHandleBlockImport + 1 := by
    rw [heq]
    refine (handleKnown_import_le s bd _).trans ?_
    simp [List.countP_append, List.countP_cons, Call.isHandleBlockImport]
  refine ⟨hexec, hcas, himp, ?_, ?_⟩
  · intro block ts hg ha ht
    have hk := handleKnown_ok_eq s bd (tr1 ++ [.HasHeader bd.Hash, .HasBlockBody bd.Hash])
      block ts hg (by simpa using ha) (by simpa using ht)
    simp only [List.append_assoc, List.cons_append, List.nil_append] at hk
    refine ⟨?_, ?_, ?_⟩
    · rw [heq]
      simpa using hk
    · rw [heq]
      simp only [List.append_assoc, List.cons_append, List.nil_append, hk,
        List.countP_append]
      rw [handleJustification_countP _ (fun _ _ => rfl) (fun _ _ => rfl)]
      simp [List.countP_append, List.countP_cons, Call.isHandleBlockImport]
    · intro j hj
      rw [heq]
      simp only [List.append_assoc, List.cons_append, List.nil_append, hk, hj,
        List.mem_append]
      left
      simp only [chainProcessor.handleJustification]
      cases s.finalityGadget.VerifyBlockJustification _ (s.headerHash block.Header) j with
      | some e => simp
      | none =>
        simp only
        cases s.blockState.SetJustification _ (s.headerHash block.Header) j <;> simp
  · intro tr0 h b hasH hasB hhd hbd hh0 hb0 hnew hok htr
    have hnewEq := processBlockData_new_eq s bd tr0 hasH hasB hh0 hb0 hnew
    rw [hnewEq] at hok
    obtain ⟨parent, ts, hfirst⟩ := handleParts_full_ok s bd h b _ hhd hbd hok
    have htr1 : tr1 = s.handleJustification (some h) bd.Justification
          (s.handleBody b
            (tr0 ++ [.HasHeader bd.Hash, .HasBlockBody bd.Hash] ++ [.VerifyBlock (some h),
              .GetHeader h.ParentHash, .TrieState parent.StateRoot, .Lock,
              .GetRuntime (s.headerHash parent), .SetContextStorage ts,
              .ExecuteBlock { Header := h, Body := some b },
              .HandleBlockImport { Header := h, Body := some b } ts, .Unlock,
              .SendMessage { Header := h, Body := some b }])) ++
          [.CompareAndSetBlockData bd] := by
      rw [htr, hnewEq, hfirst]
    have c1 : tr1.countP Call.isExecuteBlock = tr0.countP Call.isExecuteBlock + 1 := by
      rw [htr1, List.countP_append,
        handleJustification_countP _ (fun _ _ => rfl) (fun _ _ => rfl),
        handleBody_countP _ (fun _ => rfl)]
      simp [List.countP_append, List.countP_cons, Call.isExecuteBlock]
    have c2 : tr1.countP Call.isCompareAndSetBlockData
        = tr0.countP Call.isCompareAndSetBlockData + 1 := by
      rw [htr1, List.countP_append,
        handleJustification_countP _ (fun _ _ => rfl) (fun _ _ => rfl),
        handleBody_countP _ (fun _ => rfl)]
      simp [List.countP_append, List.countP_cons, Call.isCompareAndSetBlockData]
    have c3 : tr1.countP Call.isHandleBlockImport
        = tr0.countP Call.isHandleBlockImport + 1 := by
      rw [htr1, List.countP_append,
        handleJustification_countP _ (fun _ _ => rfl) (fun _ _ => rfl),
        handleBody_countP _ (fun _ => rfl)]
      simp [List.countP_append, List.countP_cons, Call.isHandleBlockImport]
    refine ⟨by rw [hexec, c1], by rw [hcas, c2], c3, ?_⟩
    omega

/-- The amended C12 on two deliveries of `fullItem` to `okProcessor`: the
first delivery imports the block and records the item; the second gets the
block from block state, handles the justification and hands the block to
the import handler, with no execution and no recording. -/
theorem processBlockData_idempotent_witness :
    okProcessor.blockState.HasHeader (okProcessor.processBlockData (some fullItem) []).2
      fullItem.Hash = .ok true ∧
    (okProcessor.processBlockData (some fullItem) []).1 = none ∧
    (okProcessor.processBlockData (some fullItem)
        (okProcessor.processBlockData (some fullItem) []).2).2.countP Call.isExecuteBlock = 1 ∧
    (okProcessor.processBlockData (some fullItem)
        (okProcessor.processBlockData (some fullItem) []).2).2.countP
          Call.isCompareAndSetBlockData = 1 ∧
    (okProcessor.processBlockData (some fullItem)
        (okProcessor.processBlockData (some fullItem) []).2).2.countP Call.isHandleBlockImport
      = (okProcessor.processBlockData (some fullItem) []).2.countP Call.isHandleBlockImport
        + 1 ∧
    Call.VerifyBlockJustification 1 [0, 1, 2]
      ∈ (okProcessor.processBlockData (some fullItem)
          (okProcessor.processBlockData (some fullItem) []).2).2 :=
  ⟨rfl, by decide,
   ((processBlockData_idempotent okProcessor fullItem
      (okProcessor.processBlockData (some fullItem) []).2 rfl rfl).2.2.2.2
      [] { ParentHash := 0, Number := 1, StateRoot := 9, Digest := [] } testBody false false
      rfl rfl rfl rfl rfl (by decide) rfl).1,
   ((processBlockData_idempotent okProcessor fullItem
      (okProcessor.processBlockData (some fullItem) []).2 rfl rfl).2.2.2.2
      [] { ParentHash := 0, Number := 1, StateRoot := 9, Digest := [] } testBody false false
      rfl rfl rfl rfl rfl (by decide) rfl).2.1,
   ((processBlockData_idempotent okProcessor fullItem
      (okProcessor.processBlockData (some fullItem) []).2 rfl rfl).2.2.2.1
      fullBlock 5 rfl rfl rfl).2.1,
   ((processBlockData_idempotent okProcessor fullItem
      (okProcessor.processBlockData (some fullItem) []).2 rfl rfl).2.2.2.1
      fullBlock 5 rfl rfl rfl).2.2 [0, 1, 2] rfl⟩

/-- The cases of `Test_chainProcessor_processBlockData` on `mockProcessor`:
the result of each case, and for every method the number of calls over the six
cases, which is the number the test expects of its mock. -/
theorem processBlockData_test_cases :
    (mockProcessor.processEach mockItems []).1
      = [some "got nil BlockData", none, some "fake error adding block", none, none, none] ∧
    (["HasHeader", "HasBlockBody", "CompareAndSetBlockData", "GetBlockByHash",
      "AddBlockToBlockTree", "GetHeader", "SetContextStorage", "ExecuteBlock", "GetRuntime",
      "TrieState", "Lock", "Unlock", "HandleBlockImport", "VerifyBlock", "SendMessage",
      "VerifyBlockJustification", "SetJustification", "RemoveExtrinsic"].map
        (fun name => callsOf name (mockProcessor.processEach mockItems []).2))
      = [5, 5, 3, 2, 2, 2, 2, 2, 2, 3, 2, 2, 3, 2, 2, 1, 1, 0] ∧
    mockProcessor.processBlockData
        (some { Hash := 131587, Header := none, Body := none, Justification := none }) []
      = (none, [.HasHeader 131587, .HasBlockBody 131587, .GetBlockByHash 131587,
          .AddBlockToBlockTree
            { Header := { ParentHash := 0, Number := 2, StateRoot := 0, Digest := [] },
              Body := none },
          .TrieState 0,
          .HandleBlockImport
            { Header := { ParentHash := 0, Number := 2, StateRoot := 0, Digest := [] },
              Body := none } 0]) ∧
    mockProcessor.processBlockData
        (some { Hash := 0, Header := none, Body := none, Justification := none }) []
      = (none, [.HasHeader 0, .HasBlockBody 0,
          .CompareAndSetBlockData
            { Hash := 0, Header := none, Body := none, Justification := none }]) := by
  decide

/-! ### The worker loop -/

section WorkerLemmas

/-- The pipeline run on a list of items followed by one more item. -/
theorem processAll_append (s : chainProcessor) (bds : List BlockData) (bd : BlockData) :
    ∀ acc : List Error × Trace,
      s.processAll (bds ++ [bd]) acc =
        ((s.processAll bds acc).1 ++
            (s.processBlockData (some bd) (s.processAll bds acc).2).1.toList,
          (s.processBlockData (some bd) (s.processAll bds acc).2).2) := by
  induction bds with
  | nil => intro acc; rfl
  | cons x xs ih =>
    intro acc
    obtain ⟨errs, tr⟩ := acc
    simp only [List.cons_append, chainProcessor.processAll]
    exact ih _

/-- One event that is not the cancellation signal, on a worker that has not
returned and whose signal has not fired: the worker has not returned, every
item is in the channel or processed, in order, and the trace and the failures
are those of the pipeline run on the processed items. -/
theorem worker_event_invariant (s : chainProcessor) (w w1 : Worker) (e : WorkerEvent)
    (tr0 : Trace) (hev : s.processReadyBlocks w e = some w1) (hne : e ≠ .cancel)
    (hc : w.cancelled = false) (hpc : w.pc ≠ .exited)
    (hacc : (w.failures, w.tr) = s.processAll w.processed ([], tr0)) :
    w1.cancelled = false ∧ w1.pc ≠ .exited ∧
      w1.processed ++ w1.q.ch = w.processed ++ w.q.ch ++ pushedByEvents [e] ∧
      (w1.failures, w1.tr) = s.processAll w1.processed ([], tr0) := by
  cases e with
  | cancel => exact absurd rfl hne
  | push bd =>
    simp only [chainProcessor.processReadyBlocks] at hev
    cases hp : w.q.push bd with
    | none => rw [hp] at hev; cases hev
    | some q1 =>
      rw [hp] at hev
      cases hev
      obtain ⟨_, rfl⟩ := (push_eq_some w.q q1 bd).1 hp
      exact ⟨hc, hpc, by simp [pushedByEvents], hacc⟩
  | step =>
    simp only [chainProcessor.processReadyBlocks] at hev
    cases hpc1 : w.pc with
    | exited => exact absurd hpc1 hpc
    | top =>
      rw [hpc1] at hev
      simp only [hc, Bool.false_eq_true, if_false, Option.some.injEq] at hev
      subst hev
      exact ⟨rfl, by simp, by simp [pushedByEvents], hacc⟩
    | inPop =>
      rw [hpc1] at hev
      simp only at hev
      cases hp : w.q.pop with
      | none => rw [hp] at hev; cases hev
      | some r =>
        obtain ⟨bd, q1⟩ := r
        rw [hp] at hev
        simp only [Option.some.injEq] at hev
        subst hev
        obtain ⟨rest, hch, rfl⟩ := pop_eq_some w.q q1 bd hp
        refine ⟨hc, by simp, ?_, ?_⟩
        · simp [pushedByEvents, hch, blockQueue.remove]
        · rw [processAll_append, ← hacc]

/-- The invariant of `worker_event_invariant` along a run with no cancellation
signal in it. -/
theorem worker_run_invariant (s : chainProcessor) (tr0 : Trace) (es : List WorkerEvent) :
    ∀ w w1 : Worker, s.runWorker w es = some w1 → hasCancel es = false →
      w.cancelled = false → w.pc ≠ .exited →
      (w.failures, w.tr) = s.processAll w.processed ([], tr0) →
      w1.cancelled = false ∧ w1.pc ≠ .exited ∧
        w1.processed ++ w1.q.ch = w.processed ++ w.q.ch ++ pushedByEvents es ∧
        (w1.failures, w1.tr) = s.processAll w1.processed ([], tr0) := by
  induction es with
  | nil =>
    intro w w1 hrun _ hc hpc hacc
    simp only [chainProcessor.runWorker, Option.some.injEq] at hrun
    subst hrun
    exact ⟨hc, hpc, by simp [pushedByEvents], hacc⟩
  | cons e es ih =>
    intro w w1 hrun hnc hc hpc hacc
    simp only [chainProcessor.runWorker] at hrun
    cases hev : s.processReadyBlocks w e with
    | none => rw [hev] at hrun; cases hrun
    | some w2 =>
      rw [hev] at hrun
      simp only [hasCancel, List.any_cons, Bool.or_eq_false_iff, decide_eq_false_iff_not] at hnc
      obtain ⟨hc2, hpc2, hitems2, hacc2⟩ :=
        worker_event_invariant s w w2 e tr0 hev hnc.1 hc hpc hacc
      obtain ⟨hc1, hpc1, hitems1, hacc1⟩ :=
        ih w2 w1 hrun (by simpa [hasCancel] using hnc.2) hc2 hpc2 hacc2
      refine ⟨hc1, hpc1, ?_, hacc1⟩
      rw [hitems1, hitems2]
      cases e <;> simp [pushedByEvents]

/-- A worker at the top of an iteration, the signal not fired, processes all
the items of the channel in two steps each. -/
theorem worker_drains (s : chainProcessor) (items : List BlockData) :
    ∀ w : Worker, w.q.ch = items → w.pc = .top → w.cancelled = false →
      ∃ w1, s.runWorker w (List.replicate (2 * items.length) .step) = some w1 ∧
        w1.processed = w.processed ++ items ∧ w1.q.ch = [] ∧ w1.pc = .top ∧
        (w1.failures, w1.tr) = s.processAll items (w.failures, w.tr) := by
  induction items with
  | nil =>
    intro w hch hpc _
    exact ⟨w, rfl, by simp, hch, hpc, rfl⟩
  | cons bd rest ih =>
    intro w hch hpc hc
    obtain ⟨w1, hrun, hproc, hch1, hpc1, hacc⟩ :=
      ih { q := { w.q with ch := rest }.remove bd.Hash, pc := .top, cancelled := false,
           tr := (s.processBlockData (some bd) w.tr).2,
           processed := w.processed ++ [bd],
           failures := w.failures ++ (s.processBlockData (some bd) w.tr).1.toList }
        rfl rfl rfl
    refine ⟨w1, ?_, by simpa using hproc, hch1, hpc1, hacc⟩
    have hlen : 2 * (bd :: rest).length = (2 * rest.length) + 1 + 1 := by
      simp only [List.length_cons]; omega
    rw [hlen, List.replicate_succ, List.replicate_succ]
    simp only [chainProcessor.runWorker, chainProcessor.processReadyBlocks, hpc, hc,
      Bool.false_eq_true, if_false, pop_cons w.q bd rest hch]
    exact hrun

/-- An event on a worker whose signal has fired and that is not inside `pop`:
it is still not inside `pop`, and it has processed nothing more. -/
theorem cancelled_event (s : chainProcessor) (w w1 : Worker) (e : WorkerEvent)
    (hev : s.processReadyBlocks w e = some w1) (hc : w.cancelled = true)
    (hpc : w.pc ≠ .inPop) :
    w1.cancelled = true ∧ w1.pc ≠ .inPop ∧ w1.processed = w.processed ∧ w1.tr = w.tr ∧
      (w.pc = .exited → w1.pc = .exited) := by
  cases e with
  | cancel =>
    simp only [chainProcessor.processReadyBlocks, Option.some.injEq] at hev
    subst hev
    exact ⟨rfl, hpc, rfl, rfl, fun h => h⟩
  | push bd =>
    simp only [chainProcessor.processReadyBlocks] at hev
    cases hp : w.q.push bd with
    | none => rw [hp] at hev; cases hev
    | some q1 =>
      rw [hp] at hev
      cases hev
      exact ⟨hc, hpc, rfl, rfl, fun h => h⟩
  | step =>
    simp only [chainProcessor.processReadyBlocks] at hev
    cases hpc1 : w.pc with
    | inPop => exact absurd hpc1 hpc
    | exited => rw [hpc1] at hev; cases hev
    | top =>
      rw [hpc1] at hev
      simp only [hc, if_true, Option.some.injEq] at hev
      subst hev
      exact ⟨rfl, by simp, rfl, rfl, fun _ => rfl⟩

/-- A run of a worker whose signal has fired and that is not inside `pop`: it
processes nothing more. -/
theorem cancelled_run (s : chainProcessor) (es : List WorkerEvent) :
    ∀ w w1 : Worker, s.runWorker w es = some w1 → w.cancelled = true → w.pc ≠ .inPop →
      w1.cancelled = true ∧ w1.pc ≠ .inPop ∧ w1.processed = w.processed ∧ w1.tr = w.tr ∧
        (w.pc = .exited → w1.pc = .exited) := by
  induction es with
  | nil =>
    intro w w1 hrun hc hpc
    simp only [chainProcessor.runWorker, Option.some.injEq] at hrun
    subst hrun
    exact ⟨hc, hpc, rfl, rfl, fun h => h⟩
  | cons e es ih =>
    intro w w1 hrun hc hpc
    simp only [chainProcessor.runWorker] at hrun
    cases hev : s.processReadyBlocks w e with
    | none => rw [hev] at hrun; cases hrun
    | some w2 =>
      rw [hev] at hrun
      obtain ⟨hc2, hpc2, hproc2, htr2, hex2⟩ := cancelled_event s w w2 e hev hc hpc
      obtain ⟨hc1, hpc1, hproc1, htr1, hex1⟩ := ih w2 w1 hrun hc2 hpc2
      exact ⟨hc1, hpc1, hproc1.trans hproc2, htr1.trans htr2, fun h => hex1 (hex2 h)⟩

/-- A run of a worker whose signal has fired: it processes at most one more
item. -/
theorem cancelled_run_le (s : chainProcessor) (es : List WorkerEvent) :
    ∀ w w1 : Worker, s.runWorker w es = some w1 → w.cancelled = true →
      w1.cancelled = true ∧ w1.processed.length ≤ w.processed.length + 1 := by
  induction es with
  | nil =>
    intro w w1 hrun hc
    simp only [chainProcessor.runWorker, Option.some.injEq] at hrun
    subst hrun
    exact ⟨hc, by omega⟩
  | cons e es ih =>
    intro w w1 hrun hc
    by_cases hpc : w.pc = .inPop
    · simp only [chainProcessor.runWorker] at hrun
      cases hev : s.processReadyBlocks w e with
      | none => rw [hev] at hrun; cases hrun
      | some w2 =>
        rw [hev] at hrun
        cases e with
        | cancel =>
          simp only [chainProcessor.processReadyBlocks, Option.some.injEq] at hev
          subst hev
          exact ih { w with cancelled := true } w1 hrun rfl
        | push bd =>
          simp only [chainProcessor.processReadyBlocks] at hev
          cases hp : w.q.push bd with
          | none => rw [hp] at hev; cases hev
          | some q1 =>
            rw [hp] at hev
            cases hev
            exact ih { w with q := q1 } w1 hrun hc
        | step =>
          simp only [chainProcessor.processReadyBlocks, hpc] at hev
          cases hp : w.q.pop with
          | none => rw [hp] at hev; cases hev
          | some r =>
            obtain ⟨bd, q1⟩ := r
            rw [hp] at hev
            simp only [Option.some.injEq] at hev
            subst hev
            obtain ⟨hc1, _, hproc1, _, _⟩ := cancelled_run s es _ w1 hrun hc (by simp)
            refine ⟨hc1, ?_⟩
            rw [hproc1]
            simp
    · obtain ⟨hc1, _, hproc1, _, _⟩ := cancelled_run s (e :: es) w w1 hrun hc hpc
      exact ⟨hc1, by rw [hproc1]; omega⟩

end WorkerLemmas

/-- C15: in every run of the worker with no cancellation signal in it, in any
interleaving with the pushes of the producers, the worker does not return,
whatever `processBlockData` returned for the items; the items it handed to
`processBlockData` followed by the items still in the channel are the items
queued at the start followed by the items pushed, so each item is handed over
once, in pop order; and the trace and the reported errors are those of the
pipeline run on these items one after the other. Left alone, the worker hands
over every item of the channel in two steps each. -/
theorem worker_processes_each_once (s : chainProcessor) (q : blockQueue) (tr : Trace)
    (es : List WorkerEvent) (w1 : Worker)
    (hrun : s.runWorker (Worker.start q tr) es = some w1) (hnc : hasCancel es = false) :
    w1.pc ≠ .exited ∧
    w1.processed ++ w1.q.ch = q.ch ++ pushedByEvents es ∧
    (w1.failures, w1.tr) = s.processAll w1.processed ([], tr) ∧
    ∃ w2, s.runWorker (Worker.start q tr) (List.replicate (2 * q.ch.length) .step) = some w2 ∧
      w2.processed = q.ch ∧ w2.q.ch = [] ∧ w2.pc = .top ∧
      (w2.failures, w2.tr) = s.processAll q.ch ([], tr) := by
  obtain ⟨_, hpc, hitems, hacc⟩ := worker_run_invariant s tr es (Worker.start q tr) w1 hrun hnc
    rfl (by simp [Worker.start]) rfl
  obtain ⟨w2, hrun2, hproc2, hch2, hpc2, hacc2⟩ := worker_drains s q.ch (Worker.start q tr)
    rfl rfl rfl
  refine ⟨hpc, by simpa [Worker.start] using hitems, hacc, w2, hrun2, ?_, hch2, hpc2, hacc2⟩
  simpa [Worker.start] using hproc2

/-- C15 on a queue whose first item fails in the pipeline: the second item is
processed all the same and the worker is at the top of its next iteration. -/
theorem worker_processes_each_once_witness :
    ∃ w1, rejectingProcessor.runWorker (Worker.start failingFirstQueue [])
        [.step, .step, .step, .step] = some w1 ∧
      hasCancel [.step, .step, .step, .step] = false ∧
      w1.failures = ["could not verify block: bad header"] ∧
      w1.processed = [itemD, fullItem] ∧
      w1.pc ≠ .exited ∧
      w1.processed ++ w1.q.ch
        = failingFirstQueue.ch ++ pushedByEvents [.step, .step, .step, .step] ∧
      (w1.failures, w1.tr) = rejectingProcessor.processAll w1.processed ([], []) :=
  match hrun : rejectingProcessor.runWorker (Worker.start failingFirstQueue [])
      [.step, .step, .step, .step] with
  | none => absurd (congrArg Option.isSome hrun) (by decide)
  | some w1 =>
    have hvals : w1.failures = ["could not verify block: bad header"] ∧
        w1.processed = [itemD, fullItem] := by
      have hv : (rejectingProcessor.runWorker (Worker.start failingFirstQueue [])
          [.step, .step, .step, .step]).map (fun w => (w.failures, w.processed))
          = some (["could not verify block: bad header"], [itemD, fullItem]) := by decide
      rw [hrun] at hv
      simpa using hv
    ⟨w1, rfl, by decide, hvals.1, hvals.2,
      (worker_processes_each_once rejectingProcessor failingFirstQueue []
        [.step, .step, .step, .step] w1 hrun (by decide)).1,
      (worker_processes_each_once rejectingProcessor failingFirstQueue []
        [.step, .step, .step, .step] w1 hrun (by decide)).2.1,
      (worker_processes_each_once rejectingProcessor failingFirstQueue []
        [.step, .step, .step, .step] w1 hrun (by decide)).2.2.1⟩

/-- C16 as stated fails: `pop` is a receive on the channel and takes no
cancellation signal. A worker that has entered `pop` on an empty queue when
the signal fires cannot move: it does not return. When an item is pushed
later, the worker pops it and hands it to the pipeline, after the signal. -/
theorem cancel_not_seen_in_pop :
    (okProcessor.runWorker (Worker.start (newBlockQueue 2) []) [.step, .cancel]).map
        (fun w => (w.pc, w.cancelled, w.q.ch)) = some (.inPop, true, []) ∧
    (okProcessor.runWorker (Worker.start (newBlockQueue 2) [])
        [.step, .cancel, .step]).isSome = false ∧
    (okProcessor.runWorker (Worker.start (newBlockQueue 2) [])
        [.step, .cancel, .push itemA, .step]).map
        (fun w => (w.cancelled, w.processed, w.pc)) = some (true, [itemA], .top) := by
  decide

/-- C16, amended: once the cancellation signal has fired, a worker at the top
of an iteration returns at its next step without a pop, whatever the channel
holds, and in every run from there, whatever is pushed, it hands no item to
the pipeline and makes no call; a worker that has returned stays returned. A
worker inside `pop` does not observe the signal there: on an empty channel it
cannot move, and in every run it hands at most one more item to the
pipeline. -/
theorem cancelled_worker_stops (s : chainProcessor) (w w1 : Worker) (es : List WorkerEvent)
    (hc : w.cancelled = true) (hrun : s.runWorker w es = some w1) :
    w1.cancelled = true ∧
    w1.processed.length ≤ w.processed.length + 1 ∧
    (w.pc ≠ .inPop → w1.processed = w.processed ∧ w1.tr = w.tr ∧ w1.pc ≠ .inPop) ∧
    (w.pc = .top → ∃ w2, s.processReadyBlocks w .step = some w2 ∧ w2.pc = .exited ∧
      w2.q.ch = w.q.ch ∧ w2.processed = w.processed) ∧
    (w.pc = .exited → w1.pc = .exited) ∧
    (w.pc = .inPop → w.q.ch = [] → s.processReadyBlocks w .step = none) := by
  refine ⟨(cancelled_run_le s es w w1 hrun hc).1, (cancelled_run_le s es w w1 hrun hc).2,
    ?_, ?_, ?_, ?_⟩
  · intro hpc
    obtain ⟨_, hpc1, hproc, htr, _⟩ := cancelled_run s es w w1 hrun hc hpc
    exact ⟨hproc, htr, hpc1⟩
  · intro hpc
    exact ⟨{ w with pc := .exited }, by simp [chainProcessor.processReadyBlocks, hpc, hc],
      rfl, rfl, rfl⟩
  · intro hpc
    exact (cancelled_run s es w w1 hrun hc (by rw [hpc]; simp)).2.2.2.2 hpc
  · intro hpc hch
    simp [chainProcessor.processReadyBlocks, hpc, pop_nil w.q hch]

/-- The amended C16 on a worker at the top of an iteration whose queue holds
two items, the signal fired: after a push and a step of the worker it has
returned, with nothing processed and the three items still in the channel. -/
theorem cancelled_worker_stops_witness :
    cancelledWorker.cancelled = true ∧
    ∃ w1, okProcessor.runWorker cancelledWorker [.push itemB, .step] = some w1 ∧
      w1.pc = .exited ∧ w1.q.ch = [itemA, itemC, itemB] ∧
      w1.processed = cancelledWorker.processed ∧ w1.tr = cancelledWorker.tr ∧
      w1.processed.length ≤ cancelledWorker.processed.length + 1 :=
  ⟨rfl,
    match hrun : okProcessor.runWorker cancelledWorker [.push itemB, .step] with
    | none => absurd (congrArg Option.isSome hrun) (by decide)
    | some w1 =>
      have hvals : w1.pc = .exited ∧ w1.q.ch = [itemA, itemC, itemB] := by
        have hv : (okProcessor.runWorker cancelledWorker [.push itemB, .step]).map
            (fun w => (w.pc, w.q.ch)) = some (.exited, [itemA, itemC, itemB]) := by decide
        rw [hrun] at hv
        simpa using hv
      ⟨w1, rfl, hvals.1, hvals.2,
        ((cancelled_worker_stops okProcessor cancelledWorker w1 [.push itemB, .step] rfl
          hrun).2.2.1 (by decide)).1,
        ((cancelled_worker_stops okProcessor cancelledWorker w1 [.push itemB, .step] rfl
          hrun).2.2.1 (by decide)).2.1,
        (cancelled_worker_stops okProcessor cancelledWorker w1 [.push itemB, .step] rfl
          hrun).2.1⟩⟩

/-! ## Properties of the handshake, the pruner and the mailer -/

/-- C17: for every handshake, `IsValid` is true if and only if the roles are
the authority role or the full-node role, whatever the values of these two
constants; every other value of the roles is invalid, the zero value among
them when it is neither of the two. -/
theorem IsValid_iff_authority_or_full (c : RoleConstants) (hs : GrandpaHandshake) :
    (hs.IsValid c = true ↔ hs.Roles = c.AuthorityRole ∨ hs.Roles = c.FullNodeRole) ∧
    (hs.Roles ≠ c.AuthorityRole → hs.Roles ≠ c.FullNodeRole → hs.IsValid c = false) ∧
    (0 ≠ c.AuthorityRole → 0 ≠ c.FullNodeRole →
      GrandpaHandshake.IsValid c { Roles := 0 } = false) ∧
    GrandpaHandshake.IsValid c { Roles := c.AuthorityRole } = true ∧
    GrandpaHandshake.IsValid c { Roles := c.FullNodeRole } = true := by
  refine ⟨?_, ?_, ?_, ?_, ?_⟩
  · simp [GrandpaHandshake.IsValid]
  · intro h1 h2
    simp [GrandpaHandshake.IsValid, h1, h2]
  · intro h1 h2
    simp [GrandpaHandshake.IsValid, h1, h2]
  · simp [GrandpaHandshake.IsValid]
  · simp [GrandpaHandshake.IsValid]

/-- The code at the failing input of C18: with the finalised head at block 3
and one block to retain, `SetBloomFilter` succeeds and puts into the bloom
filter the node hashes of the state tries of block 3 (1003, 999) and of block
2 (1002) as well: two blocks, not the last one only. -/
theorem SetBloomFilter_retains_one_more :
    examplePruner.SetBloomFilter 10 = some (none, [1003, 999, 1002]) ∧
    examplePruner.retainBlockNum = 1 ∧
    exampleStorage.LoadFromDB (exampleHeader 2).StateRoot
      = .ok { GetNodeHashes := .ok [1002, 999] } := by
  refine ⟨by decide, rfl, rfl⟩

section KeyLemmas

theorem hasPrefix_append (pre rest : List Nat) : hasPrefix (pre ++ rest) pre = true := by
  simp [hasPrefix, List.isPrefixOf_iff_prefix]

theorem hasPrefix_eq_true (key pre : List Nat) (h : hasPrefix key pre = true) :
    ∃ rest, key = pre ++ rest := by
  simp only [hasPrefix, List.isPrefixOf_iff_prefix] at h
  obtain ⟨rest, hrest⟩ := h
  exact ⟨rest, hrest.symm⟩

theorem trimPrefix_append (pre rest : List Nat) : trimPrefix (pre ++ rest) pre = rest := by
  simp [trimPrefix, hasPrefix_append]

end KeyLemmas

/-- C19: the key filter of `Prune` keeps every key that does not start with
`storagePrefix`; a key that starts with it, `storagePrefix` followed by
`rest`, is kept if and only if the bloom filter reports `rest` present. So no
key without the prefix is dropped. -/
theorem ChooseKey_keeps (p : Pruner) :
    (∀ key, hasPrefix key p.storagePrefix = false → p.ChooseKey key = true) ∧
    (∀ rest, p.ChooseKey (p.storagePrefix ++ rest) = p.bloom.contain rest) ∧
    (∀ key, hasPrefix key p.storagePrefix = true →
      ∃ rest, key = p.storagePrefix ++ rest ∧ trimPrefix key p.storagePrefix = rest ∧
        (p.ChooseKey key = true ↔ p.bloom.contain rest = true)) := by
  refine ⟨?_, ?_, ?_⟩
  · intro key hkey
    simp [Pruner.ChooseKey, hkey]
  · intro rest
    simp [Pruner.ChooseKey, hasPrefix_append, trimPrefix_append]
  · intro key hkey
    obtain ⟨rest, rfl⟩ := hasPrefix_eq_true key p.storagePrefix hkey
    exact ⟨rest, rfl, trimPrefix_append _ _,
      by simp [Pruner.ChooseKey, hasPrefix_append, trimPrefix_append]⟩

/-- The key filter of `examplePruner`, whose storage prefix is "storage" and
whose bloom filter has `[7, 7]`: a storage key in the filter and a key without
the prefix are kept, a storage key not in the filter is dropped. -/
theorem ChooseKey_examples :
    examplePruner.ChooseKey [115, 116, 111, 114, 97, 103, 101, 7, 7] = true ∧
    examplePruner.ChooseKey [115, 116, 111, 114, 97, 103, 101, 7] = false ∧
    examplePruner.ChooseKey [1, 2] = true := by
  decide

section MailerLemmas

/-- While the queue is full and the timer has not fired, the `select` waits. -/
theorem selectFrom_wait (queueAt : Nat → List Message) (msg : Message) (timeout : Nat)
    (k : Nat) :
    ∀ t fuel : Nat,
      (∀ u, t ≤ u → u < t + k → messageQueueCap ≤ (queueAt u).length ∧ u < timeout) →
      selectFrom queueAt msg timeout (fuel + k) t = selectFrom queueAt msg timeout fuel (t + k) := by
  induction k with
  | zero => intro t fuel _; rfl
  | succ k ih =>
    intro t fuel hfull
    obtain ⟨hq, ht⟩ := hfull t (Nat.le_refl t) (by omega)
    have hstep : selectFrom queueAt msg timeout (fuel + k + 1) t
        = selectFrom queueAt msg timeout (fuel + k) (t + 1) := by
      simp only [selectFrom]
      have h1 : ¬ (queueAt t).length < messageQueueCap := by omega
      have h2 : ¬ timeout ≤ t := by omega
      simp [h1, h2]
    rw [show fuel + (k + 1) = fuel + k + 1 by omega, hstep,
      ih (t + 1) fuel (fun u hu1 hu2 => hfull u (by omega) (by omega))]
    congr 1
    omega

end MailerLemmas

/-- C20: `SendMessage` returns by the tick at which its timer fires, whatever
the queue does. If the queue has room for the message at some tick before the
timer fires, the call returns nil at the first such tick, with the message
appended to the queue. If the queue holds 256 messages at every tick up to the
one at which the timer fires, the call returns `ErrTimoutMessageSending` and
the message is not enqueued. -/
theorem SendMessage_bounded (queueAt : Nat → List Message) (msg : Message) (timeout : Nat) :
    ((∃ t, t < timeout ∧ (queueAt t).length < messageQueueCap) →
      ∃ t0, t0 < timeout ∧ (queueAt t0).length < messageQueueCap ∧
        (∀ u, u < t0 → messageQueueCap ≤ (queueAt u).length) ∧
        SendMessage queueAt msg timeout
          = [{ err := none, tick := t0, queue := some (queueAt t0 ++ [msg]) }]) ∧
    ((∀ t, t ≤ timeout → messageQueueCap ≤ (queueAt t).length) →
      SendMessage queueAt msg timeout
        = [{ err := some ErrTimoutMessageSending, tick := timeout, queue := none }]) ∧
    (SendMessage queueAt msg timeout ≠ [] ∧
      ∀ r ∈ SendMessage queueAt msg timeout, r.tick ≤ timeout ∧
        (r.err = none ∨ r.err = some ErrTimoutMessageSending) ∧
        (r.err = none ↔ r.queue = some (queueAt r.tick ++ [msg])) ∧
        (r.err = some ErrTimoutMessageSending ↔ r.queue = none)) := by
  classical
  -- the first tick, up to the timeout, at which a case of the select is ready
  have hready : ∃ t, (queueAt t).length < messageQueueCap ∨ timeout ≤ t := ⟨timeout, Or.inr (Nat.le_refl _)⟩
  have hmin : ∀ m, m < Nat.find hready →
      ¬ ((queueAt m).length < messageQueueCap ∨ timeout ≤ m) :=
    fun m hm => Nat.find_min hready hm
  have hspec := Nat.find_spec hready
  have hle : Nat.find hready ≤ timeout := Nat.find_min' hready (Or.inr (Nat.le_refl _))
  have hwait : SendMessage queueAt msg timeout
      = selectFrom queueAt msg timeout (timeout - Nat.find hready + 1) (Nat.find hready) := by
    have h := selectFrom_wait queueAt msg timeout (Nat.find hready) 0
      (timeout - Nat.find hready + 1) (fun u _ hu => by
        have := hmin u (by omega)
        simp only [not_or, Nat.not_lt, Nat.not_le] at this
        exact this)
    rw [Nat.zero_add] at h
    rw [← h, SendMessage]
    congr 1
    omega
  refine ⟨?_, ?_, ?_⟩
  · rintro ⟨t, ht, hfree⟩
    have hlt : Nat.find hready < timeout :=
      Nat.lt_of_le_of_lt (Nat.find_min' hready (Or.inl hfree)) ht
    have hfree0 : (queueAt (Nat.find hready)).length < messageQueueCap := by
      rcases hspec with h | h
      · exact h
      · omega
    refine ⟨Nat.find hready, hlt, hfree0, ?_, ?_⟩
    · intro u hu
      have := hmin u hu
      simp only [not_or, Nat.not_lt] at this
      exact this.1
    · rw [hwait]
      simp only [selectFrom]
      have h2 : ¬ timeout ≤ Nat.find hready := by omega
      simp [hfree0, h2]
  · intro hfull
    have hfind : Nat.find hready = timeout := by
      rcases hspec with h | h
      · have := hfull _ hle
        omega
      · omega
    rw [hwait, hfind]
    simp only [selectFrom]
    have h1 : ¬ (queueAt timeout).length < messageQueueCap := by
      have := hfull timeout (Nat.le_refl _)
      omega
    simp [h1]
  · rw [hwait]
    simp only [selectFrom]
    by_cases h1 : (queueAt (Nat.find hready)).length < messageQueueCap <;>
      by_cases h2 : timeout ≤ Nat.find hready
    · simp [h1, h2, hle, ErrTimoutMessageSending]
    · simp [h1, h2, hle]
    · simp [h1, h2, hle, ErrTimoutMessageSending]
    · rcases hspec with h | h
      · exact absurd h h1
      · exact absurd h h2

set_option maxRecDepth 20000 in
/-- The three cases of C20 on the queue that is full until tick 3: with the
timer firing at tick 5 the message is sent at tick 3; with the timer firing at
tick 2 the call times out; with the timer firing at tick 3, as the queue gets
room, the `select` may take either case. -/
theorem SendMessage_examples :
    (SendMessage drainingQueue 7 5).map (fun r => (r.err, r.tick, r.queue.map List.length))
      = [(none, 3, some 256)] ∧
    (SendMessage drainingQueue 7 2).map (fun r => (r.err, r.tick, r.queue.map List.length))
      = [(some "timeout sending telemetry message", 2, none)] ∧
    (SendMessage drainingQueue 7 3).map (fun r => (r.err, r.tick, r.queue.map List.length))
      = [(none, 3, some 256), (some "timeout sending telemetry message", 3, none)] := by
  decide

/-! ### The blocks whose tries `SetBloomFilter` loads -/

section PrunerLemmas

theorem wrapInt64_of_range (x : Int) (h1 : -(2 ^ 63) ≤ x) (h2 : x < 2 ^ 63) :
    wrapInt64 x = x := by
  unfold wrapInt64
  omega

theorem mem_addKeys (hashes : List Hash) :
    ∀ (keys : List Hash) (h : Hash), h ∈ addKeys keys hashes ↔ h ∈ keys ∨ h ∈ hashes := by
  induction hashes with
  | nil => intro keys h; simp [addKeys]
  | cons x xs ih =>
    intro keys h
    have hstep : addKeys keys (x :: xs) = addKeys (if x ∈ keys then keys else keys ++ [x]) xs := by
      simp [addKeys]
    rw [hstep, ih]
    by_cases hx : x ∈ keys
    · simp only [hx, if_true, List.mem_cons]
      constructor
      · rintro (h1 | h1)
        · exact Or.inl h1
        · exact Or.inr (Or.inr h1)
      · rintro (h1 | h1 | h1)
        · exact Or.inl h1
        · exact Or.inl (h1 ▸ hx)
        · exact Or.inr h1
    · simp only [hx, if_false, List.mem_append, List.mem_singleton, List.mem_cons]
      tauto

theorem putKeys_ok (p : Pruner) (hput : ∀ h, p.bloom.put h = none) (keys : List Hash) :
    ∀ put : List Hash, p.putKeys keys put = (none, put ++ keys) := by
  induction keys with
  | nil => intro put; simp [Pruner.putKeys]
  | cons k ks ih =>
    intro put
    simp only [Pruner.putKeys, hput, ih]
    simp

/-- The block loop on a chain of headers up to block `N`: started at block `j`
with the threshold `t`, it loads the tries of the blocks `t` to `j` and ends,
within `j + 2 - t` iterations. -/
theorem collectKeys_chain (p : Pruner) (chain : Nat → Header) (tries : Nat → List Hash)
    (latest : Int) (N t : Nat) (ht : 1 ≤ t) (hN : (N : Int) < 2 ^ 63)
    (hthr : wrapInt64 (latest - wrapInt64 p.retainBlockNum) = (t : Int))
    (hnum : ∀ k, k ≤ N → (chain k).Number = k)
    (hparent : ∀ k, k < N → p.blockState.GetHeader (chain (k + 1)).ParentHash = .ok (chain k))
    (htrie : ∀ k, k ≤ N → p.storageState.LoadFromDB (chain k).StateRoot
      = .ok { GetNodeHashes := .ok (tries k) })
    (d : Nat) :
    ∀ (j : Nat) (acc : List Hash), j + 1 = t + d → j ≤ N →
      ∃ keys, p.collectKeys latest (d + 1) (chain j) (wrapInt64 (chain j).Number) acc
          = some (.ok keys) ∧
        ∀ h, h ∈ keys ↔ h ∈ acc ∨ ∃ k, t ≤ k ∧ k ≤ j ∧ h ∈ tries k := by
  induction d with
  | zero =>
    intro j acc hj hjN
    refine ⟨acc, ?_, ?_⟩
    · have hw : wrapInt64 ((chain j).Number : Int) = (j : Int) := by
        rw [hnum j hjN]
        exact wrapInt64_of_range _ (by omega) (by omega)
      have hnot : ¬ ((0 : Int) < (j : Int) ∧ (t : Int) ≤ (j : Int)) := by omega
      rw [Pruner.collectKeys, hthr, hw, if_neg hnot]
    · intro h
      constructor
      · exact fun hh => Or.inl hh
      · rintro (hh | ⟨k, hk1, hk2, _⟩)
        · exact hh
        · omega
  | succ d ih =>
    intro j acc hj hjN
    obtain ⟨j1, rfl⟩ : ∃ j1, j = j1 + 1 := ⟨j - 1, by omega⟩
    have hw : wrapInt64 ((chain (j1 + 1)).Number : Int) = ((j1 + 1 : Nat) : Int) := by
      rw [hnum _ hjN]
      exact wrapInt64_of_range _ (by omega) (by omega)
    obtain ⟨keys, hkeys, hmem⟩ := ih j1 (addKeys acc (tries (j1 + 1))) (by omega) (by omega)
    refine ⟨keys, ?_, ?_⟩
    · have hcond : (0 : Int) < ((j1 + 1 : Nat) : Int) ∧ (t : Int) ≤ ((j1 + 1 : Nat) : Int) := by
        constructor <;> omega
      rw [Pruner.collectKeys, hthr, hw, if_pos hcond, htrie _ hjN]
      simp only
      rw [hparent j1 (by omega)]
      exact hkeys
    · intro h
      rw [hmem, mem_addKeys]
      constructor
      · rintro ((hh | hh) | ⟨k, hk1, hk2, hk3⟩)
        · exact Or.inl hh
        · exact Or.inr ⟨j1 + 1, by omega, Nat.le_refl _, hh⟩
        · exact Or.inr ⟨k, hk1, by omega, hk3⟩
      · rintro (hh | ⟨k, hk1, hk2, hk3⟩)
        · exact Or.inl (Or.inl hh)
        · by_cases hk : k = j1 + 1
          · exact Or.inl (Or.inr (hk ▸ hk3))
          · exact Or.inr ⟨k, hk1, by omega, hk3⟩

end PrunerLemmas

/-- What `SetBloomFilter` loads: on a chain of headers up to block `N` in which
every parent has the number one less than its child, with the finalised head
at block `N` and `retainBlockNum = r < N`, when every lookup and every `put`
succeeds, `SetBloomFilter` returns nil within `r + 2` iterations of its block
loop and puts into the bloom filter exactly the node hashes of the state tries
of the blocks `N - r` to `N`: `r + 1` blocks. -/
theorem SetBloomFilter_blocks (p : Pruner) (chain : Nat → Header) (tries : Nat → List Hash)
    (N r : Nat) (fh : Hash) (hN : (N : Int) < 2 ^ 63) (hr : p.retainBlockNum = (r : Int))
    (hlt : r < N)
    (hfin : p.blockState.GetFinalizedHash = .ok fh)
    (hhead : p.blockState.GetHeader fh = .ok (chain N))
    (hnum : ∀ k, k ≤ N → (chain k).Number = k)
    (hparent : ∀ k, k < N → p.blockState.GetHeader (chain (k + 1)).ParentHash = .ok (chain k))
    (htrie : ∀ k, k ≤ N → p.storageState.LoadFromDB (chain k).StateRoot
      = .ok { GetNodeHashes := .ok (tries k) })
    (hput : ∀ h, p.bloom.put h = none) :
    ∃ keys, p.SetBloomFilter (r + 2) = some (none, keys) ∧
      ∀ h, h ∈ keys ↔ ∃ k, N - r ≤ k ∧ k ≤ N ∧ h ∈ tries k := by
  have hwN : wrapInt64 ((chain N).Number : Int) = (N : Int) := by
    rw [hnum N (Nat.le_refl N)]
    exact wrapInt64_of_range _ (by omega) hN
  have hwr : wrapInt64 p.retainBlockNum = (r : Int) := by
    rw [hr]
    exact wrapInt64_of_range _ (by omega) (by omega)
  have hthr : wrapInt64 ((N : Int) - wrapInt64 p.retainBlockNum) = ((N - r : Nat) : Int) := by
    rw [hwr, wrapInt64_of_range _ (by omega) (by omega)]
    omega
  obtain ⟨keys, hkeys, hmem⟩ := collectKeys_chain p chain tries (N : Int) N (N - r) (by omega)
    hN hthr hnum hparent htrie (r + 1) N [] (by omega) (Nat.le_refl N)
  refine ⟨keys, ?_, ?_⟩
  · have hpos : ¬ (((N - r : Nat) : Int) ≤ 0) := by omega
    rw [hwN] at hkeys
    simp only [Pruner.SetBloomFilter, hfin, hhead, hwN, hthr, if_neg hpos, hkeys]
    simp [putKeys_ok p hput]
  · intro h
    rw [hmem]
    simp

/-- The chain of `examplePruner` for `SetBloomFilter_blocks`: with the head at
block 3 and one block to retain, the keys put are the node hashes of the
blocks 2 and 3. -/
theorem SetBloomFilter_blocks_witness :
    ∃ keys, examplePruner.SetBloomFilter (1 + 2) = some (none, keys) ∧
      ∀ h, h ∈ keys ↔ ∃ k, 3 - 1 ≤ k ∧ k ≤ 3 ∧ h ∈ [1000 + k, 999] :=
  SetBloomFilter_blocks examplePruner exampleHeader (fun k => [1000 + k, 999]) 3 1 13
    (by norm_num) rfl (by decide) rfl rfl (fun _ _ => rfl)
    (fun k hk => by interval_cases k <;> rfl)
    (fun k hk => by interval_cases k <;> rfl) (fun _ => rfl)

/-! ### The guard and the end of the block loop of `SetBloomFilter` -/

section PrunerTermination

/-- On headers among which every parent has a smaller number than its child,
the block loop ends within as many iterations as the number of the header it
starts from, plus one. -/
theorem collectKeys_terminates (p : Pruner) (latest : Int) (good : Header → Prop)
    (hdec : ∀ h, good h → ∀ parent, p.blockState.GetHeader h.ParentHash = .ok parent →
      good parent ∧ parent.Number < h.Number)
    (n : Nat) :
    ∀ (header : Header) (keys : List Hash), good header → header.Number ≤ n →
      (p.collectKeys latest (n + 1) header (wrapInt64 header.Number) keys).isSome = true := by
  induction n with
  | zero =>
    intro header keys _ hn
    have hz : header.Number = 0 := by omega
    have hw : wrapInt64 ((header.Number : Nat) : Int) = 0 := by
      rw [hz]
      rfl
    rw [Pruner.collectKeys, hw]
    simp
  | succ n ih =>
    intro header keys hgood hn
    rw [Pruner.collectKeys]
    split
    · split
      · rfl
      · split
        · rfl
        · split
          · rfl
          · next parent hparent =>
            obtain ⟨hg, hlt⟩ := hdec header hgood parent hparent
            exact ih parent _ hg (by omega)
    · rfl

end PrunerTermination

/-- C21: with the finalised head `header` of number `N`, when
`N - retainBlockNum <= 0` (for a `retainBlockNum` in the range of `int64`),
`SetBloomFilter` returns the error "not enough block to perform pruning" and
has put no key into the bloom filter; the result is the same whatever the
storage state and the bloom filter are, so no trie is loaded. When every
parent among the headers reached from the head has a smaller number than its
child, the block loop ends: `SetBloomFilter` returns within `N + 1`
iterations of it. -/
theorem SetBloomFilter_not_enough (p : Pruner) (fh : Hash) (header : Header)
    (hfin : p.blockState.GetFinalizedHash = .ok fh)
    (hhead : p.blockState.GetHeader fh = .ok header) :
    (-(2 ^ 63) ≤ p.retainBlockNum → p.retainBlockNum < 2 ^ 63 →
      (header.Number : Int) - p.retainBlockNum ≤ 0 →
      ∀ fuel, p.SetBloomFilter fuel = some (some "not enough block to perform pruning", []) ∧
        ∀ ss bl, { p with storageState := ss, bloom := bl }.SetBloomFilter fuel
          = some (some "not enough block to perform pruning", [])) ∧
    (∀ good : Header → Prop, good header →
      (∀ h, good h → ∀ parent, p.blockState.GetHeader h.ParentHash = .ok parent →
        good parent ∧ parent.Number < h.Number) →
      (p.SetBloomFilter (header.Number + 1)).isSome = true) := by
  constructor
  · intro hlo hhi hle fuel
    have hwr : wrapInt64 p.retainBlockNum = p.retainBlockNum := wrapInt64_of_range _ hlo hhi
    have hwN : wrapInt64 ((header.Number : Nat) : Int) = (header.Number : Int) :=
      wrapInt64_of_range _ (by omega) (by omega)
    have hthr : wrapInt64 ((header.Number : Int) - p.retainBlockNum)
        = (header.Number : Int) - p.retainBlockNum :=
      wrapInt64_of_range _ (by omega) (by omega)
    refine ⟨?_, fun ss bl => ?_⟩
    · simp only [Pruner.SetBloomFilter, hfin, hhead, hwN, hwr, hthr, if_pos hle]
    · simp only [Pruner.SetBloomFilter, hfin, hhead, hwN, hwr, hthr, if_pos hle]
  · intro good hgood hdec
    have hterm := collectKeys_terminates p (wrapInt64 header.Number) good hdec header.Number
      header [] hgood (Nat.le_refl _)
    simp only [Pruner.SetBloomFilter, hfin, hhead]
    split
    · rfl
    · split
      · next hnone => rw [hnone] at hterm; cases hterm
      · rfl
      · rfl

/-- C21 on the example database, with three blocks to retain and the head at
block 3: the error, and no key put. With one block to retain the loop ends
within four iterations. -/
theorem SetBloomFilter_not_enough_witness :
    { examplePruner with retainBlockNum := 3 }.SetBloomFilter 10
      = some (some "not enough block to perform pruning", []) ∧
    (examplePruner.SetBloomFilter ((exampleHeader 3).Number + 1)).isSome = true :=
  ⟨((SetBloomFilter_not_enough { examplePruner with retainBlockNum := 3 } 13 (exampleHeader 3)
      rfl rfl).1 (by decide) (by decide) (by decide) 10).1,
   (SetBloomFilter_not_enough examplePruner 13 (exampleHeader 3) rfl rfl).2
      (fun h => ∃ k, k ≤ 3 ∧ h = exampleHeader k) ⟨3, Nat.le_refl 3, rfl⟩
      (by
        rintro h ⟨k, hk, rfl⟩ parent hparent
        interval_cases k
        · simp [exampleHeader, examplePruner, exampleBlocks] at hparent
        · simp only [exampleHeader, examplePruner, exampleBlocks] at hparent
          cases hparent
          exact ⟨⟨0, by omega, rfl⟩, by decide⟩
        · simp only [exampleHeader, examplePruner, exampleBlocks] at hparent
          cases hparent
          exact ⟨⟨1, by omega, rfl⟩, by decide⟩
        · simp only [exampleHeader, examplePruner, exampleBlocks] at hparent
          cases hparent
          exact ⟨⟨2, by omega, rfl⟩, by decide⟩)⟩

/-! ## Properties of the GRANDPA network handler -/

/-- C22: `handleNetworkMessage` returns `(true, nil)` if and only if the
message is a non-nil `*ConsensusMessage` with at least 2 data bytes that
decodes, is handled without error and is neither a `NeighbourPacketV1` nor a
`CatchUpResponse`, which is to say a `VoteMessage`, a `CommitMessage` or a
`CatchUpRequest`. It returns `(false, nil)` for a nil message, for data of
fewer than 2 bytes, without a call of the message handler, and for a handled
`NeighbourPacketV1` or `CatchUpResponse`; `(false, ErrInvalidMessageType)` for
a message of another type; `(false, err)` for a decode error and for a handler
error `err`. `decodeMessage` gives each of the five message types for the
value of that type and an error for every other outcome of the unmarshalling.
The handler is called once, on the decoded message, exactly when the message
decodes, and a non-nil `*ConsensusMessage` it answers with is gossiped. -/
theorem handleNetworkMessage_results (s : Service) (sender : PeerID)
    (msg : Option NotificationsMessage) :
    ((∃ r, s.handleNetworkMessage sender msg = some r ∧ r.propagate = true ∧ r.err = none) ↔
      ∃ cm m resp, msg = some (.consensus (some cm)) ∧ 2 ≤ cm.Data.length ∧
        s.decodeMessage cm = .ok m ∧ s.handleMessage sender m = .ok resp ∧
        (∀ v, m ≠ .NeighbourPacketV1 v) ∧ (∀ v, m ≠ .CatchUpResponse v)) ∧
    ((∃ r, s.handleNetworkMessage sender msg = some r ∧ r.propagate = true ∧ r.err = none) ↔
      ∃ cm v resp, msg = some (.consensus (some cm)) ∧ 2 ≤ cm.Data.length ∧
        ((s.Unmarshal cm.Data = .ok (.ok (.VoteMessage v)) ∧
            s.handleMessage sender (.VoteMessage v) = .ok resp) ∨
          (s.Unmarshal cm.Data = .ok (.ok (.CommitMessage v)) ∧
            s.handleMessage sender (.CommitMessage v) = .ok resp) ∨
          (s.Unmarshal cm.Data = .ok (.ok (.CatchUpRequest v)) ∧
            s.handleMessage sender (.CatchUpRequest v) = .ok resp))) ∧
    (msg = none → s.handleNetworkMessage sender msg
      = some { propagate := false, err := none, handled := [], gossiped := [] }) ∧
    (∀ tag, msg = some (.other tag) → s.handleNetworkMessage sender msg
      = some { propagate := false, err := some s.ErrInvalidMessageType, handled := [],
               gossiped := [] }) ∧
    (∀ cm,
      (∀ v, s.Unmarshal cm.Data = .ok (.ok (.VoteMessage v)) →
        s.decodeMessage cm = .ok (.VoteMessage v)) ∧
      (∀ v, s.Unmarshal cm.Data = .ok (.ok (.CommitMessage v)) →
        s.decodeMessage cm = .ok (.CommitMessage v)) ∧
      (∀ v, s.Unmarshal cm.Data
          = .ok (.ok (.VersionedNeighbourPacket (.ok (.NeighbourPacketV1 v)))) →
        s.decodeMessage cm = .ok (.NeighbourPacketV1 v)) ∧
      (∀ v, s.Unmarshal cm.Data = .ok (.ok (.CatchUpRequest v)) →
        s.decodeMessage cm = .ok (.CatchUpRequest v)) ∧
      (∀ v, s.Unmarshal cm.Data = .ok (.ok (.CatchUpResponse v)) →
        s.decodeMessage cm = .ok (.CatchUpResponse v)) ∧
      (∀ err, s.Unmarshal cm.Data = .error err → s.decodeMessage cm = .error err) ∧
      (∀ err, s.Unmarshal cm.Data = .ok (.error err) →
        s.decodeMessage cm = .error ("getting message value: " ++ err)) ∧
      (∀ err, s.Unmarshal cm.Data = .ok (.ok (.VersionedNeighbourPacket (.error err))) →
        s.decodeMessage cm = .error ("getting versioned neighbour packet value: " ++ err)) ∧
      (∀ tag, s.Unmarshal cm.Data = .ok (.ok (.VersionedNeighbourPacket (.ok (.other tag)))) →
        s.decodeMessage cm = .error s.ErrInvalidMessageType) ∧
      (∀ tag, s.Unmarshal cm.Data = .ok (.ok (.other tag)) →
        s.decodeMessage cm = .error s.ErrInvalidMessageType)) ∧
    (∀ cm, msg = some (.consensus (some cm)) →
      (cm.Data.length < 2 → s.handleNetworkMessage sender msg
        = some { propagate := false, err := none, handled := [], gossiped := [] }) ∧
      (2 ≤ cm.Data.length →
        (∀ err, s.decodeMessage cm = .error err → s.handleNetworkMessage sender msg
          = some { propagate := false, err := some err, handled := [], gossiped := [] }) ∧
        (∀ m, s.decodeMessage cm = .ok m →
          (∀ err, s.handleMessage sender m = .error err → s.handleNetworkMessage sender msg
            = some { propagate := false, err := some err, handled := [(sender, m)],
                     gossiped := [] }) ∧
          (∀ resp, s.handleMessage sender m = .ok resp →
            ∃ r, s.handleNetworkMessage sender msg = some r ∧ r.err = none ∧
              r.handled = [(sender, m)] ∧
              (∀ g, resp = some (.consensus (some g)) → r.gossiped = [.consensus (some g)]) ∧
              (resp = none → r.gossiped = []) ∧
              (resp = some (.consensus none) → r.gossiped = []) ∧
              (∀ tag, resp = some (.other tag) → r.gossiped = []) ∧
              (∀ v, m = .VoteMessage v → r.propagate = true) ∧
              (∀ v, m = .CommitMessage v → r.propagate = true) ∧
              (∀ v, m = .CatchUpRequest v → r.propagate = true) ∧
              (∀ v, m = .NeighbourPacketV1 v → r.propagate = false) ∧
              (∀ v, m = .CatchUpResponse v → r.propagate = false))))) := by
  have hdec : ∀ cm : ConsensusMessage,
      (∀ v, s.Unmarshal cm.Data = .ok (.ok (.VoteMessage v)) →
        s.decodeMessage cm = .ok (.VoteMessage v)) ∧
      (∀ v, s.Unmarshal cm.Data = .ok (.ok (.CommitMessage v)) →
        s.decodeMessage cm = .ok (.CommitMessage v)) ∧
      (∀ v, s.Unmarshal cm.Data
          = .ok (.ok (.VersionedNeighbourPacket (.ok (.NeighbourPacketV1 v)))) →
        s.decodeMessage cm = .ok (.NeighbourPacketV1 v)) ∧
      (∀ v, s.Unmarshal cm.Data = .ok (.ok (.CatchUpRequest v)) →
        s.decodeMessage cm = .ok (.CatchUpRequest v)) ∧
      (∀ v, s.Unmarshal cm.Data = .ok (.ok (.CatchUpResponse v)) →
        s.decodeMessage cm = .ok (.CatchUpResponse v)) ∧
      (∀ err, s.Unmarshal cm.Data = .error err → s.decodeMessage cm = .error err) ∧
      (∀ err, s.Unmarshal cm.Data = .ok (.error err) →
        s.decodeMessage cm = .error ("getting message value: " ++ err)) ∧
      (∀ err, s.Unmarshal cm.Data = .ok (.ok (.VersionedNeighbourPacket (.error err))) →
        s.decodeMessage cm = .error ("getting versioned neighbour packet value: " ++ err)) ∧
      (∀ tag, s.Unmarshal cm.Data = .ok (.ok (.VersionedNeighbourPacket (.ok (.other tag)))) →
        s.decodeMessage cm = .error s.ErrInvalidMessageType) ∧
      (∀ tag, s.Unmarshal cm.Data = .ok (.ok (.other tag)) →
        s.decodeMessage cm = .error s.ErrInvalidMessageType) := by
    intro cm
    refine ⟨?_, ?_, ?_, ?_, ?_, ?_, ?_, ?_, ?_, ?_⟩ <;>
      (intro v h; simp only [Service.decodeMessage, h])
  have hfirst : (∃ r, s.handleNetworkMessage sender msg = some r ∧ r.propagate = true ∧
        r.err = none) ↔
      ∃ cm m resp, msg = some (.consensus (some cm)) ∧ 2 ≤ cm.Data.length ∧
        s.decodeMessage cm = .ok m ∧ s.handleMessage sender m = .ok resp ∧
        (∀ v, m ≠ .NeighbourPacketV1 v) ∧ (∀ v, m ≠ .CatchUpResponse v) := by
    constructor
    · rintro ⟨r, hr, hp, he⟩
      cases msg with
      | none =>
        simp only [Service.handleNetworkMessage, Option.some.injEq] at hr
        subst hr
        simp at hp
      | some nm =>
        cases nm with
        | other tag =>
          simp only [Service.handleNetworkMessage, Option.some.injEq] at hr
          subst hr
          simp at hp
        | consensus cmo =>
          cases cmo with
          | none => simp [Service.handleNetworkMessage] at hr
          | some cm =>
            simp only [Service.handleNetworkMessage] at hr
            by_cases hlen : cm.Data.length < 2
            · simp only [hlen, if_true, Option.some.injEq] at hr
              subst hr
              simp at hp
            · simp only [hlen, if_false] at hr
              cases hd : s.decodeMessage cm with
              | error err =>
                simp only [hd, Option.some.injEq] at hr
                subst hr
                simp at hp
              | ok m =>
                simp only [hd] at hr
                cases hh : s.handleMessage sender m with
                | error err =>
                  simp only [hh, Option.some.injEq] at hr
                  subst hr
                  simp at hp
                | ok resp =>
                  simp only [hh] at hr
                  cases hn : m.isNeighbourOrCatchUpResponse with
                  | true =>
                    simp only [hn, if_true, Option.some.injEq] at hr
                    subst hr
                    simp at hp
                  | false =>
                    refine ⟨cm, m, resp, rfl, by omega, hd, hh, ?_, ?_⟩
                    · rintro v rfl
                      simp [GrandpaMessage.isNeighbourOrCatchUpResponse] at hn
                    · rintro v rfl
                      simp [GrandpaMessage.isNeighbourOrCatchUpResponse] at hn
    · rintro ⟨cm, m, resp, rfl, hlen, hd, hh, hn1, hn2⟩
      have hlen2 : ¬ cm.Data.length < 2 := by omega
      have hn : m.isNeighbourOrCatchUpResponse = false := by
        cases m with
        | NeighbourPacketV1 v => exact absurd rfl (hn1 v)
        | CatchUpResponse v => exact absurd rfl (hn2 v)
        | VoteMessage v => rfl
        | CommitMessage v => rfl
        | CatchUpRequest v => rfl
      simp only [Service.handleNetworkMessage, hlen2, if_false, hd, hh, hn]
      exact ⟨_, rfl, rfl, rfl⟩
  have hsecond : (∃ cm m resp, msg = some (.consensus (some cm)) ∧ 2 ≤ cm.Data.length ∧
        s.decodeMessage cm = .ok m ∧ s.handleMessage sender m = .ok resp ∧
        (∀ v, m ≠ .NeighbourPacketV1 v) ∧ (∀ v, m ≠ .CatchUpResponse v)) ↔
      ∃ cm v resp, msg = some (.consensus (some cm)) ∧ 2 ≤ cm.Data.length ∧
        ((s.Unmarshal cm.Data = .ok (.ok (.VoteMessage v)) ∧
            s.handleMessage sender (.VoteMessage v) = .ok resp) ∨
          (s.Unmarshal cm.Data = .ok (.ok (.CommitMessage v)) ∧
            s.handleMessage sender (.CommitMessage v) = .ok resp) ∨
          (s.Unmarshal cm.Data = .ok (.ok (.CatchUpRequest v)) ∧
            s.handleMessage sender (.CatchUpRequest v) = .ok resp)) := by
    constructor
    · rintro ⟨cm, m, resp, hm, hlen, hd, hh, hn1, hn2⟩
      unfold Service.decodeMessage at hd
      cases hu : s.Unmarshal cm.Data with
      | error err => rw [hu] at hd; cases hd
      | ok value =>
        rw [hu] at hd
        cases value with
        | error err => cases hd
        | ok mv =>
          cases mv with
          | VoteMessage v =>
            cases hd
            exact ⟨cm, v, resp, hm, hlen, Or.inl ⟨hu, hh⟩⟩
          | CommitMessage v =>
            cases hd
            exact ⟨cm, v, resp, hm, hlen, Or.inr (Or.inl ⟨hu, hh⟩)⟩
          | CatchUpRequest v =>
            cases hd
            exact ⟨cm, v, resp, hm, hlen, Or.inr (Or.inr ⟨hu, hh⟩)⟩
          | CatchUpResponse v =>
            cases hd
            exact absurd rfl (hn2 v)
          | other tag => cases hd
          | VersionedNeighbourPacket inner =>
            cases inner with
            | error err => cases hd
            | ok nv =>
              cases nv with
              | NeighbourPacketV1 v =>
                cases hd
                exact absurd rfl (hn1 v)
              | other tag => cases hd
    · rintro ⟨cm, v, resp, hm, hlen, hcase⟩
      rcases hcase with ⟨hu, hh⟩ | ⟨hu, hh⟩ | ⟨hu, hh⟩
      · exact ⟨cm, _, resp, hm, hlen, (hdec cm).1 v hu, hh,
          fun _ h => GrandpaMessage.noConfusion h, fun _ h => GrandpaMessage.noConfusion h⟩
      · exact ⟨cm, _, resp, hm, hlen, (hdec cm).2.1 v hu, hh,
          fun _ h => GrandpaMessage.noConfusion h, fun _ h => GrandpaMessage.noConfusion h⟩
      · exact ⟨cm, _, resp, hm, hlen, (hdec cm).2.2.2.1 v hu, hh,
          fun _ h => GrandpaMessage.noConfusion h, fun _ h => GrandpaMessage.noConfusion h⟩
  refine ⟨hfirst, hfirst.trans hsecond, ?_, ?_, hdec, ?_⟩
  · rintro rfl
    rfl
  · rintro tag rfl
    rfl
  · rintro cm rfl
    refine ⟨?_, ?_⟩
    · intro hlen
      simp [Service.handleNetworkMessage, hlen]
    · intro hlen
      have hlen2 : ¬ cm.Data.length < 2 := by omega
      refine ⟨?_, ?_⟩
      · intro err hd
        simp [Service.handleNetworkMessage, hlen2, hd]
      · intro m hd
        refine ⟨?_, ?_⟩
        · intro err hh
          simp [Service.handleNetworkMessage, hlen2, hd, hh]
        · intro resp hh
          obtain ⟨r, hr, he, hcalls, hg, hp⟩ :
              ∃ r, s.handleNetworkMessage sender (some (.consensus (some cm))) = some r ∧
                r.err = none ∧ r.handled = [(sender, m)] ∧
                r.gossiped = (match resp with
                  | some (.consensus (some g)) => [.consensus (some g)]
                  | _ => []) ∧
                r.propagate = !m.isNeighbourOrCatchUpResponse := by
            simp only [Service.handleNetworkMessage, hlen2, if_false, hd, hh]
            cases m.isNeighbourOrCatchUpResponse <;>
              cases resp with
              | none => exact ⟨_, rfl, rfl, rfl, rfl, rfl⟩
              | some nm =>
                cases nm with
                | other tag => exact ⟨_, rfl, rfl, rfl, rfl, rfl⟩
                | consensus g => cases g <;> exact ⟨_, rfl, rfl, rfl, rfl, rfl⟩
          refine ⟨r, hr, he, hcalls, ?_, ?_, ?_, ?_, ?_, ?_, ?_, ?_, ?_⟩
          · rintro g rfl
            exact hg
          · rintro rfl
            exact hg
          · rintro rfl
            exact hg
          · rintro tag rfl
            exact hg
          · rintro v rfl
            exact hp
          · rintro v rfl
            exact hp
          · rintro v rfl
            exact hp
          · rintro v rfl
            exact hp
          · rintro v rfl
            exact hp

/-- The cases of C22 on `exampleService`: a vote is handled and propagated, a
commit fails in the handler, a neighbour packet is handled and not propagated,
one data byte is dropped without a call of the handler, an unknown value and a
message of another type are invalid, a nil message is dropped, and a nil
`*ConsensusMessage` panics. -/
theorem handleNetworkMessage_examples :
    exampleService.handleNetworkMessage 1 (some (.consensus (some { Data := [0, 5] })))
      = some { propagate := true, err := none, handled := [(1, .VoteMessage 0)],
               gossiped := [.consensus (some { Data := [7, 7] })] } ∧
    exampleService.handleNetworkMessage 1 (some (.consensus (some { Data := [1, 5] })))
      = some { propagate := false, err := some "bad commit",
               handled := [(1, .CommitMessage 0)], gossiped := [] } ∧
    exampleService.handleNetworkMessage 1 (some (.consensus (some { Data := [2, 5] })))
      = some { propagate := false, err := none, handled := [(1, .NeighbourPacketV1 0)],
               gossiped := [] } ∧
    exampleService.handleNetworkMessage 1 (some (.consensus (some { Data := [2] })))
      = some { propagate := false, err := none, handled := [], gossiped := [] } ∧
    exampleService.handleNetworkMessage 1 (some (.consensus (some { Data := [9, 9] })))
      = some { propagate := false, err := some "invalid message type", handled := [],
               gossiped := [] } ∧
    exampleService.handleNetworkMessage 1 (some (.other 3))
      = some { propagate := false, err := some "invalid message type", handled := [],
               gossiped := [] } ∧
    exampleService.handleNetworkMessage 1 none
      = some { propagate := false, err := none, handled := [], gossiped := [] } ∧
    exampleService.handleNetworkMessage 1 (some (.consensus none)) = none := by
  decide

/-! ## Properties of the bootstrap of the telemetry mailer -/

section MailerLemmas

theorem firstSuccess_some (w : DialWorld) (i : Nat) (v : TelemetryEndpoint) :
    ∀ (left a a0 c : Nat), firstSuccess w i v left a = some (a0, c) ↔
      (a ≤ a0 ∧ a0 < a + left ∧ w.Dial i a0 v.Endpoint = .ok c ∧
        ∀ b, a ≤ b → b < a0 → ∃ e, w.Dial i b v.Endpoint = .error e) := by
  intro left
  induction left with
  | zero =>
    intro a a0 c
    simp only [firstSuccess, Nat.add_zero]
    constructor
    · intro h
      cases h
    · rintro ⟨h1, h2, _⟩
      omega
  | succ n ih =>
    intro a a0 c
    rw [firstSuccess]
    cases hd : w.Dial i a v.Endpoint with
    | ok conn =>
      simp only [Option.some.injEq, Prod.mk.injEq]
      constructor
      · rintro ⟨rfl, rfl⟩
        exact ⟨le_refl _, by omega, hd, fun b h1 h2 => by omega⟩
      · rintro ⟨h1, h2, h3, h4⟩
        by_cases hEq : a0 = a
        · subst hEq
          rw [hd] at h3
          cases h3
          exact ⟨rfl, rfl⟩
        · obtain ⟨e, he⟩ := h4 a (le_refl _) (by omega)
          rw [hd] at he
          cases he
    | error e =>
      simp only
      rw [ih]
      constructor
      · rintro ⟨h1, h2, h3, h4⟩
        refine ⟨by omega, by omega, h3, fun b hb1 hb2 => ?_⟩
        by_cases hEq : b = a
        · subst hEq
          exact ⟨e, hd⟩
        · exact h4 b (by omega) hb2
      · rintro ⟨h1, h2, h3, h4⟩
        have hne : a0 ≠ a := by
          rintro rfl
          rw [hd] at h3
          cases h3
        exact ⟨by omega, by omega, h3, fun b hb1 hb2 => h4 b (by omega) hb2⟩

theorem firstSuccess_none (w : DialWorld) (i : Nat) (v : TelemetryEndpoint) :
    ∀ (left a : Nat), firstSuccess w i v left a = none ↔
      ∀ b, a ≤ b → b < a + left → ∃ e, w.Dial i b v.Endpoint = .error e := by
  intro left
  induction left with
  | zero =>
    intro a
    simp only [firstSuccess, Nat.add_zero, true_iff]
    intro b h1 h2
    omega
  | succ n ih =>
    intro a
    rw [firstSuccess]
    cases hd : w.Dial i a v.Endpoint with
    | ok conn =>
      simp only
      constructor
      · intro h
        cases h
      · intro h
        obtain ⟨e, he⟩ := h a (le_refl _) (by omega)
        rw [hd] at he
        cases he
    | error e =>
      simp only
      rw [ih]
      constructor
      · intro h b hb1 hb2
        by_cases hEq : b = a
        · subst hEq
          exact ⟨e, hd⟩
        · exact h b (by omega) (by omega)
      · intro h b hb1 hb2
        exact h b (by omega) (by omega)

theorem dialLoop_eq (w : DialWorld) (i : Nat) (v : TelemetryEndpoint)
    (hnc : ∀ a, w.ctxDone i a = false) :
    ∀ (left a : Nat) (log : List (Nat × Nat)), dialLoop w i v left a log =
      match firstSuccess w i v left a with
      | some (a0, c) =>
        (.connected c, log ++ (List.range' a (a0 + 1 - a)).map (fun b => (i, b)))
      | none => (.gaveUp, log ++ (List.range' a left).map (fun b => (i, b))) := by
  intro left
  induction left with
  | zero =>
    intro a log
    simp [dialLoop, firstSuccess]
  | succ n ih =>
    intro a log
    rw [dialLoop, firstSuccess]
    cases hd : w.Dial i a v.Endpoint with
    | ok conn =>
      have h1 : a + 1 - a = 1 := by omega
      simp [h1]
    | error e =>
      simp only [hnc a, Bool.false_eq_true, if_false]
      rw [ih]
      cases hf : firstSuccess w i v n (a + 1) with
      | none =>
        simp [List.range'_succ]
      | some ac =>
        obtain ⟨a0, c⟩ := ac
        have hge := ((firstSuccess_some w i v n (a + 1) a0 c).1 hf).1
        have h1 : a0 + 1 - a = (a0 + 1 - (a + 1)) + 1 := by omega
        simp only [h1, List.range'_succ]
        simp

theorem bootstrapFrom_eq (w : DialWorld) (hnc : ∀ i a, w.ctxDone i a = false) :
    ∀ (conns : List TelemetryEndpoint) (i : Nat) (acc : List telemetryConnection)
      (log : List (Nat × Nat)),
      bootstrapFrom w i conns acc log =
        { err := if (acc ++ (conns.enumFrom i).filterMap (connectionOf w)).length = 0
            then some ErrInsufficientConnections else none,
          connections := acc ++ (conns.enumFrom i).filterMap (connectionOf w),
          dials := log ++ (conns.enumFrom i).flatMap (attemptsOf w),
          shipping := !decide ((acc ++ (conns.enumFrom i).filterMap (connectionOf w)).length
            = 0) } := by
  intro conns
  induction conns with
  | nil =>
    intro i acc log
    by_cases h : acc.length = 0 <;> simp [bootstrapFrom, h]
  | cons v vs ih =>
    intro i acc log
    rw [bootstrapFrom, dialLoop_eq w i v (hnc i)]
    cases hf : firstSuccess w i v maxRetries 0 with
    | none =>
      have hc : connectionOf w (i, v) = none := by simp [connectionOf, hf]
      have ha : attemptsOf w (i, v)
          = (List.range' 0 maxRetries).map (fun b => (i, b)) := by
        simp [attemptsOf, hf, List.range_eq_range']
      simp only
      rw [ih]
      simp only [List.enumFrom_cons, List.filterMap_cons, List.flatMap_cons, hc, ha,
        List.append_assoc]
    | some ac =>
      obtain ⟨a0, c⟩ := ac
      have hc : connectionOf w (i, v) = some { wsconn := c, verbosity := v.Verbosity } := by
        simp [connectionOf, hf]
      have ha : attemptsOf w (i, v)
          = (List.range' 0 (a0 + 1 - 0)).map (fun b => (i, b)) := by
        simp [attemptsOf, hf, List.range_eq_range']
      simp only
      rw [ih]
      simp only [List.enumFrom_cons, List.filterMap_cons, List.flatMap_cons, hc, ha,
        List.append_assoc, List.singleton_append]

theorem mem_attemptsOf (w : DialWorld) (i : Nat) (v : TelemetryEndpoint) (j a : Nat) :
    (j, a) ∈ attemptsOf w (i, v) ↔
      j = i ∧ a < maxRetries ∧ ∀ b, b < a → ∃ e, w.Dial i b v.Endpoint = .error e := by
  unfold attemptsOf
  cases hf : firstSuccess w i v maxRetries 0 with
  | none =>
    have hn := (firstSuccess_none w i v maxRetries 0).1 hf
    simp only [List.mem_map, List.mem_range, Prod.mk.injEq]
    constructor
    · rintro ⟨b, hb, rfl, rfl⟩
      exact ⟨rfl, hb, fun b1 hb1 => hn b1 (Nat.zero_le _) (by omega)⟩
    · rintro ⟨rfl, ha, _⟩
      exact ⟨a, ha, rfl, rfl⟩
  | some ac =>
    obtain ⟨a0, c⟩ := ac
    obtain ⟨_, h2, h3, h4⟩ := (firstSuccess_some w i v maxRetries 0 a0 c).1 hf
    simp only [List.mem_map, List.mem_range, Prod.mk.injEq]
    constructor
    · rintro ⟨b, hb, rfl, rfl⟩
      exact ⟨rfl, by omega, fun b1 hb1 => h4 b1 (Nat.zero_le _) (by omega)⟩
    · rintro ⟨rfl, ha, hfail⟩
      refine ⟨a, ?_, rfl, rfl⟩
      by_contra hlt
      obtain ⟨e, he⟩ := hfail a0 (by omega)
      rw [h3] at he
      cases he

theorem nodup_attemptsOf (w : DialWorld) (p : Nat × TelemetryEndpoint) :
    (attemptsOf w p).Nodup := by
  have hinj : Function.Injective (fun b : Nat => (p.1, b)) := by
    intro x y hxy
    exact (Prod.mk.inj hxy).2
  unfold attemptsOf
  split
  · exact List.Nodup.map hinj (List.nodup_range _)
  · exact List.Nodup.map hinj (List.nodup_range _)

theorem nodup_dials (w : DialWorld) (conns : List TelemetryEndpoint) :
    (conns.enum.flatMap (attemptsOf w)).Nodup := by
  rw [List.nodup_flatMap]
  refine ⟨fun p _ => nodup_attemptsOf w p, ?_⟩
  have hfst : List.Pairwise (fun a b : Nat × TelemetryEndpoint => a.1 ≠ b.1) conns.enum := by
    have h := List.nodup_range' 0 conns.length 1 (by decide)
    rw [← List.enumFrom_map_fst 0 conns] at h
    exact List.pairwise_map.1 h
  refine hfst.imp ?_
  intro p q hpq x hx hy
  obtain ⟨j, a⟩ := x
  obtain ⟨i1, v1⟩ := p
  obtain ⟨i2, v2⟩ := q
  have h1 := ((mem_attemptsOf w i1 v1 j a).1 hx).1
  have h2 := ((mem_attemptsOf w i2 v2 j a).1 hy).1
  exact hpq (h1.symm.trans h2)

end MailerLemmas

/-- C23: with a context that is never done, `BootstrapMailer` returns
`ErrInsufficientConnections` if and only if every endpoint of `conns` fails all
of its `maxRetries = 5` dial attempts, in particular for an empty `conns`, and
otherwise returns nil and starts the shipment. Attempt `a` of endpoint `i` is
made exactly when `a < 5` and all earlier attempts of that endpoint failed, so
the retries of an endpoint stop at its first successful dial; no attempt is made
twice, and at most 5 are made per endpoint. The connections recorded are, in the
order of the endpoints, one per endpoint with a successful dial: the connection
of its first successful dial with the verbosity of that endpoint. -/
theorem BootstrapMailer_no_cancel (w : DialWorld) (conns : List TelemetryEndpoint)
    (hnc : ∀ i a, w.ctxDone i a = false) :
    ((BootstrapMailer w conns).err = some ErrInsufficientConnections ↔
      ∀ (i : Nat) (v : TelemetryEndpoint), conns[i]? = some v →
        ∀ a, a < maxRetries → ∃ e, w.Dial i a v.Endpoint = .error e) ∧
    ((BootstrapMailer w conns).err ≠ some ErrInsufficientConnections →
      (BootstrapMailer w conns).err = none ∧ (BootstrapMailer w conns).shipping = true) ∧
    (conns = [] → (BootstrapMailer w conns).err = some ErrInsufficientConnections) ∧
    maxRetries = 5 ∧
    (∀ (i a : Nat), (i, a) ∈ (BootstrapMailer w conns).dials ↔
      ∃ v, conns[i]? = some v ∧ a < maxRetries ∧
        ∀ b, b < a → ∃ e, w.Dial i b v.Endpoint = .error e) ∧
    (BootstrapMailer w conns).dials.Nodup ∧
    (∀ i : Nat,
      ((BootstrapMailer w conns).dials.filter (fun d => decide (d.1 = i))).length
        ≤ maxRetries) ∧
    (BootstrapMailer w conns).connections = conns.enum.filterMap (connectionOf w) ∧
    (∀ (i : Nat) (v : TelemetryEndpoint) (c : telemetryConnection),
      connectionOf w (i, v) = some c ↔
        c.verbosity = v.Verbosity ∧
        ∃ a, a < maxRetries ∧ w.Dial i a v.Endpoint = .ok c.wsconn ∧
          ∀ b, b < a → ∃ e, w.Dial i b v.Endpoint = .error e) := by
  have hb := bootstrapFrom_eq w hnc conns 0 [] []
  simp only [List.nil_append] at hb
  have hconn : (BootstrapMailer w conns).connections
      = conns.enum.filterMap (connectionOf w) := by
    unfold BootstrapMailer
    rw [hb]
    rfl
  have hdial : (BootstrapMailer w conns).dials = conns.enum.flatMap (attemptsOf w) := by
    unfold BootstrapMailer
    rw [hb]
    rfl
  have herr : (BootstrapMailer w conns).err
      = if (conns.enum.filterMap (connectionOf w)).length = 0
          then some ErrInsufficientConnections else none := by
    unfold BootstrapMailer
    rw [hb]
    rfl
  have hship : (BootstrapMailer w conns).shipping
      = !decide ((conns.enum.filterMap (connectionOf w)).length = 0) := by
    unfold BootstrapMailer
    rw [hb]
    rfl
  have hnone : ∀ (i : Nat) (v : TelemetryEndpoint), connectionOf w (i, v) = none ↔
      ∀ a, a < maxRetries → ∃ e, w.Dial i a v.Endpoint = .error e := by
    intro i v
    unfold connectionOf
    rw [Option.map_eq_none', firstSuccess_none]
    constructor
    · intro h a ha
      exact h a (Nat.zero_le _) (by omega)
    · intro h b _ hb
      exact h b (by omega)
  have hempty : (conns.enum.filterMap (connectionOf w)).length = 0 ↔
      ∀ (i : Nat) (v : TelemetryEndpoint), conns[i]? = some v →
        ∀ a, a < maxRetries → ∃ e, w.Dial i a v.Endpoint = .error e := by
    rw [List.length_eq_zero, List.filterMap_eq_nil_iff]
    constructor
    · intro h i v hv
      exact (hnone i v).1 (h (i, v) (List.mk_mem_enum_iff_getElem?.2 hv))
    · rintro h ⟨i, v⟩ hp
      exact (hnone i v).2 (h i v (List.mk_mem_enum_iff_getElem?.1 hp))
  have hmem : ∀ (i a : Nat), (i, a) ∈ (BootstrapMailer w conns).dials →
      ∃ v, conns[i]? = some v ∧ a < maxRetries ∧
        ∀ b, b < a → ∃ e, w.Dial i b v.Endpoint = .error e := by
    intro i a hx
    rw [hdial, List.mem_flatMap] at hx
    obtain ⟨⟨j, v⟩, hp, hx⟩ := hx
    obtain ⟨rfl, h2, h3⟩ := (mem_attemptsOf w j v i a).1 hx
    exact ⟨v, List.mk_mem_enum_iff_getElem?.1 hp, h2, h3⟩
  have hnodup : (BootstrapMailer w conns).dials.Nodup := by
    rw [hdial]
    exact nodup_dials w conns
  refine ⟨?_, ?_, ?_, rfl, ?_, hnodup, ?_, hconn, ?_⟩
  · by_cases hz : (conns.enum.filterMap (connectionOf w)).length = 0
    · rw [herr, if_pos hz]
      exact ⟨fun _ => hempty.1 hz, fun _ => rfl⟩
    · rw [herr, if_neg hz]
      exact ⟨fun h => Option.noConfusion h, fun h => absurd (hempty.2 h) hz⟩
  · intro hne
    by_cases hz : (conns.enum.filterMap (connectionOf w)).length = 0
    · rw [herr, if_pos hz] at hne
      exact absurd rfl hne
    · rw [herr, if_neg hz, hship]
      exact ⟨rfl, by simp [hz]⟩
  · rintro rfl
    rfl
  · intro i a
    constructor
    · exact hmem i a
    · rintro ⟨v, hv, h2, h3⟩
      rw [hdial, List.mem_flatMap]
      exact ⟨(i, v), List.mk_mem_enum_iff_getElem?.2 hv,
        (mem_attemptsOf w i v i a).2 ⟨rfl, h2, h3⟩⟩
  · intro i
    have hnd := hnodup.filter (fun d : Nat × Nat => decide (d.1 = i))
    have hsub : (BootstrapMailer w conns).dials.filter (fun d => decide (d.1 = i))
        ⊆ (List.range maxRetries).map (fun b => (i, b)) := by
      intro x hx
      obtain ⟨j, a⟩ := x
      rw [List.mem_filter] at hx
      obtain ⟨hm, hj⟩ := hx
      have hji : j = i := by simpa using hj
      subst hji
      obtain ⟨_, _, h2, _⟩ := hmem j a hm
      exact List.mem_map.2 ⟨a, List.mem_range.2 h2, rfl⟩
    have hle := (List.subperm_of_subset hnd hsub).length_le
    simpa using hle
  · intro i v c
    unfold connectionOf
    simp only [Option.map_eq_some']
    constructor
    · rintro ⟨⟨a, k⟩, hf, rfl⟩
      obtain ⟨_, h2, h3, h4⟩ := (firstSuccess_some w i v maxRetries 0 a k).1 hf
      exact ⟨rfl, a, by omega, h3, fun b hb => h4 b (Nat.zero_le _) hb⟩
    · rintro ⟨hv, a, ha, hd, hfail⟩
      refine ⟨(a, c.wsconn), (firstSuccess_some w i v maxRetries 0 a c.wsconn).2
        ⟨Nat.zero_le _, by omega, hd, fun b _ hb => hfail b hb⟩, ?_⟩
      cases c
      simp only [telemetryConnection.mk.injEq, true_and]
      exact hv.symm

/-- Witness of C23: in `exampleWorld` the context is never done, and for
`exampleEndpoints` the characterisation of the error, of the dial attempts and
of the connections holds. -/
theorem BootstrapMailer_no_cancel_witness :
    (∀ i a, exampleWorld.ctxDone i a = false) ∧
    ((BootstrapMailer exampleWorld exampleEndpoints).err = some ErrInsufficientConnections ↔
      ∀ (i : Nat) (v : TelemetryEndpoint), exampleEndpoints[i]? = some v →
        ∀ a, a < maxRetries → ∃ e, exampleWorld.Dial i a v.Endpoint = .error e) ∧
    (∀ (i a : Nat), (i, a) ∈ (BootstrapMailer exampleWorld exampleEndpoints).dials ↔
      ∃ v, exampleEndpoints[i]? = some v ∧ a < maxRetries ∧
        ∀ b, b < a → ∃ e, exampleWorld.Dial i b v.Endpoint = .error e) ∧
    (BootstrapMailer exampleWorld exampleEndpoints).connections
      = exampleEndpoints.enum.filterMap (connectionOf exampleWorld) :=
  ⟨fun _ _ => rfl,
    (BootstrapMailer_no_cancel exampleWorld exampleEndpoints (fun _ _ => rfl)).1,
    (BootstrapMailer_no_cancel exampleWorld exampleEndpoints (fun _ _ => rfl)).2.2.2.2.1,
    (BootstrapMailer_no_cancel exampleWorld exampleEndpoints (fun _ _ => rfl)).2.2.2.2.2.2.2.1⟩

/-- The function `BootstrapMailer` on examples: with `exampleEndpoints` in
`exampleWorld` the first endpoint is dialled 5 times, the second 3 times and
the third once, and two connections are recorded; an empty list of endpoints
and a single endpoint that never answers give `ErrInsufficientConnections`; in
`cancelledWorld` the error of the context is returned after two dials. -/
theorem BootstrapMailer_examples :
    BootstrapMailer exampleWorld exampleEndpoints
      = { err := none,
          connections := [{ wsconn := 102, verbosity := 1 }, { wsconn := 202, verbosity := 2 }],
          dials := [(0, 0), (0, 1), (0, 2), (0, 3), (0, 4), (1, 0), (1, 1), (1, 2), (2, 0)],
          shipping := true } ∧
    BootstrapMailer exampleWorld []
      = { err := some ErrInsufficientConnections, connections := [], dials := [],
          shipping := false } ∧
    BootstrapMailer exampleWorld [{ Endpoint := "ws://a", Verbosity := 0 }]
      = { err := some ErrInsufficientConnections, connections := [],
          dials := [(0, 0), (0, 1), (0, 2), (0, 3), (0, 4)], shipping := false } ∧
    BootstrapMailer cancelledWorld exampleEndpoints
      = { err := some "context canceled", connections := [], dials := [(0, 0), (0, 1)],
          shipping := false } := by
  decide

end Gossamer
